import Mathlib

/-!
# quick-note: the note document model

A shallow embedding of `internal/slug.go`, `internal/note.go`, `internal/find.go`,
`internal/list.go`, `internal/create.go` and the menu of `internal/prompt.go`.

Go strings that hold text are modelled by their sequence of runes (`List Char`); the inputs are
taken to be valid UTF-8. Where the source works with byte offsets (`len`, `strings.Index`, the
slice in `findExcerpt`) the model goes through the UTF-8 encoding `utf8`. The functions of the Go standard library the code calls (`strings`, `regexp`, `fmt`,
`unicode`, `strconv`) are modelled after their documented behaviour; the two Unicode tables they
consult outside the Latin range are parameters:

* `tbl : Char → Char`, the lower-case mapping of `unicode.ToLower` above `MaxASCII`;
* `prt : Char → Bool`, the printable table of `strconv.IsPrint` above `0xFF`.

The file system, the clock, `sort.Slice` and `fmt.Sscanf` are parameters as well: what
`ScanNotes` and `ReadTemplate` return, the date of today, the function that sorts, and the
number `Sscanf` reads from an answer.
-/

namespace QuickNote

/-- Text: the runes of a Go string. -/
abbrev Str := List Char

/-! ## The standard library -/

/-- The rune map `unicode.ToLower`: the ASCII fast path, then the case table `tbl`. -/
def unicodeToLower (tbl : Char → Char) (r : Char) : Char :=
  if r.toNat ≤ 0x7F then
    if 'A'.toNat ≤ r.toNat ∧ r.toNat ≤ 'Z'.toNat then Char.ofNat (r.toNat + 32) else r
  else tbl r

/-- The function `strings.ToLower`: every rune mapped by `unicode.ToLower`. -/
def ToLower (tbl : Char → Char) (s : Str) : Str := s.map (unicodeToLower tbl)

/-- The predicate `unicode.IsSpace` on the number of a rune: the Latin-1 switch, then the
White_Space table. -/
def isSpaceRune (n : Nat) : Bool :=
  if n ≤ 0xFF then
    n = 0x09 || n = 0x0A || n = 0x0B || n = 0x0C || n = 0x0D || n = 0x20 || n = 0x85 || n = 0xA0
  else
    n = 0x1680 || (0x2000 ≤ n && n ≤ 0x200A) || n = 0x2028 || n = 0x2029 || n = 0x202F
      || n = 0x205F || n = 0x3000

/-- The predicate `unicode.IsSpace`. -/
def isSpace (r : Char) : Bool := isSpaceRune r.toNat

/-- The function `strings.TrimSpace`: leading and trailing white space removed. -/
def TrimSpace (s : Str) : Str := (s.dropWhile isSpace).rdropWhile isSpace

/-- The function `strings.Trim(s, cutset)` for a cutset of one ASCII character: the trailing
occurrences are cut first, then the leading ones. -/
def Trim (s : Str) (c : Char) : Str := (s.rdropWhile (· == c)).dropWhile (· == c)

/-- The function `strings.Split(s, sep)` for a separator of one character. -/
def Split (s : Str) (sep : Char) : List Str := s.splitOn sep

/-- The function `strings.Join`. -/
def Join (parts : List Str) (sep : Str) : Str := sep.intercalate parts

/-- The bytes of a Go string. -/
abbrev Bytes := List Nat

/-- The UTF-8 encoding of one rune. -/
def utf8EncodeRune (c : Char) : Bytes :=
  let n := c.toNat
  if n < 0x80 then [n]
  else if n < 0x800 then [0xC0 + n / 64, 0x80 + n % 64]
  else if n < 0x10000 then [0xE0 + n / 4096, 0x80 + n / 64 % 64, 0x80 + n % 64]
  else [0xF0 + n / 262144, 0x80 + n / 4096 % 64, 0x80 + n / 64 % 64, 0x80 + n % 64]

/-- The bytes of a text: the UTF-8 encoding of its runes. -/
def utf8 (s : Str) : Bytes := s.flatMap utf8EncodeRune

/-- The length `len(s)` of a Go string: the number of its bytes. -/
def len (s : Str) : Nat := (utf8 s).length

/-- The search of `strings.Index(s, substr)` from offset `i` on. -/
def indexFrom (sub : Bytes) : Bytes → Nat → Int
  | [], i => if sub = [] then (i : Int) else -1
  | b :: s, i => if sub.isPrefixOf (b :: s) then (i : Int) else indexFrom sub s (i + 1)

/-- The function `strings.Index`: the byte offset of the first occurrence of `substr` in `s`, or
`-1`. -/
def Index (s substr : Bytes) : Int := indexFrom substr s 0

/-- The function `strings.Contains`: `Index(s, substr) >= 0`. -/
def Contains (s substr : Str) : Bool := decide (Index (utf8 s) (utf8 substr) ≥ 0)

/-- What a replacement pass writes for one maximal run of characters of the class of a pattern
`[class]{k,}`: the replacement text when the run is long enough to match, the run itself
otherwise. -/
def flushRun (k : Nat) (repl run : Str) : Str := if k ≤ run.length then repl else run

/-- The scan of `Regexp.ReplaceAllString` for a pattern `[class]{k,}` with `1 ≤ k`: `run` is the
run of class characters read so far. The quantifier is greedy, so a match is a maximal run. -/
def replaceRunsAux (p : Char → Bool) (k : Nat) (repl : Str) : Str → Str → Str
  | [], run => flushRun k repl run
  | c :: cs, run =>
    if p c then replaceRunsAux p k repl cs (run ++ [c])
    else flushRun k repl run ++ c :: replaceRunsAux p k repl cs []

/-- The call `re.ReplaceAllString(s, repl)` for `re = [class]{k,}`, with `p` the class. -/
def replaceRuns (p : Char → Bool) (k : Nat) (repl s : Str) : Str := replaceRunsAux p k repl s []

/-! ## slug.go -/

/-- The character class `[a-z0-9-]`. -/
def inSlugClass (c : Char) : Bool :=
  ('a'.toNat ≤ c.toNat && c.toNat ≤ 'z'.toNat) || ('0'.toNat ≤ c.toNat && c.toNat ≤ '9'.toNat)
    || c == '-'

/-- The pattern `nonAlphanumeric = [^a-z0-9-]+`, replaced throughout by `repl`. -/
def nonAlphanumericReplaceAll (s repl : Str) : Str := replaceRuns (fun c => !inSlugClass c) 1 repl s

/-- The pattern `multipleHyphens = -{2,}`, replaced throughout by `repl`. -/
def multipleHyphensReplaceAll (s repl : Str) : Str := replaceRuns (· == '-') 2 repl s

/-- The function `Slugify` of slug.go. -/
def Slugify (tbl : Char → Char) (title : Str) : Str :=
  let s := ToLower tbl title
  let s := nonAlphanumericReplaceAll s ['-']
  let s := multipleHyphensReplaceAll s ['-']
  let s := Trim s '-'
  s

/-- The loop of `NormalizeTags` over the parts. -/
def normalizeTagsLoop (tbl : Char → Char) : List Str → List Str
  | [] => []
  | p :: ps =>
    let tag := Slugify tbl (TrimSpace p)
    if tag ≠ [] then tag :: normalizeTagsLoop tbl ps else normalizeTagsLoop tbl ps

/-- The function `NormalizeTags` of slug.go. -/
def NormalizeTags (tbl : Char → Char) (input : Str) : List Str :=
  if TrimSpace input = [] then []
  else normalizeTagsLoop tbl (Split input ',')

/-! ## More of the standard library -/

/-- The function `strings.TrimPrefix(s, prefix)` for a prefix of one character. -/
def TrimPrefix (s : Str) (c : Char) : Str :=
  match s with
  | [] => []
  | d :: t => if d = c then t else d :: t

/-- The function `strings.TrimSuffix(s, suffix)` for a suffix of one character. -/
def TrimSuffix (s : Str) (c : Char) : Str :=
  if s.getLast? = some c then s.dropLast else s

/-- The function `strings.Index(s, substr)` for a substring of one character, with the offset
counted in runes: the source only slices the text at the offset it found, and the slices are
the same either way. The result is `-1` when the character does not occur. -/
def IndexChar (s : Str) (c : Char) : Int :=
  if c ∈ s then (s.indexOf c : Nat) else -1

/-- The digit table `lowerhex` of strconv. -/
def lowerhex (n : Nat) : Char := "0123456789abcdef".toList.getD (n % 16) '0'

/-- The function `strconv.IsPrint`: the Latin-1 fast path, then the table `prt`. -/
def IsPrint (prt : Char → Bool) (r : Char) : Bool :=
  let n := r.toNat
  if n ≤ 0xFF then
    if 0x20 ≤ n ∧ n ≤ 0x7E then true
    else if 0xA1 ≤ n ∧ n ≤ 0xFF then n ≠ 0xAD
    else false
  else prt r

/-- The function `appendEscapedRune` of strconv for the quote `"`, neither ASCII-only nor
graphic-only: what `%q` writes for one rune. -/
def appendEscapedRune (prt : Char → Bool) (r : Char) : Str :=
  let n := r.toNat
  if r = '"' ∨ r = '\\' then ['\\', r]
  else if IsPrint prt r then [r]
  else if n = 0x07 then ['\\', 'a']
  else if n = 0x08 then ['\\', 'b']
  else if n = 0x0C then ['\\', 'f']
  else if n = 0x0A then ['\\', 'n']
  else if n = 0x0D then ['\\', 'r']
  else if n = 0x09 then ['\\', 't']
  else if n = 0x0B then ['\\', 'v']
  else if n < 0x20 ∨ n = 0x7F then ['\\', 'x', lowerhex (n / 16), lowerhex n]
  else if n < 0x10000 then
    ['\\', 'u', lowerhex (n / 4096), lowerhex (n / 256), lowerhex (n / 16), lowerhex n]
  else
    ['\\', 'U', lowerhex (n / 268435456), lowerhex (n / 16777216), lowerhex (n / 1048576),
      lowerhex (n / 65536), lowerhex (n / 4096), lowerhex (n / 256), lowerhex (n / 16),
      lowerhex n]

/-- The function `strconv.Quote`, which the verb `%q` applies to a string. -/
def Quote (prt : Char → Bool) (s : Str) : Str :=
  '"' :: (s.map (appendEscapedRune prt)).flatten ++ ['"']

/-! ## note.go -/

/-- The record `Frontmatter` of note.go. -/
structure Frontmatter where
  /-- The title. -/
  Title : Str
  /-- The date, kept as text. -/
  Date : Str
  /-- The tags, in order. -/
  Tags : List Str
  /-- The status. -/
  Status : Str
  /-- The aliases, in order. -/
  Aliases : List Str
deriving DecidableEq

/-- The zero value `Frontmatter{}`. -/
def Frontmatter.zero : Frontmatter := ⟨[], [], [], [], []⟩

/-- The three results of `ParseFrontmatterFromBytes`; `err = none` is the nil error. -/
structure ParseResult where
  /-- The decoded header. -/
  fm : Frontmatter
  /-- The body. -/
  body : Str
  /-- The error. -/
  err : Option Str
deriving DecidableEq

/-- The function `parseYAMLLine` of note.go. -/
def parseYAMLLine (line : Str) : Str × Str × Bool :=
  let idx := IndexChar line ':'
  if idx < 0 then ([], [], false)
  else
    let key := TrimSpace (line.take idx.toNat)
    let value := TrimSpace (line.drop (idx.toNat + 1))
    (key, value, true)

/-- The loop of `parseYAMLList` over the parts. -/
def parseYAMLListLoop : List Str → List Str
  | [] => []
  | p :: ps =>
    let p := TrimSpace p
    if p ≠ [] then p :: parseYAMLListLoop ps else parseYAMLListLoop ps

/-- The function `parseYAMLList` of note.go. -/
def parseYAMLList (s : Str) : List Str :=
  let s := TrimSpace s
  let s := TrimPrefix s '['
  let s := TrimSuffix s ']'
  if s = [] then []
  else parseYAMLListLoop (Split s ',')

/-- The function `unquote` of note.go. -/
def unquote (s : Str) : Str :=
  if len s ≥ 2 ∧ s.head? = some '"' ∧ s.getLast? = some '"' then (s.drop 1).dropLast
  else s

/-- The search for the closing separator in `ParseFrontmatterFromBytes`: the lines from index
`i` on; `none` stands for `endIdx == -1`. -/
def findEndIdx : List Str → Nat → Option Nat
  | [], _ => none
  | l :: ls, i => if TrimSpace l = "---".toList then some i else findEndIdx ls (i + 1)

/-- One turn of the loop over the header lines in `ParseFrontmatterFromBytes`. -/
def applyHeaderLine (fm : Frontmatter) (line : Str) : Frontmatter :=
  match parseYAMLLine line with
  | (key, value, ok) =>
    if !ok then fm
    else if key = "title".toList then { fm with Title := unquote value }
    else if key = "date".toList then { fm with Date := value }
    else if key = "tags".toList then { fm with Tags := parseYAMLList value }
    else if key = "status".toList then { fm with Status := value }
    else if key = "aliases".toList then { fm with Aliases := parseYAMLList value }
    else fm

/-- The function `ParseFrontmatterFromBytes` of note.go. -/
def ParseFrontmatterFromBytes (data : Str) : ParseResult :=
  let content := data
  let lines := Split content '\n'
  if lines.length < 2 ∨ TrimSpace (lines.headD []) ≠ "---".toList then
    ⟨Frontmatter.zero, content, none⟩
  else
    match findEndIdx (lines.drop 1) 1 with
    | none => ⟨Frontmatter.zero, content, none⟩
    | some endIdx =>
      let fm := ((lines.take endIdx).drop 1).foldl applyHeaderLine Frontmatter.zero
      let body := if endIdx + 1 < lines.length then Join (lines.drop (endIdx + 1)) ['\n'] else []
      ⟨fm, body, none⟩

/-- The function `FormatFrontmatter` of note.go. -/
def FormatFrontmatter (prt : Char → Bool) (fm : Frontmatter) : Str :=
  "---\n".toList
    ++ ("title: ".toList ++ Quote prt fm.Title ++ "\n".toList)
    ++ ("date: ".toList ++ fm.Date ++ "\n".toList)
    ++ ("tags: [".toList ++ Join fm.Tags ", ".toList ++ "]\n".toList)
    ++ ("status: ".toList ++ fm.Status ++ "\n".toList)
    ++ ("aliases: [".toList ++ Join fm.Aliases ", ".toList ++ "]\n".toList)
    ++ "---\n".toList

/-! ## Bytes: decoding and trimming

A slice of a text taken at byte offsets may begin or end inside a rune, so `findExcerpt` works on
bytes; these are the functions of `unicode/utf8` and `strings` it goes through. -/

/-- The rune `utf8.RuneError`. -/
def RuneError : Nat := 0xFFFD

/-- The function `utf8.DecodeRuneInString`: the first rune of `s` and its width in bytes;
`(RuneError, 1)` for an invalid encoding, `(RuneError, 0)` for the empty string. -/
def DecodeRune (s : Bytes) : Nat × Nat :=
  match s with
  | [] => (RuneError, 0)
  | s0 :: rest =>
    if s0 < 0x80 then (s0, 1)
    else if s0 < 0xC2 ∨ 0xF4 < s0 then (RuneError, 1)
    else
      let sz := if s0 < 0xE0 then 2 else if s0 < 0xF0 then 3 else 4
      let lo := if s0 = 0xE0 then 0xA0 else if s0 = 0xF0 then 0x90 else 0x80
      let hi := if s0 = 0xED then 0x9F else if s0 = 0xF4 then 0x8F else 0xBF
      if (s0 :: rest).length < sz then (RuneError, 1)
      else
        match rest with
        | [] => (RuneError, 1)
        | s1 :: rest =>
          if s1 < lo ∨ hi < s1 then (RuneError, 1)
          else if sz ≤ 2 then (s0 % 32 * 64 + s1 % 64, 2)
          else
            match rest with
            | [] => (RuneError, 1)
            | s2 :: rest =>
              if s2 < 0x80 ∨ 0xBF < s2 then (RuneError, 1)
              else if sz ≤ 3 then (s0 % 16 * 4096 + s1 % 64 * 64 + s2 % 64, 3)
              else
                match rest with
                | [] => (RuneError, 1)
                | s3 :: _ =>
                  if s3 < 0x80 ∨ 0xBF < s3 then (RuneError, 1)
                  else (s0 % 8 * 262144 + s1 % 64 * 4096 + s2 % 64 * 64 + s3 % 64, 4)

/-- The predicate `utf8.RuneStart`: the byte is not a continuation byte. -/
def RuneStart (b : Nat) : Bool := b / 64 % 4 ≠ 2

/-- The backward loop of `utf8.DecodeLastRuneInString`: `start` steps down while it is at least
`lim` and the byte there does not start a rune. It makes at most four turns. -/
def lastRuneStart (s : Bytes) (lim : Int) : Nat → Int → Int
  | 0, start => start
  | fuel + 1, start =>
    if start ≥ lim then
      if RuneStart (s.getD start.toNat 0) then start
      else lastRuneStart s lim fuel (start - 1)
    else start

/-- The function `utf8.DecodeLastRuneInString`: the last rune of `s` and its width. -/
def DecodeLastRune (s : Bytes) : Nat × Nat :=
  let stop := s.length
  if stop = 0 then (RuneError, 0)
  else
    let r := s.getD (stop - 1) 0
    if r < 0x80 then (r, 1)
    else
      let lim : Int := if (stop : Int) - 4 < 0 then 0 else (stop : Int) - 4
      let start := lastRuneStart s lim 5 ((stop : Int) - 2)
      let start := if start < 0 then 0 else start
      let (r, size) := DecodeRune (s.drop start.toNat)
      if start.toNat + size ≠ stop then (RuneError, 1)
      else (r, size)

/-- The function `strings.TrimLeftFunc(s, unicode.IsSpace)`: the runes are decoded from the
left, one per unit of fuel. -/
def trimLeftSpace : Nat → Bytes → Bytes
  | 0, _ => []
  | fuel + 1, s =>
    if s = [] then []
    else
      let (r, w) := DecodeRune s
      if isSpaceRune r then trimLeftSpace fuel (s.drop w) else s

/-- The function `lastIndexFunc(s, unicode.IsSpace, false)` of strings: the offset of the last
rune that is not white space, or `-1`; the runes are decoded from the right, from offset `i`. -/
def lastIndexNotSpace (s : Bytes) : Nat → Nat → Int
  | 0, _ => -1
  | fuel + 1, i =>
    if i = 0 then -1
    else
      let (r, size) := DecodeLastRune (s.take i)
      if !isSpaceRune r then ((i - size : Nat) : Int)
      else lastIndexNotSpace s fuel (i - size)

/-- The function `strings.TrimRightFunc(s, unicode.IsSpace)`. -/
def TrimRightFunc (s : Bytes) : Bytes :=
  let i := lastIndexNotSpace s (s.length + 1) s.length
  if i ≥ 0 ∧ s.getD i.toNat 0 ≥ 0x80 then s.take (i.toNat + (DecodeRune (s.drop i.toNat)).2)
  else s.take (i + 1).toNat

/-- The function `strings.TrimFunc(s, unicode.IsSpace)`. -/
def TrimFunc (s : Bytes) : Bytes := TrimRightFunc (trimLeftSpace (s.length + 1) s)

/-- The table `asciiSpace` of strings. -/
def asciiSpace (c : Nat) : Bool :=
  c = 0x09 || c = 0x0A || c = 0x0B || c = 0x0C || c = 0x0D || c = 0x20

/-- The second loop of `strings.TrimSpace`, on the reversed bytes from `start` on: the ASCII white
space at the end is cut; a byte outside ASCII hands over to `TrimRightFunc`. -/
def trimSpaceStop : Bytes → Bytes
  | [] => []
  | c :: r =>
    if c ≥ 0x80 then TrimRightFunc (c :: r).reverse
    else if asciiSpace c then trimSpaceStop r
    else (c :: r).reverse

/-- The function `strings.TrimSpace` on bytes: the ASCII fast path, and the Unicode-aware
functions from the first byte outside ASCII on. -/
def TrimSpaceBytes : Bytes → Bytes
  | [] => []
  | c :: s =>
    if c ≥ 0x80 then TrimFunc (c :: s)
    else if asciiSpace c then TrimSpaceBytes s
    else trimSpaceStop (c :: s).reverse

/-! ## find.go -/

/-- The record `Note` of note.go; the modification time is a number. -/
structure Note where
  /-- The header. -/
  Frontmatter : Frontmatter
  /-- The body. -/
  Body : Str
  /-- The path of the file. -/
  FilePath : Str
  /-- The folder. -/
  Folder : Str
  /-- The modification time. -/
  ModTime : Int
deriving DecidableEq

/-- The record `searchResult` of find.go. -/
structure searchResult where
  /-- The note. -/
  Note : Note
  /-- Its score. -/
  Score : Int
deriving DecidableEq

/-- The loops of `scoreNote` over the tags and over the aliases: the first element that contains
the query adds 8 and ends the loop. -/
def scoreLoop (tbl : Char → Char) (query : Str) : List Str → Int → Int
  | [], score => score
  | t :: ts, score =>
    if Contains (ToLower tbl t) query then score + 8 else scoreLoop tbl query ts score

/-- The function `scoreNote` of find.go. -/
def scoreNote (tbl : Char → Char) (note : Note) (query : Str) : Int :=
  let score : Int := 0
  let score := if Contains (ToLower tbl note.Frontmatter.Title) query then score + 10 else score
  let score := scoreLoop tbl query note.Frontmatter.Tags score
  let score := scoreLoop tbl query note.Frontmatter.Aliases score
  let score := if Contains (ToLower tbl note.Body) query then score + 3 else score
  score

/-- The function `findExcerpt` of find.go. The result is `none` when the slice expression
`body[start:end]` panics, which it does when `start > end`. -/
def findExcerpt (tbl : Char → Char) (body query : Str) : Option Bytes :=
  let lower := ToLower tbl body
  let idx := Index (utf8 lower) (utf8 query)
  if idx < 0 then some []
  else
    let start : Int := if idx - 40 < 0 then 0 else idx - 40
    let stop : Int := if idx + len query + 40 > len body then len body else idx + len query + 40
    if start > stop then none
    else
      let excerpt := ((utf8 body).take stop.toNat).drop start.toNat
      let excerpt := excerpt.map (fun b => if b = 0x0A then 0x20 else b)
      let excerpt := TrimSpaceBytes excerpt
      let pre := if start > 0 then utf8 "...".toList else []
      let suf := if stop < len body then utf8 "...".toList else []
      some (pre ++ excerpt ++ suf)

/-- The loop of `Find` over the notes: the notes with a positive score, in order. -/
def collectResults (tbl : Char → Char) (q : Str) : List Note → List searchResult
  | [] => []
  | note :: notes =>
    let score := scoreNote tbl note q
    if score > 0 then ⟨note, score⟩ :: collectResults tbl q notes
    else collectResults tbl q notes

/-- The loop of `Find` over the sorted results: `out` is what has been written so far; the
second component says whether `findExcerpt` panicked. -/
def printResults (tbl : Char → Char) (q : Str) : List searchResult → Bytes → Bytes × Bool
  | [], out => (out, false)
  | r :: rs, out =>
    let title := if r.Note.Frontmatter.Title = [] then "(untitled)".toList
      else r.Note.Frontmatter.Title
    let tags := if r.Note.Frontmatter.Tags.length > 0
      then "  [".toList ++ Join r.Note.Frontmatter.Tags ", ".toList ++ "]".toList else []
    let out := out ++ utf8 (title ++ "  (".toList ++ r.Note.Folder ++ ")".toList ++ tags ++ ['\n'])
    match findExcerpt tbl r.Note.Body q with
    | none => (out, true)
    | some excerpt =>
      let out := if excerpt ≠ [] then out ++ utf8 "  ".toList ++ excerpt ++ utf8 ['\n'] else out
      printResults tbl q rs out

/-- How a call ended: it returned, with an error or with `nil`, or it panicked. -/
inductive Outcome where
  | returned (err : Option Str)
  | panicked
deriving DecidableEq

/-- What a call of `Find` did: how often it called `ScanNotes`, what it wrote to `w`, and how it
ended. -/
structure FindRun where
  /-- The number of calls of `ScanNotes`. -/
  scans : Nat
  /-- The bytes written to the writer. -/
  out : Bytes
  /-- How the call ended. -/
  outcome : Outcome
deriving DecidableEq

/-- The function `Find` of find.go. The file system is outside the model: `scan` is what
`ScanNotes(baseDir)` returns, its error as a message. `sortSlice` is `sort.Slice`, which is given
the comparison and the results. -/
def Find (tbl : Char → Char) (prt : Char → Bool)
    (sortSlice : (searchResult → searchResult → Bool) → List searchResult → List searchResult)
    (scan : Except Str (List Note)) (query : Str) : FindRun :=
  if query = [] then ⟨0, [], .returned (some "search query is required".toList)⟩
  else
    match scan with
    | .error err => ⟨1, [], .returned (some err)⟩
    | .ok notes =>
      let q := ToLower tbl query
      let results := collectResults tbl q notes
      if results.length = 0 then
        ⟨1, utf8 ("No notes found matching ".toList ++ Quote prt query ++ ".\n".toList),
          .returned none⟩
      else
        let results := sortSlice (fun a b => decide (a.Score > b.Score)) results
        match printResults tbl q results [] with
        | (out, true) => ⟨1, out, .panicked⟩
        | (out, false) => ⟨1, out, .returned none⟩

/-- The note "Golang Tips" of the test fixture of find_test.go. -/
def golangTips : Note :=
  ⟨⟨"Golang Tips".toList, "2026-02-13".toList, ["go".toList, "programming".toList],
      "active".toList, ["go-tips".toList]⟩,
    "\n# Golang Tips\n\nSome tips about Go concurrency and channels.\n".toList,
    "Resources/golang-tips.md".toList, "Resources".toList, 0⟩

/-- A sort by insertion, to run `Find` with. -/
def insertionSort (less : searchResult → searchResult → Bool) :
    List searchResult → List searchResult
  | [] => []
  | r :: rs => List.orderedInsert (fun a b => !less b a) r (insertionSort less rs)

/-! ## list.go -/

/-- The decimal digits `%d` writes for a length. -/
def itoa (n : Nat) : Str := (Nat.toDigits 10 n)

/-- What a call of `List` did: how often it called `ScanNotes`, what it wrote to `w`, one
element for each call of `Fprintln` or `Fprintf`, and how it ended. -/
structure ListRun where
  /-- The number of calls of `ScanNotes`. -/
  scans : Nat
  /-- The texts written to the writer, in order. -/
  out : List Str
  /-- How the call ended. -/
  outcome : Outcome
deriving DecidableEq

/-- The line `List` writes for one note, the body of its loop. `formatDate` is
`ModTime.Format("2006-01-02")`. -/
def listLine (formatDate : Int → Str) (note : Note) : Str :=
  let title := if note.Frontmatter.Title = [] then "(untitled)".toList else note.Frontmatter.Title
  let date := if note.Frontmatter.Date = [] then formatDate note.ModTime else note.Frontmatter.Date
  let tags := if note.Frontmatter.Tags.length > 0
    then "  [".toList ++ Join note.Frontmatter.Tags ", ".toList ++ "]".toList else []
  date ++ "  ".toList ++ title ++ "  (".toList ++ note.Folder ++ ")".toList ++ tags ++ ['\n']

/-- The comparison `List` hands to `sort.Slice`: `notes[i].ModTime.After(notes[j].ModTime)`. -/
def afterModTime (a b : Note) : Bool := decide (a.ModTime > b.ModTime)

/-- The footer of `List`. -/
def listFooter (n : Nat) : Str :=
  "\nShowing 10 of ".toList ++ itoa n ++ " notes. Use --all to show all.\n".toList

/-- The function `List` of list.go. `scan` is what `ScanNotes(baseDir)` returns and `sortSlice`
is `sort.Slice`, given the comparison `ModTime.After` and the notes. -/
def ListNotes (formatDate : Int → Str)
    (sortSlice : (Note → Note → Bool) → List Note → List Note)
    (scan : Except Str (List Note)) (showAll : Bool) : ListRun :=
  match scan with
  | .error err => ⟨1, [], .returned (some err)⟩
  | .ok notes =>
    if notes.length = 0 then ⟨1, ["No notes found.\n".toList], .returned none⟩
    else
      let notes := sortSlice afterModTime notes
      let limit := if showAll = true ∨ notes.length ≤ 10 then notes.length else 10
      let out := (notes.take limit).map (listLine formatDate)
      let out := if showAll = false ∧ notes.length > 10 then out ++ [listFooter notes.length]
        else out
      ⟨1, out, .returned none⟩

/-! ## create.go -/

/-- The scan of `strings.ReplaceAll(s, old, new)` for a non-empty `old`: `skip` counts the
characters of a match still to pass over. -/
def replaceAllAux (old new : Str) : Nat → Str → Str
  | _, [] => []
  | skip + 1, _ :: cs => replaceAllAux old new skip cs
  | 0, c :: cs =>
    if old.isPrefixOf (c :: cs) then new ++ replaceAllAux old new (old.length - 1) cs
    else c :: replaceAllAux old new 0 cs

/-- The function `strings.ReplaceAll` for a non-empty `old`: every occurrence of `old`, from
the left and without overlap, becomes `new`. -/
def ReplaceAll (s old new : Str) : Str := replaceAllAux old new 0 s

/-- The search of `strings.Index(s, substr)` in a text, from offset `i` on, the offsets counted
in runes. -/
def indexTextFrom (sub : Str) : Str → Nat → Int
  | [], i => if sub = [] then (i : Int) else -1
  | c :: s, i => if sub.isPrefixOf (c :: s) then (i : Int) else indexTextFrom sub s (i + 1)

/-- The function `strings.Index(s, substr)` for an ASCII `substr`, with the offset counted in
runes: `-1` when `substr` does not occur. The source adds `len(substr)` to the offset, skips
line feeds and cuts the text there; with an ASCII `substr` in a valid text the cut is the same
whether bytes or runes are counted. -/
def IndexText (s substr : Str) : Int := indexTextFrom substr s 0

/-- The list `Folders` of create.go. -/
def Folders : List Str := ["Inbox".toList, "Projects".toList, "Areas".toList, "Resources".toList]

/-- The function `addBodyToContent` of create.go. The loop that steps `insertAt` over line
feeds is the length of the run of line feeds at `insertAt`. -/
def addBodyToContent (content body : Str) : Str :=
  let marker := "## Notes".toList
  let idx := IndexText content marker
  if idx < 0 then content ++ "\n".toList ++ body ++ "\n".toList
  else
    let insertAt := idx.toNat + marker.length
    let insertAt := insertAt + ((content.drop insertAt).takeWhile (· == '\n')).length
    content.take insertAt ++ body ++ "\n\n".toList ++ content.drop insertAt

/-- The loops of `addURLsToContent` and `buildFallbackContent` over the URLs: one line
"- url" for each. -/
def urlLines : List Str → Str
  | [] => []
  | u :: us => "- ".toList ++ u ++ "\n".toList ++ urlLines us

/-- The function `addURLsToContent` of create.go. -/
def addURLsToContent (content : Str) (urls : List Str) : Str :=
  let marker := "## References".toList
  let idx := IndexText content marker
  if idx < 0 then content ++ "\n## References\n\n".toList ++ urlLines urls
  else
    let insertAt := idx.toNat + marker.length
    let insertAt := insertAt + ((content.drop insertAt).takeWhile (· == '\n')).length
    let urlBlock := urlLines urls ++ "\n".toList
    content.take insertAt ++ urlBlock ++ content.drop insertAt

/-- The function `buildFallbackContent` of create.go. -/
def buildFallbackContent (prt : Char → Bool) (title date : Str) (tags : List Str) (body : Str)
    (urls : List Str) (isProject : Bool) : Str :=
  let fm : Frontmatter := ⟨title, date, tags, "draft".toList, []⟩
  let fm := if isProject then { fm with Status := "active".toList } else fm
  let b := FormatFrontmatter prt fm
  let b := b ++ ("\n# ".toList ++ title ++ "\n".toList)
  if isProject then
    let b := b ++ "\n## Goal\n\n".toList
    let b := if body ≠ [] then b ++ (body ++ "\n".toList) else b
    let b := b ++ "\n## Tasks\n\n- [ ]\n".toList
    let b := b ++ "\n## Notes\n\n".toList
    let b := b ++ "\n## Related\n\n".toList
    let b := b ++ "\n## Log\n\n".toList
    let b := b ++ ("- ".toList ++ date ++ " — Project created.\n".toList)
    b
  else
    let b := b ++ "\n## Notes\n\n".toList
    let b := if body ≠ [] then b ++ (body ++ "\n".toList) else b
    let b := b ++ "\n## References\n".toList
    let b := if urls.length > 0 then b ++ "\n".toList ++ urlLines urls else b
    b

/-- The loop of `buildNoteContent` over the lines, from index `i` on: `fmEnd` is the index of
the second line that trims to "---", or `-1`. -/
def findFmEnd : List Str → Nat → Bool → Int
  | [], _, _ => -1
  | line :: rest, i, inFM =>
    if TrimSpace line = "---".toList then
      if !inFM then findFmEnd rest (i + 1) true else (i : Int)
    else findFmEnd rest (i + 1) inFM

/-- The function `buildNoteContent` of create.go. `tmpl` is what `ReadTemplate(baseDir,
templateName)` returns, `none` for an error. The error the function returns is always nil and
is left out. -/
def buildNoteContent (prt : Char → Bool) (tmpl : Option Str) (templateName title date : Str)
    (tags : List Str) (body : Str) (urls : List Str) : Str :=
  match tmpl with
  | none =>
    buildFallbackContent prt title date tags body urls (templateName = "project.md".toList)
  | some tmpl =>
    let content := ReplaceAll tmpl "{{title}}".toList title
    let content := ReplaceAll content "{{date}}".toList date
    let fm : Frontmatter := ⟨title, date, tags, "draft".toList, []⟩
    let fm := if templateName = "project.md".toList then { fm with Status := "active".toList }
      else fm
    let freshFM := FormatFrontmatter prt fm
    let lines := Split content '\n'
    let fmEnd := findFmEnd lines 0 false
    let content := if fmEnd > 0 then freshFM ++ Join (lines.drop (fmEnd.toNat + 1)) ['\n']
      else content
    let content := if body ≠ [] then addBodyToContent content body else content
    let content := if urls.length > 0 then addURLsToContent content urls else content
    content

/-- What the prompter hands to `Create`: the answers to its questions. The URLs are asked for
only when the folder is Resources. -/
structure Answers where
  /-- The answer of `AskRequired("Title: ")`. -/
  title : Str
  /-- The index `AskMenu` returns. -/
  folderIdx : Nat
  /-- The answer of `Ask("Tags (comma-separated): ")`. -/
  tagsInput : Str
  /-- The answer of `Ask("Body: ")`. -/
  body : Str
  /-- The answer of `Ask("URLs (comma-separated): ")`. -/
  urlInput : Str
deriving DecidableEq

/-- What `Create` writes: the file `filename` in the folder `folder`, with the text
`content`. -/
structure Created where
  /-- The folder under the notes directory. -/
  folder : Str
  /-- The name of the file. -/
  filename : Str
  /-- The text of the file. -/
  content : Str
deriving DecidableEq

/-- The loop of `Create` over the parts of the URL input. -/
def urlLoop : List Str → List Str
  | [] => []
  | u :: us =>
    let u := TrimSpace u
    if u ≠ [] then u :: urlLoop us else urlLoop us

/-- The loop of `Create` that looks for the tag "project". -/
def hasProjectLoop : List Str → Bool
  | [] => false
  | t :: ts => if t = "project".toList then true else hasProjectLoop ts

/-- The function `Create` of create.go, from the answers of the prompter to the file it writes.
The prompts, the file system and the editor are outside the model: `ReadTemplate` is what
reading a template by name returns, `today` is `time.Now().Format("2006-01-02")`. The result is
`none` when `Folders[folderIdx]` is out of range. -/
def Create (tbl : Char → Char) (prt : Char → Bool) (ReadTemplate : Str → Option Str)
    (today : Str) (a : Answers) : Option Created :=
  let title := a.title
  match Folders.get? a.folderIdx with
  | none => none
  | some folder =>
    let tags := NormalizeTags tbl a.tagsInput
    let body := a.body
    let urls := if folder = "Resources".toList then
        (if a.urlInput ≠ [] then urlLoop (Split a.urlInput ',') else [])
      else []
    let templateName := if folder = "Projects".toList then "project.md".toList
      else "basic.md".toList
    let tags := if folder = "Projects".toList then
        (if !hasProjectLoop tags then tags ++ ["project".toList] else tags)
      else tags
    let slug := Slugify tbl title
    let filename := if folder = "Inbox".toList ∨ folder = "Projects".toList then
        today ++ "-".toList ++ slug ++ ".md".toList
      else slug ++ ".md".toList
    let content := buildNoteContent prt (ReadTemplate templateName) templateName title today tags
      body urls
    some ⟨folder, filename, content⟩

/-- The template basic.md of the test fixture of create_test.go. -/
def basicTemplate : Str :=
  ("---\ntitle: \"{{title}}\"\ndate: {{date}}\ntags: []\nstatus: draft\naliases: []\n---\n\n"
    ++ "# {{title}}\n\n## Notes\n\n## References\n").toList

/-- The template project.md of the test fixture of create_test.go. -/
def projectTemplate : Str :=
  ("---\ntitle: \"{{title}}\"\ndate: {{date}}\ntags: [project]\nstatus: active\naliases: []\n---\n\n"
    ++ "# {{title}}\n\n## Goal\n\n## Tasks\n\n- [ ]\n\n## Notes\n\n## Related\n\n## Log\n\n"
    ++ "- {{date}} — Project created.\n").toList

/-- The templates of the test fixture, by name. -/
def fixtureTemplates (name : Str) : Option Str :=
  if name = "basic.md".toList then some basicTemplate
  else if name = "project.md".toList then some projectTemplate
  else none

/-- A sort by insertion, to run `List` with. -/
def insertionSortNotes (less : Note → Note → Bool) : List Note → List Note
  | [] => []
  | r :: rs => List.orderedInsert (fun a b => !less b a) r (insertionSortNotes less rs)

/-- The case table at the one letter the examples need: `unicode.ToLower` maps U+023A, two
bytes in UTF-8, to U+2C65, three bytes. -/
def strokeTable (c : Char) : Char := if c = 'Ⱥ' then 'ⱥ' else c

/-- A body of fifty letters U+023A and an "x": 101 bytes, and 151 bytes in lower case. -/
def strokeBody : Str := List.replicate 50 'Ⱥ' ++ ['x']

/-- A note titled "x" with the body `strokeBody`. -/
def strokeNote : Note :=
  ⟨⟨"x".toList, [], [], [], []⟩, strokeBody, "Inbox/x.md".toList, "Inbox".toList, 0⟩

/-- A note titled "T" with the body "x". -/
def plainNote : Note :=
  ⟨⟨"T".toList, [], [], [], []⟩, "x".toList, "Inbox/t.md".toList, "Inbox".toList, 0⟩

/-- A note titled "T" with the modification time `t`. -/
def noteAt (t : Int) : Note :=
  ⟨⟨"T".toList, "2026-02-13".toList, [], [], []⟩, [], "Inbox/t.md".toList, "Inbox".toList, t⟩

/-- Eleven notes, the oldest first. -/
def elevenNotes : List Note := (List.range 11).map (fun i => noteAt i)

/-- The answers of `TestCreateProject`: the folder Projects, no tags, no body. -/
def projectAnswers : Answers := ⟨"My Project".toList, 1, [], [], []⟩

/-- A template that mentions "## Notes" in its text before the heading. -/
def proseTemplate : Str :=
  "# T\n\nWrite under ## Notes.\n\n## Notes\n\n## References\n".toList

/-- The line `Find` writes for a result: title, folder and tags. -/
def resultHeader (r : searchResult) : Bytes :=
  utf8 ((if r.Note.Frontmatter.Title = [] then "(untitled)".toList
      else r.Note.Frontmatter.Title)
    ++ "  (".toList ++ r.Note.Folder ++ ")".toList
    ++ (if r.Note.Frontmatter.Tags.length > 0
        then "  [".toList ++ Join r.Note.Frontmatter.Tags ", ".toList ++ "]".toList else [])
    ++ ['\n'])

/-- What `Find` writes for a result whose excerpt is `e`: the line of the result and, when the
excerpt is not empty, the excerpt after two spaces. -/
def resultBlock (r : searchResult) (e : Bytes) : Bytes :=
  resultHeader r ++ (if e ≠ [] then utf8 "  ".toList ++ e ++ utf8 ['\n'] else [])

/-- A text is a substring of another, as Go has it: its bytes occur there, one after the
other. -/
def IsSubstring (sub s : Str) : Prop := utf8 sub <:+: utf8 s

instance (sub s : Str) : Decidable (IsSubstring sub s) :=
  inferInstanceAs (Decidable (utf8 sub <:+: utf8 s))

/-- A note with the title and the tags of "Golang Tips", no alias, and a body that mentions
"concurrency" and not "golang". -/
def golangNote : Note :=
  ⟨⟨"Golang Tips".toList, "2026-02-13".toList, ["go".toList, "programming".toList],
      "active".toList, []⟩,
    "Some tips about Go concurrency and channels.\n".toList,
    "Resources/golang-tips.md".toList, "Resources".toList, 0⟩

/-- A note with the tag "python", which neither its title nor its body mentions. -/
def pythonNote : Note :=
  ⟨⟨"Basics".toList, "2026-02-12".toList, ["python".toList], "draft".toList, []⟩,
    "Learning the fundamentals.\n".toList, "Inbox/basics.md".toList, "Inbox".toList, 0⟩

/-- A note with a two-word body. -/
def shortNote : Note :=
  ⟨⟨"T".toList, [], [], [], []⟩, "a b".toList, "Inbox/t.md".toList, "Inbox".toList, 0⟩

/-- The five field lines `FormatFrontmatter` writes between the separators, without their
line ends. -/
def headerLines (prt : Char → Bool) (fm : Frontmatter) : List Str :=
  [ "title: ".toList ++ Quote prt fm.Title,
    "date: ".toList ++ fm.Date,
    "tags: [".toList ++ Join fm.Tags ", ".toList ++ "]".toList,
    "status: ".toList ++ fm.Status,
    "aliases: [".toList ++ Join fm.Aliases ", ".toList ++ "]".toList ]

/-- No line feed in the date, the status, a tag or an alias. -/
def NoNewline (fm : Frontmatter) : Prop :=
  '\n' ∉ fm.Date ∧ '\n' ∉ fm.Status ∧ (∀ t ∈ fm.Tags, '\n' ∉ t) ∧ (∀ t ∈ fm.Aliases, '\n' ∉ t)

/-- A list element the inline list syntax can carry: not empty, no comma, no white space at
either end. -/
def PlainItem (t : Str) : Prop := t ≠ [] ∧ ',' ∉ t ∧ TrimSpace t = t

/-- A title `%q` writes as it is: printable characters other than the double quote and the
backslash. -/
def PlainTitle (prt : Char → Bool) (t : Str) : Prop :=
  ∀ c ∈ t, IsPrint prt c = true ∧ c ≠ '"' ∧ c ≠ '\\'

/-- The fields the round-trip property calls simple: no colon and no double quote in any
field, no comma inside a single tag or alias. -/
def SimpleFields (fm : Frontmatter) : Prop :=
  (∀ c ∈ fm.Title, c ≠ ':' ∧ c ≠ '"') ∧ (∀ c ∈ fm.Date, c ≠ ':' ∧ c ≠ '"') ∧
  (∀ c ∈ fm.Status, c ≠ ':' ∧ c ≠ '"') ∧
  (∀ t ∈ fm.Tags, ∀ c ∈ t, c ≠ ':' ∧ c ≠ '"' ∧ c ≠ ',') ∧
  (∀ t ∈ fm.Aliases, ∀ c ∈ t, c ≠ ':' ∧ c ≠ '"' ∧ c ≠ ',')

/-- The seven lines with the title written as it is between two double quotes. -/
def sevenLines (fm : Frontmatter) : Str :=
  "---\n".toList
    ++ ("title: \"".toList ++ fm.Title ++ "\"\n".toList)
    ++ ("date: ".toList ++ fm.Date ++ "\n".toList)
    ++ ("tags: [".toList ++ Join fm.Tags ", ".toList ++ "]\n".toList)
    ++ ("status: ".toList ++ fm.Status ++ "\n".toList)
    ++ ("aliases: [".toList ++ Join fm.Aliases ", ".toList ++ "]\n".toList)
    ++ "---\n".toList

/-- The Frontmatter of the first test of `TestParseFrontmatterFromBytes`. -/
def sampleFrontmatter : Frontmatter :=
  ⟨"My Note".toList, "2026-02-13".toList, ["go".toList, "cli".toList], "draft".toList,
    ["my-note".toList, "mn".toList]⟩

/-! ## prompt.go -/

/-- The decimal digits `%d` writes for an integer. -/
def itoaInt (n : Int) : Str := if n < 0 then '-' :: itoa n.natAbs else itoa n.natAbs

/-- The loop of `AskMenu` over the options: " i) option " for each one, counted from `i + 1`. -/
def menuOptions : List Str → Nat → Str
  | [], _ => []
  | opt :: rest, i =>
    " ".toList ++ itoa (i + 1) ++ ") ".toList ++ opt ++ " ".toList ++ menuOptions rest (i + 1)

/-- What a call of `AskMenu` did: the prompt it asked with, what it wrote to the writer after
the answer, and the index it returned; `none` stands for the panic of the lookup
`options[defaultIdx]`. -/
structure MenuRun where
  /-- The prompt handed to `Ask`. -/
  asked : Str
  /-- The texts written after the answer, in order. -/
  out : List Str
  /-- The index returned. -/
  result : Option Int
deriving DecidableEq

/-- The function `AskMenu` of prompt.go. `answer` is what `Ask` returns, the trimmed line or
the empty text at the end of the input, and `sscanf` is `fmt.Sscanf(answer, "%d", &choice)`:
the number read, or `none` for an error. -/
def AskMenu (sscanf : Str → Option Int) (prompt : Str) (options : List Str) (defaultIdx : Int)
    (answer : Str) : MenuRun :=
  let b := prompt ++ menuOptions options 0
    ++ ("[".toList ++ itoaInt (defaultIdx + 1) ++ "]: ".toList)
  if answer = [] then ⟨b, [], some defaultIdx⟩
  else
    let scanned := sscanf answer
    let choice : Int := scanned.getD 0
    if scanned = none ∨ choice < 1 ∨ choice > options.length then
      match (if 0 ≤ defaultIdx then options.get? defaultIdx.toNat else none) with
      | none => ⟨b, [], none⟩
      | some opt =>
        ⟨b, ["Invalid choice, using default: ".toList ++ opt ++ "\n".toList], some defaultIdx⟩
    else ⟨b, [], some (choice - 1)⟩

/-- A reader of unsigned decimal numerals, to run `AskMenu` with. -/
def readDecimal (s : Str) : Option Int :=
  if s ≠ [] ∧ s.all Char.isDigit = true then
    some (s.foldl (fun n c => 10 * n + ((c.toNat - '0'.toNat : Nat) : Int)) 0)
  else none

/-! ## Notions for the claims on header lines and plain values -/

/-- The keys the loop of `ParseFrontmatterFromBytes` has a case for. -/
def recognizedKeys : List Str :=
  ["title".toList, "date".toList, "tags".toList, "status".toList, "aliases".toList]

/-- The inline list as the specification words it: the value trimmed, one leading "[" and one
trailing "]" removed when present, the rest split on ",", every element trimmed, the empty
elements dropped. -/
def inlineListSpec (v : Str) : List Str :=
  ((Split (TrimSuffix (TrimPrefix (TrimSpace v) '[') ']') ',').map TrimSpace).filter
    (fun t => decide (t ≠ []))

/-- The title value as the specification words it: one pair of surrounding double quotes
removed from a text of at least two characters that begins and ends with one, the text
unchanged otherwise. -/
def unquoteSpec (t : Str) : Str :=
  if 2 ≤ t.length ∧ t.head? = some '"' ∧ t.getLast? = some '"' then (t.drop 1).dropLast else t

/-- The ASCII letters. -/
def isAsciiLetter (c : Char) : Bool :=
  ('a'.toNat ≤ c.toNat && c.toNat ≤ 'z'.toNat) || ('A'.toNat ≤ c.toNat && c.toNat ≤ 'Z'.toNat)

/-- The ASCII digits. -/
def isAsciiDigit (c : Char) : Bool := '0'.toNat ≤ c.toNat && c.toNat ≤ '9'.toNat

/-- ASCII letters, digits, the space and the hyphen. -/
def isTitleChar (c : Char) : Bool := isAsciiLetter c || isAsciiDigit c || c == ' ' || c == '-'

/-- ASCII letters, digits and the hyphen. -/
def isWordChar (c : Char) : Bool := isAsciiLetter c || isAsciiDigit c || c == '-'

/-- ASCII digits and the hyphen. -/
def isDateChar (c : Char) : Bool := isAsciiDigit c || c == '-'

/-- A non-empty text over `[a-z0-9-]`. -/
def SlugWord (t : Str) : Prop := t ≠ [] ∧ ∀ c ∈ t, inSlugClass c = true

instance (t : Str) : Decidable (SlugWord t) :=
  inferInstanceAs (Decidable (t ≠ [] ∧ ∀ c ∈ t, inSlugClass c = true))

/-- The bounds `start` and `end` of the slice `body[start:end]` in `findExcerpt`, computed
when the query occurs in the lowercased body. -/
def excerptBounds (tbl : Char → Char) (body query : Str) : Option (Int × Int) :=
  let lower := ToLower tbl body
  let idx := Index (utf8 lower) (utf8 query)
  if idx < 0 then none
  else
    let start : Int := if idx - 40 < 0 then 0 else idx - 40
    let stop : Int := if idx + len query + 40 > len body then len body else idx + len query + 40
    some (start, stop)

/-- Answers with a title that holds path separators and dots, for the folder Areas. -/
def dotsAnswers : Answers := ⟨"../../etc/passwd".toList, 2, [], [], []⟩

/-- The note "Python Basics" of the test fixture of find_test.go. -/
def pythonBasics : Note :=
  ⟨⟨"Python Basics".toList, "2026-02-12".toList, ["python".toList, "programming".toList],
      "draft".toList, []⟩,
    "\n# Python Basics\n\nLearning Python fundamentals.\n".toList,
    "Inbox/2026-02-12-python-basics.md".toList, "Inbox".toList, 0⟩

/-- The note `golangNote` with the alias "golang". -/
def golangAliased : Note :=
  { golangNote with Frontmatter := { golangNote.Frontmatter with Aliases := ["golang".toList] } }

/-- The cut both insertions of create.go make: `ins` goes after the first occurrence of the
marker and the line feeds that follow it, and `absent` goes to the end when the marker does not
occur. -/
def insertAfter (marker ins absent content : Str) : Str :=
  let idx := IndexText content marker
  if idx < 0 then content ++ absent
  else
    let insertAt := idx.toNat + marker.length
    let insertAt := insertAt + ((content.drop insertAt).takeWhile (· == '\n')).length
    content.take insertAt ++ ins ++ content.drop insertAt

/-- The lines of the encoded header after the title line, with their line ends: the date, the
tags, the status, the empty alias list and the closing separator. -/
def headerRest (date : Str) (tags : List Str) (status : Str) : Str :=
  "\ndate: ".toList ++ date ++ "\ntags: [".toList ++ Join tags ", ".toList
    ++ "]\nstatus: ".toList ++ status ++ "\naliases: []\n---\n".toList

/-- A template project.md without a header block. -/
def bareTemplates (name : Str) : Option Str :=
  if name = "project.md".toList then some "# {{title}}\n\n## Goal\n".toList else none

/-- Answers for the folder Resources with a title that holds "## Notes", a body that holds
"## References" and then "---", and one URL. -/
def cutAnswers : Answers := ⟨"## Notes".toList, 3, [], "## References---".toList, "u".toList⟩

/-! ## Auxiliary notions for the slug engine -/

/-- Whether the first character of a text satisfies `p`. -/
def startsWith (p : Char → Bool) : Str → Bool
  | [] => false
  | c :: _ => p c

/-- The characters `[a-z0-9]`: the slug class without the hyphen. -/
def isAlnum (c : Char) : Bool :=
  ('a'.toNat ≤ c.toNat && c.toNat ≤ 'z'.toNat) || ('0'.toNat ≤ c.toNat && c.toNat ≤ '9'.toNat)

/-- The two replacement passes of `Slugify`, one after the other. -/
def hyphenate (s : Str) : Str := multipleHyphensReplaceAll (nonAlphanumericReplaceAll s ['-']) ['-']

/-- No two neighbours are both hyphens. -/
def NoDoubleHyphen (s : Str) : Prop := List.Chain' (fun a b => ¬ (a = '-' ∧ b = '-')) s

/-- The maximal runs of `[a-z0-9]` characters of a text, in order: the text is cut at every other
character and the empty pieces are dropped. -/
def alnumRuns (s : Str) : List Str :=
  (s.splitOnP (fun c => !isAlnum c)).filter (fun w => !w.isEmpty)

/-- The runs of `[a-z0-9]` characters of a text joined by single hyphens. -/
def joinedRuns (s : Str) : Str := Join (alnumRuns s) ['-']

/-- The joined runs, after one hyphen when the text begins with a character outside `[a-z0-9]`
and has a run at all. -/
def hyphenThenRuns (s : Str) : Str :=
  if startsWith (fun c => !isAlnum c) s = true ∧ joinedRuns s ≠ [] then '-' :: joinedRuns s
  else joinedRuns s

/-- A slug: characters of `[a-z0-9-]` only, hyphens single and not at either end. -/
def IsSlug (s : Str) : Prop :=
  (∀ c ∈ s, inSlugClass c = true) ∧ NoDoubleHyphen s ∧ s.head? ≠ some '-' ∧ s.getLast? ≠ some '-'

/-! ## Lemmas: the replacement passes -/

theorem replaceRunsAux_eq (p : Char → Bool) (k : Nat) (repl : Str) (s run : Str) :
    replaceRunsAux p k repl s run =
      flushRun k repl (run ++ s.takeWhile p) ++
        (match s.dropWhile p with
         | [] => []
         | c :: cs => c :: replaceRunsAux p k repl cs []) := by
  induction s generalizing run with
  | nil => simp [replaceRunsAux]
  | cons c cs ih =>
    by_cases h : p c
    · simp [replaceRunsAux, h, ih (run ++ [c])]
    · simp [replaceRunsAux, h]

theorem replaceRuns_cons_neg (p : Char → Bool) (k : Nat) (hk : 0 < k) (repl : Str) (c : Char)
    (y : Str) (h : p c = false) :
    replaceRuns p k repl (c :: y) = c :: replaceRuns p k repl y := by
  have : ¬ k ≤ 0 := by omega
  simp [replaceRuns, replaceRunsAux, h, flushRun, this]

theorem replaceRuns_one_cons_pos (p : Char → Bool) (repl : Str) (c : Char) (y : Str)
    (h : p c = true) :
    replaceRuns p 1 repl (c :: y) =
      if startsWith p y then replaceRuns p 1 repl y else repl ++ replaceRuns p 1 repl y := by
  simp only [replaceRuns, replaceRunsAux, h, if_true, List.nil_append]
  rw [replaceRunsAux_eq p 1 repl y [c], replaceRunsAux_eq p 1 repl y []]
  cases y with
  | nil => simp [flushRun, startsWith]
  | cons d y =>
    by_cases hd : p d
    · simp [flushRun, startsWith, hd]
    · simp [flushRun, startsWith, hd]

theorem multipleHyphens_cons_hyphen (y : Str) :
    multipleHyphensReplaceAll ('-' :: y) ['-'] =
      if startsWith (· == '-') y then multipleHyphensReplaceAll y ['-']
      else '-' :: multipleHyphensReplaceAll y ['-'] := by
  simp only [multipleHyphensReplaceAll, replaceRuns, replaceRunsAux, beq_self_eq_true, if_true,
    List.nil_append]
  rw [replaceRunsAux_eq _ 2 _ y ['-'], replaceRunsAux_eq _ 2 _ y []]
  cases y with
  | nil => simp [flushRun, startsWith]
  | cons d y =>
    by_cases hd : d = '-'
    · subst hd
      simp only [startsWith, beq_self_eq_true, if_true, List.takeWhile_cons_of_pos,
        List.dropWhile_cons_of_pos, List.nil_append]
      congr 1
      cases ht : List.takeWhile (fun x => x == '-') y with
      | nil => simp [flushRun]
      | cons e t => simp [flushRun]
    · simp [flushRun, startsWith, hd]

/-! ## Lemmas: the slug engine -/

theorem inSlugClass_eq (c : Char) : inSlugClass c = (isAlnum c || c == '-') := rfl

theorem isAlnum_ne_hyphen {c : Char} (h : isAlnum c = true) : c ≠ '-' := by
  rintro rfl
  revert h
  decide

theorem slugify_eq (tbl : Char → Char) (t : Str) :
    Slugify tbl t = Trim (hyphenate (ToLower tbl t)) '-' := rfl

theorem nonAlnum_nil : nonAlphanumericReplaceAll [] ['-'] = [] := by decide

theorem multipleHyphens_nil : multipleHyphensReplaceAll [] ['-'] = [] := by decide

theorem nonAlnum_cons_in (c : Char) (y : Str) (h : inSlugClass c = true) :
    nonAlphanumericReplaceAll (c :: y) ['-'] = c :: nonAlphanumericReplaceAll y ['-'] :=
  replaceRuns_cons_neg _ 1 (by decide) _ c y (by simp [h])

theorem nonAlnum_cons_out (c : Char) (y : Str) (h : inSlugClass c = false) :
    nonAlphanumericReplaceAll (c :: y) ['-'] =
      if startsWith (fun c => !inSlugClass c) y then nonAlphanumericReplaceAll y ['-']
      else '-' :: nonAlphanumericReplaceAll y ['-'] :=
  replaceRuns_one_cons_pos _ _ c y (by simp [h])

theorem multipleHyphens_cons_other (c : Char) (y : Str) (h : c ≠ '-') :
    multipleHyphensReplaceAll (c :: y) ['-'] = c :: multipleHyphensReplaceAll y ['-'] :=
  replaceRuns_cons_neg _ 2 (by decide) _ c y (by simp [h])

theorem startsWith_nonAlnum (y : Str) :
    startsWith (· == '-') (nonAlphanumericReplaceAll y ['-']) = startsWith (fun c => !isAlnum c) y := by
  induction y with
  | nil => rfl
  | cons d y ih =>
    by_cases hd : inSlugClass d = true
    · rw [nonAlnum_cons_in d y hd]
      simp only [startsWith]
      rw [inSlugClass_eq] at hd
      by_cases hh : d = '-'
      · subst hh; decide
      · have : isAlnum d = true := by simpa [hh] using hd
        simp [hh, this]
    · have hd' : inSlugClass d = false := by simpa using hd
      have hal : isAlnum d = false := by
        rw [inSlugClass_eq] at hd'
        simp only [Bool.or_eq_false_iff] at hd'
        exact hd'.1
      rw [nonAlnum_cons_out d y hd']
      split
      · rename_i hs
        rw [ih]
        cases y with
        | nil => simp [startsWith] at hs
        | cons e y =>
          simp only [startsWith] at hs ⊢
          have he : isAlnum e = false := by
            rw [inSlugClass_eq] at hs
            simp only [Bool.not_eq_true', Bool.or_eq_false_iff] at hs
            exact hs.1
          simp [he, hal]
      · simp [startsWith, hal]

theorem hyphenate_nil : hyphenate [] = [] := by decide

theorem hyphenate_cons_alnum (a : Char) (y : Str) (h : isAlnum a = true) :
    hyphenate (a :: y) = a :: hyphenate y := by
  unfold hyphenate
  rw [nonAlnum_cons_in a y (by rw [inSlugClass_eq]; simp [h]),
    multipleHyphens_cons_other a _ (isAlnum_ne_hyphen h)]

theorem hyphenate_cons_sep (c : Char) (y : Str) (h : isAlnum c = false) :
    hyphenate (c :: y) =
      if startsWith (fun c => !isAlnum c) y then hyphenate y else '-' :: hyphenate y := by
  unfold hyphenate
  by_cases hc : inSlugClass c = true
  · have hh : c = '-' := by
      rw [inSlugClass_eq] at hc
      simpa [h] using hc
    subst hh
    rw [nonAlnum_cons_in _ y hc, multipleHyphens_cons_hyphen, startsWith_nonAlnum]
  · have hc' : inSlugClass c = false := by simpa using hc
    rw [nonAlnum_cons_out c y hc']
    split
    · rename_i hs
      have : startsWith (fun c => !isAlnum c) y = true := by
        cases y with
        | nil => simp [startsWith] at hs
        | cons e y =>
          simp only [startsWith] at hs ⊢
          rw [inSlugClass_eq] at hs
          simp only [Bool.not_eq_true', Bool.or_eq_false_iff] at hs
          simp [hs.1]
      simp [this]
    · rw [multipleHyphens_cons_hyphen, startsWith_nonAlnum]

theorem startsWith_hyphenate (y : Str) :
    startsWith (· == '-') (hyphenate y) = startsWith (fun c => !isAlnum c) y := by
  induction y with
  | nil => rfl
  | cons d y ih =>
    by_cases hd : isAlnum d = true
    · rw [hyphenate_cons_alnum d y hd]
      simp [startsWith, hd, isAlnum_ne_hyphen hd]
    · have hd' : isAlnum d = false := by simpa using hd
      rw [hyphenate_cons_sep d y hd']
      split
      · rename_i hs
        rw [ih, hs]
        simp [startsWith, hd']
      · simp [startsWith, hd']

theorem hyphenate_mem (s : Str) : ∀ c ∈ hyphenate s, inSlugClass c = true := by
  induction s with
  | nil => simp [hyphenate_nil]
  | cons d y ih =>
    by_cases hd : isAlnum d = true
    · rw [hyphenate_cons_alnum d y hd]
      intro c hc
      rcases List.mem_cons.1 hc with rfl | hc
      · rw [inSlugClass_eq]; simp [hd]
      · exact ih c hc
    · have hd' : isAlnum d = false := by simpa using hd
      rw [hyphenate_cons_sep d y hd']
      split
      · exact ih
      · intro c hc
        rcases List.mem_cons.1 hc with rfl | hc
        · decide
        · exact ih c hc

theorem hyphenate_noDouble (s : Str) : NoDoubleHyphen (hyphenate s) := by
  induction s with
  | nil => simp [hyphenate_nil, NoDoubleHyphen]
  | cons d y ih =>
    by_cases hd : isAlnum d = true
    · rw [hyphenate_cons_alnum d y hd]
      refine List.Chain'.cons' ih ?_
      intro b _ hb
      exact isAlnum_ne_hyphen hd hb.1
    · have hd' : isAlnum d = false := by simpa using hd
      rw [hyphenate_cons_sep d y hd']
      split
      · exact ih
      · rename_i hs
        refine List.Chain'.cons' ih ?_
        intro b hb hbb
        have h1 := startsWith_hyphenate y
        cases hy : hyphenate y with
        | nil => simp [hy] at hb
        | cons e t =>
          rw [hy] at h1 hb
          simp only [List.head?_cons, Option.mem_def, Option.some.injEq] at hb
          subst hb
          rw [← h1] at hs
          simp [startsWith, hbb.2] at hs

/-! ## Lemmas: trimming -/

theorem Trim_subset (s : Str) (c x : Char) (h : x ∈ Trim s c) : x ∈ s := by
  have h1 := List.rdropWhile_prefix (· == c) s
  exact h1.subset ((List.dropWhile_suffix _).subset h)

theorem Trim_within (s : Str) (c : Char) : Trim s c <:+: s := by
  have h1 := List.rdropWhile_prefix (· == c) s
  exact (List.dropWhile_suffix _).isInfix.trans h1.isInfix

theorem Trim_head (s : Str) (c : Char) : (Trim s c).head? ≠ some c := by
  have h := List.head?_dropWhile_not (· == c) (s.rdropWhile (· == c))
  intro h'
  unfold Trim at h'
  rw [h'] at h
  simp at h

theorem Trim_getLast (s : Str) (c : Char) : (Trim s c).getLast? ≠ some c := by
  intro h
  have hne : Trim s c ≠ [] := by
    intro h0
    rw [h0] at h
    simp at h
  have hsuf : Trim s c <:+ s.rdropWhile (· == c) := List.dropWhile_suffix _
  have h1 := hsuf.getLast hne
  have h2 := List.rdropWhile_last_not (· == c) s (hsuf.ne_nil hne)
  rw [List.getLast?_eq_getLast _ hne] at h
  have h3 : (Trim s c).getLast hne = c := by simpa using h
  rw [← h1, h3] at h2
  simp at h2

theorem Trim_eq_self (s : Str) (c : Char) (hh : s.head? ≠ some c) (hl : s.getLast? ≠ some c) :
    Trim s c = s := by
  have h1 : s.rdropWhile (· == c) = s := by
    rw [List.rdropWhile_eq_self_iff]
    intro hne hp
    apply hl
    rw [List.getLast?_eq_getLast _ hne]
    simpa using hp
  unfold Trim
  rw [h1, List.dropWhile_eq_self_iff]
  intro hpos hp
  apply hh
  cases s with
  | nil => simp at hpos
  | cons a t => simpa using hp

/-! ## Lemmas: slugs -/

theorem slugify_isSlug (tbl : Char → Char) (t : Str) : IsSlug (Slugify tbl t) := by
  rw [slugify_eq]
  refine ⟨fun c hc => hyphenate_mem _ c (Trim_subset _ _ _ hc), ?_, Trim_head _ _, Trim_getLast _ _⟩
  exact List.Chain'.infix (hyphenate_noDouble _) (Trim_within _ _)

theorem unicodeToLower_of_inSlugClass (tbl : Char → Char) (c : Char) (h : inSlugClass c = true) :
    unicodeToLower tbl c = c := by
  unfold inSlugClass at h
  unfold unicodeToLower
  have e1 : 'a'.toNat = 97 := rfl
  have e2 : 'z'.toNat = 122 := rfl
  have e3 : '0'.toNat = 48 := rfl
  have e4 : '9'.toNat = 57 := rfl
  have e5 : 'A'.toNat = 65 := rfl
  have e6 : 'Z'.toNat = 90 := rfl
  simp only [e1, e2, e3, e4, e5, e6, Bool.or_eq_true, Bool.and_eq_true, decide_eq_true_eq,
    beq_iff_eq] at h ⊢
  rcases h with (h | h) | h
  · rw [if_pos (by omega), if_neg (by omega)]
  · rw [if_pos (by omega), if_neg (by omega)]
  · subst h; rfl

theorem ToLower_of_slugChars (tbl : Char → Char) (s : Str) (h : ∀ c ∈ s, inSlugClass c = true) :
    ToLower tbl s = s := by
  unfold ToLower
  induction s with
  | nil => rfl
  | cons a t ih =>
    simp only [List.map_cons]
    rw [unicodeToLower_of_inSlugClass tbl a (h a (List.mem_cons_self _ _)),
      ih (fun c hc => h c (List.mem_cons_of_mem _ hc))]

theorem nonAlnum_of_slugChars (s : Str) (h : ∀ c ∈ s, inSlugClass c = true) :
    nonAlphanumericReplaceAll s ['-'] = s := by
  induction s with
  | nil => exact nonAlnum_nil
  | cons a t ih =>
    rw [nonAlnum_cons_in a t (h a (List.mem_cons_self _ _)),
      ih (fun c hc => h c (List.mem_cons_of_mem _ hc))]

theorem multipleHyphens_of_noDouble (s : Str) (h : NoDoubleHyphen s) :
    multipleHyphensReplaceAll s ['-'] = s := by
  induction s with
  | nil => exact multipleHyphens_nil
  | cons a t ih =>
    have ht : NoDoubleHyphen t := List.Chain'.tail h
    by_cases ha : a = '-'
    · subst ha
      rw [multipleHyphens_cons_hyphen, ih ht]
      have : startsWith (· == '-') t = false := by
        cases t with
        | nil => rfl
        | cons b u =>
          have hr := (List.chain'_cons.1 h).1
          simp only [startsWith]
          by_contra hb
          exact hr ⟨rfl, by simpa using hb⟩
      simp [this]
    · rw [multipleHyphens_cons_other a t ha, ih ht]

theorem slugify_of_isSlug (tbl : Char → Char) (s : Str) (h : IsSlug s) : Slugify tbl s = s := by
  obtain ⟨h1, h2, h3, h4⟩ := h
  rw [slugify_eq, ToLower_of_slugChars tbl s h1]
  unfold hyphenate
  rw [nonAlnum_of_slugChars s h1, multipleHyphens_of_noDouble s h2, Trim_eq_self s '-' h3 h4]

theorem noDouble_no_pair (s : Str) (h : NoDoubleHyphen s) : ¬ (['-', '-'] <:+: s) := by
  intro hi
  have := List.Chain'.infix h hi
  simp [List.chain'_cons] at this

/-! ## Lemmas: the runs of a text -/

theorem intercalate_cons_cons (sep w v : Str) (ws : List Str) :
    sep.intercalate (w :: v :: ws) = w ++ sep ++ sep.intercalate (v :: ws) := by
  simp [List.intercalate, List.intersperse]

theorem intercalate_single (sep w : Str) : sep.intercalate [w] = w := by
  simp [List.intercalate, List.intersperse]

theorem intercalate_nil (sep : Str) : sep.intercalate ([] : List Str) = [] := by
  simp [List.intercalate, List.intersperse]

theorem intercalate_cons_char (sep : Str) (a : Char) (w : Str) (ws : List Str) :
    sep.intercalate ((a :: w) :: ws) = a :: sep.intercalate (w :: ws) := by
  cases ws with
  | nil => simp [intercalate_single]
  | cons v vs => simp [intercalate_cons_cons]

theorem alnumRuns_nil : alnumRuns [] = [] := by decide

theorem alnumRuns_cons_sep (c : Char) (y : Str) (h : isAlnum c = false) :
    alnumRuns (c :: y) = alnumRuns y := by
  unfold alnumRuns
  rw [List.splitOnP_cons]
  simp [h]

theorem alnumRuns_mem_ne_nil (s : Str) : ∀ w ∈ alnumRuns s, w ≠ [] := by
  intro w hw
  unfold alnumRuns at hw
  have := (List.mem_filter.1 hw).2
  intro h
  subst h
  simp at this

theorem joinedRuns_nil : joinedRuns [] = [] := by decide

theorem joinedRuns_cons_sep (c : Char) (y : Str) (h : isAlnum c = false) :
    joinedRuns (c :: y) = joinedRuns y := by
  unfold joinedRuns
  rw [alnumRuns_cons_sep c y h]

theorem joinedRuns_eq_nil_iff (s : Str) : joinedRuns s = [] ↔ alnumRuns s = [] := by
  unfold joinedRuns Join
  constructor
  · intro h
    cases hr : alnumRuns s with
    | nil => rfl
    | cons w ws =>
      exfalso
      have hw : w ≠ [] := alnumRuns_mem_ne_nil s w (by rw [hr]; exact List.mem_cons_self _ _)
      rw [hr] at h
      cases w with
      | nil => exact hw rfl
      | cons a w =>
        rw [intercalate_cons_char] at h
        exact List.cons_ne_nil _ _ h
  · intro h
    rw [h, intercalate_nil]

theorem joinedRuns_cons_alnum (a : Char) (y : Str) (h : isAlnum a = true) :
    joinedRuns (a :: y) = a :: hyphenThenRuns y := by
  cases y with
  | nil =>
    have : alnumRuns [a] = [[a]] := by
      unfold alnumRuns
      rw [List.splitOnP_cons]
      simp [h, List.modifyHead]
    simp [joinedRuns, Join, this, intercalate_single, hyphenThenRuns, startsWith,
      alnumRuns_nil, intercalate_nil]
  | cons d y =>
    by_cases hd : isAlnum d = true
    · have hs : startsWith (fun c => !isAlnum c) (d :: y) = false := by simp [startsWith, hd]
      unfold hyphenThenRuns
      rw [hs]
      simp only [Bool.false_eq_true, false_and, if_false]
      unfold joinedRuns alnumRuns Join
      rw [List.splitOnP_cons, List.splitOnP_cons]
      simp only [h, hd, Bool.not_true, Bool.false_eq_true, if_false]
      obtain ⟨w, ws, hws⟩ := List.exists_cons_of_ne_nil (List.splitOnP_ne_nil (fun c => !isAlnum c) y)
      rw [hws]
      simp only [List.modifyHead]
      rw [List.filter_cons_of_pos (by simp), List.filter_cons_of_pos (by simp),
        intercalate_cons_char]
    · have hd' : isAlnum d = false := by simpa using hd
      have hs : startsWith (fun c => !isAlnum c) (d :: y) = true := by simp [startsWith, hd']
      have hr : alnumRuns (a :: d :: y) = [a] :: alnumRuns (d :: y) := by
        unfold alnumRuns
        rw [List.splitOnP_cons, List.splitOnP_cons]
        simp [h, hd', List.modifyHead]
      unfold hyphenThenRuns
      rw [hs]
      by_cases he : joinedRuns (d :: y) = []
      · have he' := (joinedRuns_eq_nil_iff _).1 he
        simp only [he, ne_eq, not_true_eq_false, and_false, if_false]
        unfold joinedRuns Join
        rw [hr, he', intercalate_single]
      · rw [if_pos ⟨rfl, he⟩]
        have he' : alnumRuns (d :: y) ≠ [] := fun h0 => he ((joinedRuns_eq_nil_iff _).2 h0)
        obtain ⟨w, ws, hws⟩ := List.exists_cons_of_ne_nil he'
        unfold joinedRuns Join
        rw [hr, hws, intercalate_cons_cons]
        simp

theorem joinedRuns_head (s : Str) : (joinedRuns s).head? ≠ some '-' := by
  induction s with
  | nil => simp [joinedRuns_nil]
  | cons a y ih =>
    by_cases h : isAlnum a = true
    · rw [joinedRuns_cons_alnum a y h]
      simp only [List.head?_cons, ne_eq, Option.some.injEq]
      exact isAlnum_ne_hyphen h
    · rw [joinedRuns_cons_sep a y (by simpa using h)]
      exact ih

theorem rdropWhile_cons (p : Char → Bool) (c : Char) (l : Str) :
    (c :: l).rdropWhile p =
      if l.rdropWhile p = [] then (if p c then [] else [c]) else c :: l.rdropWhile p := by
  induction l using List.reverseRecOn generalizing c with
  | nil => simp [List.rdropWhile_singleton]
  | append_singleton l x ih =>
    rw [← List.cons_append, List.rdropWhile_concat, List.rdropWhile_concat]
    by_cases hx : p x = true
    · simp only [hx, if_true]
      exact ih c
    · simp [hx]

theorem rdrop_hyphenate (s : Str) :
    (hyphenate s).rdropWhile (· == '-') = hyphenThenRuns s := by
  induction s with
  | nil => decide
  | cons a y ih =>
    by_cases h : isAlnum a = true
    · rw [hyphenate_cons_alnum a y h, rdropWhile_cons, ih]
      have hs : startsWith (fun c => !isAlnum c) (a :: y) = false := by simp [startsWith, h]
      have e : hyphenThenRuns (a :: y) = a :: hyphenThenRuns y := by
        conv_lhs => unfold hyphenThenRuns
        rw [hs]
        simp only [Bool.false_eq_true, false_and, if_false]
        exact joinedRuns_cons_alnum a y h
      rw [e]
      have hne : a ≠ '-' := isAlnum_ne_hyphen h
      split
      · rename_i h0
        simp [h0, hne]
      · rfl
    · have h' : isAlnum a = false := by simpa using h
      have hs : startsWith (fun c => !isAlnum c) (a :: y) = true := by simp [startsWith, h']
      have e : hyphenThenRuns (a :: y) =
          if joinedRuns y ≠ [] then '-' :: joinedRuns y else joinedRuns y := by
        conv_lhs => unfold hyphenThenRuns
        rw [hs, joinedRuns_cons_sep a y h']
        simp
      rw [hyphenate_cons_sep a y h', e]
      by_cases hy : startsWith (fun c => !isAlnum c) y = true
      · rw [if_pos hy, ih]
        unfold hyphenThenRuns
        simp [hy]
      · rw [if_neg hy, rdropWhile_cons, ih]
        have e2 : hyphenThenRuns y = joinedRuns y := by
          unfold hyphenThenRuns
          simp [hy]
        rw [e2]
        by_cases hj : joinedRuns y = []
        · simp [hj]
        · simp [hj]

theorem trim_hyphenate (s : Str) : Trim (hyphenate s) '-' = joinedRuns s := by
  unfold Trim
  rw [rdrop_hyphenate]
  unfold hyphenThenRuns
  have hh := joinedRuns_head s
  have key : (joinedRuns s).dropWhile (· == '-') = joinedRuns s := by
    cases hj : joinedRuns s with
    | nil => rfl
    | cons b t =>
      rw [hj] at hh
      have : b ≠ '-' := by simpa using hh
      simp [List.dropWhile_cons, this]
  split
  · simp [List.dropWhile_cons, key]
  · exact key

/-! ## Lemmas: NormalizeTags -/

theorem inSlugClass_iff (c : Char) :
    inSlugClass c = true ↔ ('a' ≤ c ∧ c ≤ 'z') ∨ ('0' ≤ c ∧ c ≤ '9') ∨ c = '-' := by
  unfold inSlugClass
  simp only [Bool.or_eq_true, Bool.and_eq_true, decide_eq_true_eq, beq_iff_eq, Char.le_def,
    or_assoc]
  rfl

theorem alnumRuns_of_all_sep (s : Str) (h : ∀ c ∈ s, isAlnum c = false) : alnumRuns s = [] := by
  induction s with
  | nil => exact alnumRuns_nil
  | cons a t ih =>
    rw [alnumRuns_cons_sep a t (h a (List.mem_cons_self _ _))]
    exact ih (fun c hc => h c (List.mem_cons_of_mem _ hc))

theorem normalizeTagsLoop_eq (tbl : Char → Char) (ps : List Str) :
    normalizeTagsLoop tbl ps =
      (ps.map (fun p => Slugify tbl (TrimSpace p))).filter (fun t => decide (t ≠ [])) := by
  induction ps with
  | nil => rfl
  | cons p ps ih =>
    simp only [normalizeTagsLoop, List.map_cons, List.filter_cons, ih]
    by_cases h : Slugify tbl (TrimSpace p) = []
    · simp [h]
    · simp [h]

theorem TrimSpace_eq_nil_iff (s : Str) : TrimSpace s = [] ↔ ∀ c ∈ s, isSpace c = true := by
  unfold TrimSpace
  rw [List.rdropWhile_eq_nil_iff]
  constructor
  · intro h
    have h2 : s.dropWhile isSpace = [] := by
      cases hd : s.dropWhile isSpace with
      | nil => rfl
      | cons a t =>
        exfalso
        have h1 := List.head?_dropWhile_not isSpace s
        rw [hd] at h1 h
        simp only [List.head?_cons] at h1
        have := h a (List.mem_cons_self _ _)
        rw [h1] at this
        exact Bool.false_ne_true this
    exact List.dropWhile_eq_nil_iff.1 h2
  · intro h x hx
    exact h x ((List.dropWhile_sublist _).subset hx)

theorem Split_of_not_mem (s : Str) (c : Char) (h : c ∉ s) : Split s c = [s] := by
  unfold Split List.splitOn
  apply List.splitOnP_eq_single
  intro x hx hxc
  have : x = c := by simpa using hxc
  exact h (this ▸ hx)

theorem NormalizeTags_eq (tbl : Char → Char) (s : Str) :
    NormalizeTags tbl s =
      ((Split s ',').map (fun p => Slugify tbl (TrimSpace p))).filter
        (fun t => decide (t ≠ [])) := by
  unfold NormalizeTags
  split
  · rename_i h
    have hall := (TrimSpace_eq_nil_iff s).1 h
    have hc : ',' ∉ s := by
      intro hm
      have := hall ',' hm
      revert this
      decide
    rw [Split_of_not_mem s ',' hc]
    simp only [List.map_cons, List.map_nil, h]
    rfl
  · exact normalizeTagsLoop_eq tbl _

/-! ## Lemmas: the frontmatter codec -/

theorem findEndIdx_none (ls : List Str) (i : Nat)
    (h : ∀ l ∈ ls, TrimSpace l ≠ "---".toList) : findEndIdx ls i = none := by
  induction ls generalizing i with
  | nil => rfl
  | cons l ls ih =>
    simp only [findEndIdx]
    rw [if_neg (h l (List.mem_cons_self _ _))]
    exact ih (i + 1) (fun l hl => h l (List.mem_cons_of_mem _ hl))

theorem parse_no_header (data : Str)
    (h : TrimSpace ((Split data '\n').headD []) ≠ "---".toList ∨
      ∀ l ∈ (Split data '\n').drop 1, TrimSpace l ≠ "---".toList) :
    ParseFrontmatterFromBytes data = ⟨Frontmatter.zero, data, none⟩ := by
  unfold ParseFrontmatterFromBytes
  simp only
  split
  · rfl
  · rcases h with h | h
    · rename_i hc
      exact absurd (Or.inr h) hc
    · rw [findEndIdx_none _ 1 h]

theorem TrimSpace_cons_space (c : Char) (s : Str) (h : isSpace c = true) :
    TrimSpace (c :: s) = TrimSpace s := by
  unfold TrimSpace
  rw [List.dropWhile_cons_of_pos h]

theorem TrimSpace_enclosed (a b : Char) (m : Str) (ha : isSpace a = false)
    (hb : isSpace b = false) : TrimSpace (a :: (m ++ [b])) = a :: (m ++ [b]) := by
  unfold TrimSpace
  rw [List.dropWhile_cons_of_neg (by simp [ha]), ← List.cons_append,
    List.rdropWhile_concat_neg _ _ _ (by simp [hb])]

theorem TrimSpace_cons_keep (c : Char) (s : Str) (h : isSpace c = false) :
    ∃ t, TrimSpace (c :: s) = c :: t := by
  unfold TrimSpace
  rw [List.dropWhile_cons_of_neg (by simp [h]), rdropWhile_cons]
  split
  · exact ⟨[], by simp [h]⟩
  · exact ⟨_, rfl⟩

theorem lowerhex_ne_newline (n : Nat) : lowerhex n ≠ '\n' := by
  unfold lowerhex
  have h : n % 16 < 16 := Nat.mod_lt _ (by decide)
  generalize n % 16 = m at h
  interval_cases m <;> decide

theorem IsPrint_newline (prt : Char → Bool) : IsPrint prt '\n' = false := by rfl

theorem newline_not_mem_cons (a : Char) (l : Str) (ha : a ≠ '\n') (hl : '\n' ∉ l) :
    '\n' ∉ a :: l := by
  intro h
  rcases List.mem_cons.1 h with h | h
  · exact ha h.symm
  · exact hl h

theorem appendEscapedRune_no_newline (prt : Char → Bool) (r : Char) :
    '\n' ∉ appendEscapedRune prt r := by
  unfold appendEscapedRune
  simp only
  by_cases h1 : r = '"' ∨ r = '\\'
  · rw [if_pos h1]
    rcases h1 with h | h <;> subst h <;> decide
  rw [if_neg h1]
  by_cases h2 : IsPrint prt r = true
  · rw [if_pos h2]
    intro hm
    have : r = '\n' := (List.mem_singleton.1 hm).symm
    subst this
    rw [IsPrint_newline] at h2
    exact Bool.false_ne_true h2
  rw [if_neg h2]
  split_ifs <;>
    repeat (first
      | exact List.not_mem_nil _
      | apply newline_not_mem_cons _ _ (lowerhex_ne_newline _)
      | apply newline_not_mem_cons _ _ (by decide))

theorem Quote_no_newline (prt : Char → Bool) (s : Str) : '\n' ∉ Quote prt s := by
  unfold Quote
  intro h
  rcases List.mem_append.1 h with h | h
  · rcases List.mem_cons.1 h with h | h
    · exact absurd h (by decide)
    · obtain ⟨l, hl, hm⟩ := List.mem_flatten.1 h
      obtain ⟨r, _, rfl⟩ := List.mem_map.1 hl
      exact appendEscapedRune_no_newline prt r hm
  · exact absurd h (by decide)

theorem appendEscapedRune_plain (prt : Char → Bool) (r : Char) (hp : IsPrint prt r = true)
    (hq : r ≠ '"') (hb : r ≠ '\\') : appendEscapedRune prt r = [r] := by
  unfold appendEscapedRune
  simp [hp, hq, hb]

theorem flatten_escaped_plain (prt : Char → Bool) (s : Str)
    (h : ∀ c ∈ s, IsPrint prt c = true ∧ c ≠ '"' ∧ c ≠ '\\') :
    (s.map (appendEscapedRune prt)).flatten = s := by
  induction s with
  | nil => rfl
  | cons a t ih =>
    obtain ⟨h1, h2, h3⟩ := h a (List.mem_cons_self _ _)
    simp only [List.map_cons, List.flatten_cons, appendEscapedRune_plain prt a h1 h2 h3]
    rw [ih (fun c hc => h c (List.mem_cons_of_mem _ hc))]
    rfl

theorem Quote_plain (prt : Char → Bool) (s : Str)
    (h : ∀ c ∈ s, IsPrint prt c = true ∧ c ≠ '"' ∧ c ≠ '\\') :
    Quote prt s = '"' :: (s ++ ['"']) := by
  unfold Quote
  rw [flatten_escaped_plain prt s h]
  rfl

theorem Split_line (l rest : Str) (c : Char) (h : c ∉ l) :
    Split (l ++ c :: rest) c = l :: Split rest c := by
  unfold Split List.splitOn
  apply List.splitOnP_first
  · intro x hx hxc
    have : x = c := by simpa using hxc
    exact h (this ▸ hx)
  · simp

theorem Join_Split (b : Str) (c : Char) : Join (Split b c) [c] = b := by
  unfold Join Split
  exact List.intercalate_splitOn b c

theorem Split_ne_nil (b : Str) (c : Char) : Split b c ≠ [] := by
  unfold Split List.splitOn
  exact List.splitOnP_ne_nil _ _

theorem parseYAMLLine_key (key v : Str) (hk : ':' ∉ key) (ht : TrimSpace key = key) :
    parseYAMLLine (key ++ ':' :: ' ' :: v) = (key, TrimSpace v, true) := by
  unfold parseYAMLLine IndexChar
  have hm : ':' ∈ key ++ ':' :: ' ' :: v := by simp
  have hi : List.indexOf ':' (key ++ ':' :: ' ' :: v) = key.length := by
    rw [List.indexOf_append_of_not_mem hk, List.indexOf_cons_self]
    rfl
  simp only [hm, if_true, hi]
  have hneg : ¬ ((key.length : Int) < 0) := by omega
  rw [if_neg hneg]
  simp only [Int.toNat_ofNat, List.take_left]
  rw [show key ++ ':' :: ' ' :: v = key ++ (':' :: ' ' :: v) from rfl]
  have hd : List.drop (key.length + 1) (key ++ ':' :: ' ' :: v) = ' ' :: v := by
    rw [← List.drop_drop, List.drop_left]
    rfl
  rw [hd, ht, TrimSpace_cons_space ' ' v (by decide)]

theorem mem_intercalate (sep : Str) (l : List Str) (c : Char) (h : c ∈ sep.intercalate l) :
    c ∈ sep ∨ ∃ t ∈ l, c ∈ t := by
  induction l with
  | nil => simp [intercalate_nil] at h
  | cons w ws ih =>
    cases ws with
    | nil =>
      rw [intercalate_single] at h
      exact Or.inr ⟨w, List.mem_cons_self _ _, h⟩
    | cons v vs =>
      rw [intercalate_cons_cons] at h
      rcases List.mem_append.1 h with h | h
      · rcases List.mem_append.1 h with h | h
        · exact Or.inr ⟨w, List.mem_cons_self _ _, h⟩
        · exact Or.inl h
      · rcases ih h with h | ⟨t, ht, hc⟩
        · exact Or.inl h
        · exact Or.inr ⟨t, List.mem_cons_of_mem _ ht, hc⟩

theorem newline_not_mem_list (l : List Str) (h : ∀ t ∈ l, '\n' ∉ t) (pre post : Str)
    (hpre : '\n' ∉ pre) (hpost : '\n' ∉ post) :
    '\n' ∉ pre ++ Join l ", ".toList ++ post := by
  intro hm
  rcases List.mem_append.1 hm with hm | hm
  · rcases List.mem_append.1 hm with hm | hm
    · exact hpre hm
    · rcases mem_intercalate _ _ _ hm with h1 | ⟨t, ht, hc⟩
      · exact absurd h1 (by decide)
      · exact h t ht hc
  · exact hpost hm

theorem headerLines_no_newline (prt : Char → Bool) (fm : Frontmatter) (h : NoNewline fm) :
    ∀ l ∈ headerLines prt fm, '\n' ∉ l := by
  obtain ⟨h1, h2, h3, h4⟩ := h
  intro l hl
  simp only [headerLines, List.mem_cons, List.mem_singleton, List.not_mem_nil, or_false] at hl
  rcases hl with rfl | rfl | rfl | rfl | rfl
  · intro hm
    rcases List.mem_append.1 hm with hm | hm
    · exact absurd hm (by decide)
    · exact Quote_no_newline prt _ hm
  · intro hm
    rcases List.mem_append.1 hm with hm | hm
    · exact absurd hm (by decide)
    · exact h1 hm
  · exact newline_not_mem_list _ h3 _ _ (by decide) (by decide)
  · intro hm
    rcases List.mem_append.1 hm with hm | hm
    · exact absurd hm (by decide)
    · exact h2 hm
  · exact newline_not_mem_list _ h4 _ _ (by decide) (by decide)

theorem format_eq (prt : Char → Bool) (fm : Frontmatter) (b : Str) :
    FormatFrontmatter prt fm ++ b =
      "---".toList ++ '\n' :: (("title: ".toList ++ Quote prt fm.Title) ++ '\n' ::
        (("date: ".toList ++ fm.Date) ++ '\n' ::
        (("tags: [".toList ++ Join fm.Tags ", ".toList ++ "]".toList) ++ '\n' ::
        (("status: ".toList ++ fm.Status) ++ '\n' ::
        (("aliases: [".toList ++ Join fm.Aliases ", ".toList ++ "]".toList) ++ '\n' ::
        ("---".toList ++ '\n' :: b)))))) := by
  simp [FormatFrontmatter, List.append_assoc]

theorem split_format (prt : Char → Bool) (fm : Frontmatter) (b : Str) (h : NoNewline fm) :
    Split (FormatFrontmatter prt fm ++ b) '\n' =
      "---".toList :: (headerLines prt fm ++ "---".toList :: Split b '\n') := by
  have hl := headerLines_no_newline prt fm h
  rw [format_eq]
  rw [Split_line _ _ _ (by decide)]
  rw [Split_line _ _ _ (hl _ (by simp [headerLines]))]
  rw [Split_line _ _ _ (hl _ (by simp [headerLines]))]
  rw [Split_line _ _ _ (hl _ (by simp [headerLines]))]
  rw [Split_line _ _ _ (hl _ (by simp [headerLines]))]
  rw [Split_line _ _ _ (hl _ (by simp [headerLines]))]
  rw [Split_line _ _ _ (by decide)]
  rfl

theorem TrimSpace_ne_sep (c : Char) (s : Str) (hc : isSpace c = false) (hne : c ≠ '-') :
    TrimSpace (c :: s) ≠ "---".toList := by
  intro h
  obtain ⟨t, ht⟩ := TrimSpace_cons_keep c s hc
  rw [ht] at h
  exact hne (List.cons.inj h).1

theorem headerLines_not_sep (prt : Char → Bool) (fm : Frontmatter) :
    ∀ l ∈ headerLines prt fm, TrimSpace l ≠ "---".toList := by
  intro l hl
  simp only [headerLines, List.mem_cons, List.mem_singleton, List.not_mem_nil, or_false] at hl
  rcases hl with rfl | rfl | rfl | rfl | rfl
  · exact TrimSpace_ne_sep 't' _ (by decide) (by decide)
  · exact TrimSpace_ne_sep 'd' _ (by decide) (by decide)
  · exact TrimSpace_ne_sep 't' _ (by decide) (by decide)
  · exact TrimSpace_ne_sep 's' _ (by decide) (by decide)
  · exact TrimSpace_ne_sep 'a' _ (by decide) (by decide)

theorem findEndIdx_skip (pre : List Str) (rest : List Str) (i : Nat)
    (h : ∀ l ∈ pre, TrimSpace l ≠ "---".toList) :
    findEndIdx (pre ++ "---".toList :: rest) i = some (i + pre.length) := by
  induction pre generalizing i with
  | nil =>
    simp only [List.nil_append, findEndIdx]
    rw [if_pos (by decide)]
    rfl
  | cons l ls ih =>
    change findEndIdx (l :: (ls ++ "---".toList :: rest)) i = _
    rw [findEndIdx, if_neg (h l (List.mem_cons_self _ _)),
      ih (i + 1) (fun l hl => h l (List.mem_cons_of_mem _ hl))]
    simp only [List.length_cons]
    congr 1
    omega

theorem parse_format (prt : Char → Bool) (fm : Frontmatter) (b : Str) (h : NoNewline fm) :
    ParseFrontmatterFromBytes (FormatFrontmatter prt fm ++ b) =
      ⟨(headerLines prt fm).foldl applyHeaderLine Frontmatter.zero, b, none⟩ := by
  unfold ParseFrontmatterFromBytes
  simp only
  rw [split_format prt fm b h]
  have hlen : (headerLines prt fm).length = 5 := rfl
  have hne := Split_ne_nil b '\n'
  have hpos : 0 < (Split b '\n').length := List.length_pos.2 hne
  rw [if_neg (by
    simp only [List.length_cons, List.length_append, hlen, List.headD_cons, not_or, not_lt,
      not_not]
    exact ⟨by omega, by decide⟩)]
  simp only [List.drop_one, List.tail_cons]
  rw [findEndIdx_skip _ _ 1 (headerLines_not_sep prt fm)]
  simp only [hlen]
  have e1 : (List.take (1 + 5) ("---".toList :: (headerLines prt fm ++ "---".toList :: Split b '\n'))).tail
      = headerLines prt fm := by
    rfl
  have e2 : List.drop (1 + 5 + 1) ("---".toList :: (headerLines prt fm ++ "---".toList :: Split b '\n'))
      = Split b '\n' := by
    rfl
  rw [e1, e2, Join_Split]
  rw [if_pos (by simp only [List.length_cons, List.length_append, hlen]; omega)]

theorem utf8EncodeRune_length_pos (c : Char) : 0 < (utf8EncodeRune c).length := by
  unfold utf8EncodeRune
  simp only
  split_ifs <;> simp

theorem len_cons (c : Char) (s : Str) : len (c :: s) = (utf8EncodeRune c).length + len s := by
  simp [len, utf8]

theorem len_pos_of_ne_nil (s : Str) (h : s ≠ []) : 0 < len s := by
  cases s with
  | nil => exact absurd rfl h
  | cons c t =>
    rw [len_cons]
    have := utf8EncodeRune_length_pos c
    omega

theorem unquote_quoted (t : Str) : unquote ('"' :: (t ++ ['"'])) = t := by
  unfold unquote
  have h1 : len ('"' :: (t ++ ['"'])) ≥ 2 := by
    rw [len_cons]
    have : 0 < len (t ++ ['"']) := len_pos_of_ne_nil _ (by simp)
    have : (utf8EncodeRune '"').length = 1 := rfl
    omega
  have h2 : ('"' :: (t ++ ['"'])).head? = some '"' := rfl
  have h3 : ('"' :: (t ++ ['"'])).getLast? = some '"' := by
    rw [← List.cons_append, List.getLast?_concat]
  rw [if_pos ⟨h1, h2, h3⟩]
  simp

theorem parseYAMLListLoop_spaced (ts : List Str) (h : ∀ t ∈ ts, PlainItem t) :
    parseYAMLListLoop (ts.map (fun t => ' ' :: t)) = ts := by
  induction ts with
  | nil => rfl
  | cons t ts ih =>
    obtain ⟨h1, _, h3⟩ := h t (List.mem_cons_self _ _)
    simp only [List.map_cons, parseYAMLListLoop]
    rw [TrimSpace_cons_space ' ' t (by decide), h3, if_pos h1,
      ih (fun t ht => h t (List.mem_cons_of_mem _ ht))]

theorem Split_cons_ne (c d : Char) (s : Str) (h : d ≠ c) :
    Split (d :: s) c = (Split s c).modifyHead (List.cons d) := by
  unfold Split List.splitOn
  rw [List.splitOnP_cons]
  simp [h]

theorem Split_join_items (t : Str) (ts : List Str) (h : ∀ u ∈ t :: ts, ',' ∉ u) :
    Split (Join (t :: ts) ", ".toList) ',' = t :: ts.map (fun u => ' ' :: u) := by
  induction ts generalizing t with
  | nil =>
    unfold Join
    rw [intercalate_single]
    exact Split_of_not_mem t ',' (h t (List.mem_cons_self _ _))
  | cons v vs ih =>
    have e : Join (t :: v :: vs) ", ".toList = t ++ ',' :: (' ' :: Join (v :: vs) ", ".toList) := by
      unfold Join
      rw [intercalate_cons_cons]
      simp
    rw [e, Split_line _ _ _ (h t (List.mem_cons_self _ _)), Split_cons_ne _ _ _ (by decide),
      ih v (fun u hu => h u (List.mem_cons_of_mem _ hu))]
    rfl

theorem Join_eq_nil (ts : List Str) (h : ∀ t ∈ ts, t ≠ []) (hj : Join ts ", ".toList = []) :
    ts = [] := by
  cases ts with
  | nil => rfl
  | cons t ts =>
    exfalso
    have ht := h t (List.mem_cons_self _ _)
    cases t with
    | nil => exact ht rfl
    | cons a t =>
      unfold Join at hj
      rw [intercalate_cons_char] at hj
      exact List.cons_ne_nil _ _ hj

theorem parseYAMLList_bracket (ts : List Str) (h : ∀ t ∈ ts, PlainItem t) :
    parseYAMLList ('[' :: (Join ts ", ".toList ++ [']'])) = ts := by
  unfold parseYAMLList
  simp only
  rw [TrimSpace_enclosed '[' ']' _ (by decide) (by decide)]
  have e1 : TrimPrefix ('[' :: (Join ts ", ".toList ++ [']'])) '[' = Join ts ", ".toList ++ [']'] := by
    simp [TrimPrefix]
  have e2 : TrimSuffix (Join ts ", ".toList ++ [']']) ']' = Join ts ", ".toList := by
    unfold TrimSuffix
    rw [List.getLast?_concat, if_pos rfl, List.dropLast_concat]
  rw [e1, e2]
  cases ts with
  | nil => rfl
  | cons t ts =>
    have hne : Join (t :: ts) ", ".toList ≠ [] := by
      intro hj
      have := Join_eq_nil (t :: ts) (fun u hu => (h u hu).1) hj
      exact List.cons_ne_nil _ _ this
    rw [if_neg hne, Split_join_items t ts (fun u hu => (h u hu).2.1)]
    obtain ⟨h1, _, h3⟩ := h t (List.mem_cons_self _ _)
    simp only [parseYAMLListLoop]
    rw [h3, if_pos h1, parseYAMLListLoop_spaced ts (fun u hu => h u (List.mem_cons_of_mem _ hu))]

theorem applyHeaderLine_key (fm : Frontmatter) (key v : Str) (hk : ':' ∉ key)
    (ht : TrimSpace key = key) :
    applyHeaderLine fm (key ++ ':' :: ' ' :: v) =
      if key = "title".toList then { fm with Title := unquote (TrimSpace v) }
      else if key = "date".toList then { fm with Date := TrimSpace v }
      else if key = "tags".toList then { fm with Tags := parseYAMLList (TrimSpace v) }
      else if key = "status".toList then { fm with Status := TrimSpace v }
      else if key = "aliases".toList then { fm with Aliases := parseYAMLList (TrimSpace v) }
      else fm := by
  unfold applyHeaderLine
  rw [parseYAMLLine_key key v hk ht]
  rfl

theorem applyHeaderLine_title (f : Frontmatter) (v : Str) :
    applyHeaderLine f ("title: ".toList ++ v) = { f with Title := unquote (TrimSpace v) } := by
  have h := applyHeaderLine_key f "title".toList v (by decide) (by decide)
  rw [if_pos rfl] at h
  exact h

theorem applyHeaderLine_date (f : Frontmatter) (v : Str) :
    applyHeaderLine f ("date: ".toList ++ v) = { f with Date := TrimSpace v } := by
  have h := applyHeaderLine_key f "date".toList v (by decide) (by decide)
  rw [if_neg (by decide), if_pos rfl] at h
  exact h

theorem applyHeaderLine_tags (f : Frontmatter) (v : Str) :
    applyHeaderLine f ("tags: ".toList ++ v) = { f with Tags := parseYAMLList (TrimSpace v) } := by
  have h := applyHeaderLine_key f "tags".toList v (by decide) (by decide)
  rw [if_neg (by decide), if_neg (by decide), if_pos rfl] at h
  exact h

theorem applyHeaderLine_status (f : Frontmatter) (v : Str) :
    applyHeaderLine f ("status: ".toList ++ v) = { f with Status := TrimSpace v } := by
  have h := applyHeaderLine_key f "status".toList v (by decide) (by decide)
  rw [if_neg (by decide), if_neg (by decide), if_neg (by decide), if_pos rfl] at h
  exact h

theorem applyHeaderLine_aliases (f : Frontmatter) (v : Str) :
    applyHeaderLine f ("aliases: ".toList ++ v) =
      { f with Aliases := parseYAMLList (TrimSpace v) } := by
  have h := applyHeaderLine_key f "aliases".toList v (by decide) (by decide)
  rw [if_neg (by decide), if_neg (by decide), if_neg (by decide), if_neg (by decide),
    if_pos rfl] at h
  exact h

theorem bracket_line (pre J : Str) :
    (pre ++ ['[']) ++ J ++ "]".toList = pre ++ ('[' :: (J ++ [']'])) := by
  simp

theorem fold_headerLines (prt : Char → Bool) (fm : Frontmatter) (h1 : PlainTitle prt fm.Title)
    (h2 : TrimSpace fm.Date = fm.Date) (h3 : ∀ t ∈ fm.Tags, PlainItem t)
    (h4 : TrimSpace fm.Status = fm.Status) (h5 : ∀ t ∈ fm.Aliases, PlainItem t) :
    (headerLines prt fm).foldl applyHeaderLine Frontmatter.zero = fm := by
  have q : TrimSpace (Quote prt fm.Title) = '"' :: (fm.Title ++ ['"']) := by
    rw [Quote_plain prt _ h1]
    exact TrimSpace_enclosed '"' '"' _ (by decide) (by decide)
  have b3 := TrimSpace_enclosed '[' ']' (Join fm.Tags ", ".toList) (by decide) (by decide)
  have b5 := TrimSpace_enclosed '[' ']' (Join fm.Aliases ", ".toList) (by decide) (by decide)
  have l3 : "tags: [".toList ++ Join fm.Tags ", ".toList ++ "]".toList
      = "tags: ".toList ++ ('[' :: (Join fm.Tags ", ".toList ++ [']'])) :=
    bracket_line "tags: ".toList _
  have l5 : "aliases: [".toList ++ Join fm.Aliases ", ".toList ++ "]".toList
      = "aliases: ".toList ++ ('[' :: (Join fm.Aliases ", ".toList ++ [']'])) :=
    bracket_line "aliases: ".toList _
  unfold headerLines
  rw [l3, l5]
  simp only [List.foldl_cons, List.foldl_nil]
  rw [applyHeaderLine_title, applyHeaderLine_date, applyHeaderLine_tags, applyHeaderLine_status,
    applyHeaderLine_aliases, q, h2, h4, b3, b5, unquote_quoted,
    parseYAMLList_bracket _ h3, parseYAMLList_bracket _ h5]

theorem roundtrip_core (prt : Char → Bool) (fm : Frontmatter) (hn : NoNewline fm)
    (h1 : PlainTitle prt fm.Title)
    (h2 : TrimSpace fm.Date = fm.Date) (h3 : ∀ t ∈ fm.Tags, PlainItem t)
    (h4 : TrimSpace fm.Status = fm.Status) (h5 : ∀ t ∈ fm.Aliases, PlainItem t) :
    ParseFrontmatterFromBytes (FormatFrontmatter prt fm) = ⟨fm, [], none⟩ := by
  have := parse_format prt fm [] hn
  rw [List.append_nil, fold_headerLines prt fm h1 h2 h3 h4 h5] at this
  exact this

/-! ## Lemmas: search -/

theorem indexFrom_nonneg_iff (sub s : Bytes) (i : Nat) :
    0 ≤ indexFrom sub s i ↔ sub <:+: s := by
  induction s generalizing i with
  | nil =>
    simp only [indexFrom, List.infix_nil]
    split
    · rename_i h
      simp [h]
    · rename_i h
      simp [h]
  | cons b s ih =>
    simp only [indexFrom]
    rw [List.infix_cons_iff]
    split
    · rename_i h
      have hp : sub <+: b :: s := List.isPrefixOf_iff_prefix.1 h
      simp [hp]
    · rename_i h
      have hp : ¬ sub <+: b :: s := fun hp => h (List.isPrefixOf_iff_prefix.2 hp)
      rw [ih (i + 1)]
      simp [hp]

theorem Contains_iff (s sub : Str) : Contains s sub = true ↔ IsSubstring sub s := by
  unfold Contains Index IsSubstring
  rw [decide_eq_true_iff]
  exact indexFrom_nonneg_iff _ _ 0

theorem scoreLoop_eq (tbl : Char → Char) (q : Str) (ts : List Str) (score : Int) :
    scoreLoop tbl q ts score =
      score + (if ∃ t ∈ ts, IsSubstring q (ToLower tbl t) then 8 else 0) := by
  induction ts with
  | nil => simp [scoreLoop]
  | cons t ts ih =>
    simp only [scoreLoop]
    by_cases h : Contains (ToLower tbl t) q = true
    · rw [if_pos h, if_pos ⟨t, List.mem_cons_self _ _, (Contains_iff _ _).1 h⟩]
    · rw [if_neg h, ih]
      have hn : ¬ IsSubstring q (ToLower tbl t) := fun hc => h ((Contains_iff _ _).2 hc)
      congr 1
      by_cases he : ∃ u ∈ ts, IsSubstring q (ToLower tbl u)
      · obtain ⟨u, hu, hs⟩ := he
        rw [if_pos ⟨u, hu, hs⟩, if_pos ⟨u, List.mem_cons_of_mem _ hu, hs⟩]
      · rw [if_neg he, if_neg]
        rintro ⟨u, hu, hs⟩
        rcases List.mem_cons.1 hu with rfl | hu
        · exact hn hs
        · exact he ⟨u, hu, hs⟩

theorem ite_Contains (s q : Str) (a b : Int) :
    (if Contains s q = true then a else b) = (if IsSubstring q s then a else b) := by
  by_cases h : IsSubstring q s
  · rw [if_pos h, if_pos ((Contains_iff _ _).2 h)]
  · rw [if_neg h, if_neg (fun hc => h ((Contains_iff _ _).1 hc))]

theorem scoreNote_eq (tbl : Char → Char) (note : Note) (q : Str) :
    scoreNote tbl note q =
      (if IsSubstring q (ToLower tbl note.Frontmatter.Title) then 10 else 0)
      + (if ∃ t ∈ note.Frontmatter.Tags, IsSubstring q (ToLower tbl t) then 8 else 0)
      + (if ∃ a ∈ note.Frontmatter.Aliases, IsSubstring q (ToLower tbl a) then 8 else 0)
      + (if IsSubstring q (ToLower tbl note.Body) then 3 else 0) := by
  unfold scoreNote
  simp only [scoreLoop_eq, zero_add, ite_Contains]
  split_ifs <;> omega

/-! ## Lemmas: listing -/

theorem ListNotes_ok (formatDate : Int → Str)
    (sortSlice : (Note → Note → Bool) → List Note → List Note) (notes : List Note)
    (showAll : Bool) (h0 : notes ≠ []) :
    ListNotes formatDate sortSlice (.ok notes) showAll =
      ⟨1, ((sortSlice afterModTime notes).take
            (if showAll = true ∨ (sortSlice afterModTime notes).length ≤ 10
              then (sortSlice afterModTime notes).length else 10)).map (listLine formatDate)
          ++ (if showAll = false ∧ (sortSlice afterModTime notes).length > 10
              then [listFooter (sortSlice afterModTime notes).length] else []),
        .returned none⟩ := by
  unfold ListNotes
  have hl : ¬ notes.length = 0 := fun h => h0 (List.length_eq_zero.1 h)
  simp only [hl, if_false]
  split_ifs <;> simp

/-! ## Lemmas: the insertions of the assembler -/

theorem indexTextFrom_neg_iff (sub s : Str) (i : Nat) :
    indexTextFrom sub s i < 0 ↔ ¬ sub <:+: s := by
  induction s generalizing i with
  | nil =>
    simp only [indexTextFrom, List.infix_nil]
    split
    · rename_i h
      simp only [h, not_true_eq_false, iff_false, not_lt]
      omega
    · rename_i h
      simp [h]
  | cons b s ih =>
    simp only [indexTextFrom]
    rw [List.infix_cons_iff]
    split
    · rename_i h
      have hp : sub <+: b :: s := List.isPrefixOf_iff_prefix.1 h
      simp only [hp, true_or, not_true_eq_false, iff_false, not_lt]
      omega
    · rename_i h
      have hp : ¬ sub <+: b :: s := fun hp => h (List.isPrefixOf_iff_prefix.2 hp)
      rw [ih (i + 1)]
      simp [hp]

theorem indexTextFrom_first (sub pre tail : Str) (i : Nat) (hne : sub ≠ [])
    (hfirst : ¬ sub <:+: pre ++ sub.dropLast) :
    indexTextFrom sub (pre ++ sub ++ tail) i = ((i + pre.length : Nat) : Int) := by
  induction pre generalizing i with
  | nil =>
    cases sub with
    | nil => exact absurd rfl hne
    | cons c sub =>
      have hp : (c :: sub).isPrefixOf (c :: (sub ++ tail)) = true :=
        List.isPrefixOf_iff_prefix.2 ⟨tail, rfl⟩
      change indexTextFrom (c :: sub) (c :: (sub ++ tail)) i = _
      rw [indexTextFrom, if_pos hp]
      simp
  | cons c pre ih =>
    have hnp : ¬ sub.isPrefixOf (c :: (pre ++ sub ++ tail)) = true := by
      intro hp
      have hp1 : sub <+: c :: (pre ++ sub ++ tail) := List.isPrefixOf_iff_prefix.1 hp
      have hp2 : (c :: pre) ++ sub.dropLast <+: c :: (pre ++ sub ++ tail) := by
        have hd : sub.dropLast <+: sub := List.dropLast_prefix sub
        obtain ⟨t, ht⟩ := hd
        refine ⟨t ++ tail, ?_⟩
        simp only [List.cons_append, List.append_assoc]
        rw [← List.append_assoc sub.dropLast t tail, ht]
      have hl : sub.length ≤ ((c :: pre) ++ sub.dropLast).length := by
        simp only [List.length_append, List.length_cons, List.length_dropLast]
        have : 0 < sub.length := List.length_pos.2 hne
        omega
      exact hfirst (List.prefix_of_prefix_length_le hp1 hp2 hl).isInfix
    have hrec : ¬ sub <:+: pre ++ sub.dropLast := by
      intro h
      apply hfirst
      rw [List.cons_append]
      exact (List.infix_cons_iff.2 (Or.inr h))
    change indexTextFrom sub (c :: (pre ++ sub ++ tail)) i = _
    rw [indexTextFrom, if_neg hnp, ih (i + 1) hrec]
    simp only [List.length_cons]
    congr 1
    omega

theorem takeWhile_newlines (nl rest : Str) (hnl : ∀ c ∈ nl, c = '\n')
    (hrest : rest.head? ≠ some '\n') :
    (nl ++ rest).takeWhile (· == '\n') = nl := by
  induction nl with
  | nil =>
    cases rest with
    | nil => rfl
    | cons c rest =>
      have : c ≠ '\n' := by simpa using hrest
      simp [List.takeWhile_cons, this]
  | cons c nl ih =>
    have hc : c = '\n' := hnl c (List.mem_cons_self _ _)
    subst hc
    simp only [List.cons_append, List.takeWhile_cons, beq_self_eq_true, if_true]
    rw [ih (fun c hc => hnl c (List.mem_cons_of_mem _ hc))]

/-- The cut both insertions make: after the first occurrence of the marker and the line feeds
that follow it. -/
theorem insert_after_marker (marker pre nl rest ins : Str) (hne : marker ≠ [])
    (hfirst : ¬ marker <:+: pre ++ marker.dropLast) (hnl : ∀ c ∈ nl, c = '\n')
    (hrest : rest.head? ≠ some '\n') :
    let content := pre ++ marker ++ nl ++ rest
    let insertAt := (IndexText content marker).toNat + marker.length
    let insertAt := insertAt + ((content.drop insertAt).takeWhile (· == '\n')).length
    ¬ IndexText content marker < 0 ∧
    content.take insertAt ++ ins ++ content.drop insertAt
      = pre ++ marker ++ nl ++ ins ++ rest := by
  intro content insertAt0 insertAt
  have hidx : IndexText content marker = ((pre.length : Nat) : Int) := by
    have := indexTextFrom_first marker pre (nl ++ rest) 0 hne hfirst
    simp only [Nat.zero_add] at this
    show indexTextFrom marker (pre ++ marker ++ nl ++ rest) 0 = _
    rw [List.append_assoc (pre ++ marker) nl rest]
    exact this
  have h0 : insertAt0 = (pre ++ marker).length := by
    show (IndexText content marker).toNat + marker.length = _
    rw [hidx]
    simp
  have hdrop0 : content.drop insertAt0 = nl ++ rest := by
    rw [h0]
    show List.drop (pre ++ marker).length (pre ++ marker ++ nl ++ rest) = _
    rw [List.append_assoc (pre ++ marker) nl rest, List.drop_left]
  have h1 : insertAt = (pre ++ marker ++ nl).length := by
    show insertAt0 + ((content.drop insertAt0).takeWhile (· == '\n')).length = _
    rw [hdrop0, takeWhile_newlines nl rest hnl hrest, h0]
    simp only [List.length_append]
  refine ⟨by rw [hidx]; omega, ?_⟩
  rw [h1]
  show List.take (pre ++ marker ++ nl).length (pre ++ marker ++ nl ++ rest) ++ ins
    ++ List.drop (pre ++ marker ++ nl).length (pre ++ marker ++ nl ++ rest) = _
  rw [List.take_left, List.drop_left]

theorem IndexText_neg_iff (s sub : Str) : IndexText s sub < 0 ↔ ¬ sub <:+: s :=
  indexTextFrom_neg_iff sub s 0

theorem addBodyToContent_absent (content body : Str) (h : ¬ "## Notes".toList <:+: content) :
    addBodyToContent content body = content ++ "\n".toList ++ body ++ "\n".toList := by
  unfold addBodyToContent
  simp only
  rw [if_pos ((IndexText_neg_iff _ _).2 h)]

theorem addBodyToContent_present (pre nl rest body : Str)
    (hfirst : ¬ "## Notes".toList <:+: pre ++ "## Note".toList) (hnl : ∀ c ∈ nl, c = '\n')
    (hrest : rest.head? ≠ some '\n') :
    addBodyToContent (pre ++ "## Notes".toList ++ nl ++ rest) body
      = pre ++ "## Notes".toList ++ nl ++ body ++ "\n\n".toList ++ rest := by
  have h := insert_after_marker "## Notes".toList pre nl rest (body ++ "\n\n".toList)
    (by decide) hfirst hnl hrest
  simp only at h
  unfold addBodyToContent
  simp only
  rw [if_neg h.1]
  have h2 := h.2
  simp only [← List.append_assoc] at h2 ⊢
  exact h2

theorem addURLsToContent_absent (content : Str) (urls : List Str)
    (h : ¬ "## References".toList <:+: content) :
    addURLsToContent content urls = content ++ "\n## References\n\n".toList ++ urlLines urls := by
  unfold addURLsToContent
  simp only
  rw [if_pos ((IndexText_neg_iff _ _).2 h)]

theorem addURLsToContent_present (pre nl rest : Str) (urls : List Str)
    (hfirst : ¬ "## References".toList <:+: pre ++ "## Reference".toList)
    (hnl : ∀ c ∈ nl, c = '\n') (hrest : rest.head? ≠ some '\n') :
    addURLsToContent (pre ++ "## References".toList ++ nl ++ rest) urls
      = pre ++ "## References".toList ++ nl ++ urlLines urls ++ "\n".toList ++ rest := by
  have h := insert_after_marker "## References".toList pre nl rest (urlLines urls ++ "\n".toList)
    (by decide) hfirst hnl hrest
  simp only at h
  unfold addURLsToContent
  simp only
  rw [if_neg h.1]
  have h2 := h.2
  simp only [← List.append_assoc] at h2 ⊢
  exact h2

/-! ## Lemmas: the assembler -/

theorem hasProjectLoop_iff (ts : List Str) :
    hasProjectLoop ts = true ↔ "project".toList ∈ ts := by
  induction ts with
  | nil => simp [hasProjectLoop]
  | cons t ts ih =>
    simp only [hasProjectLoop, List.mem_cons]
    by_cases h : t = "project".toList
    · simp [h]
    · rw [if_neg h, ih]
      constructor
      · exact Or.inr
      · rintro (h1 | h1)
        · exact absurd h1.symm h
        · exact h1

theorem urlLines_eq (urls : List Str) :
    urlLines urls = (urls.map (fun u => "- ".toList ++ u ++ "\n".toList)).flatten := by
  induction urls with
  | nil => rfl
  | cons u us ih => simp [urlLines, ih]

theorem buildFallbackContent_project (prt : Char → Bool) (title date : Str) (tags : List Str)
    (body : Str) (urls : List Str) :
    buildFallbackContent prt title date tags body urls true =
      FormatFrontmatter prt ⟨title, date, tags, "active".toList, []⟩
        ++ ("\n# ".toList ++ title ++ "\n".toList)
        ++ "\n## Goal\n\n".toList
        ++ (if body ≠ [] then body ++ "\n".toList else [])
        ++ "\n## Tasks\n\n- [ ]\n".toList
        ++ "\n## Notes\n\n".toList
        ++ "\n## Related\n\n".toList
        ++ "\n## Log\n\n".toList
        ++ ("- ".toList ++ date ++ " — Project created.\n".toList) := by
  unfold buildFallbackContent
  by_cases hb : body = []
  · simp [hb]
  · simp [hb]

theorem buildFallbackContent_basic (prt : Char → Bool) (title date : Str) (tags : List Str)
    (body : Str) (urls : List Str) :
    buildFallbackContent prt title date tags body urls false =
      FormatFrontmatter prt ⟨title, date, tags, "draft".toList, []⟩
        ++ ("\n# ".toList ++ title ++ "\n".toList)
        ++ "\n## Notes\n\n".toList
        ++ (if body ≠ [] then body ++ "\n".toList else [])
        ++ "\n## References\n".toList
        ++ (if urls ≠ [] then "\n".toList ++ urlLines urls else []) := by
  unfold buildFallbackContent
  by_cases hb : body = []
  · cases urls with
    | nil => simp [hb]
    | cons u us => simp [hb]
  · cases urls with
    | nil => simp [hb]
    | cons u us => simp [hb]

theorem buildFallbackContent_header (prt : Char → Bool) (title date : Str) (tags : List Str)
    (body : Str) (urls : List Str) (isProject : Bool) :
    FormatFrontmatter prt
        ⟨title, date, tags, if isProject then "active".toList else "draft".toList, []⟩
      <+: buildFallbackContent prt title date tags body urls isProject := by
  cases isProject with
  | true =>
    rw [buildFallbackContent_project]
    simp only [List.append_assoc, if_true]
    exact List.prefix_append _ _
  | false =>
    rw [buildFallbackContent_basic]
    simp only [List.append_assoc, Bool.false_eq_true, if_false]
    exact List.prefix_append _ _

theorem buildNoteContent_template (prt : Char → Bool) (tmpl templateName title date : Str)
    (tags : List Str) (body : Str) (urls : List Str)
    (h : findFmEnd
      (Split (ReplaceAll (ReplaceAll tmpl "{{title}}".toList title) "{{date}}".toList date) '\n')
      0 false > 0) :
    ∃ remaining : Str,
      buildNoteContent prt (some tmpl) templateName title date tags body urls =
        (fun c => if urls.length > 0 then addURLsToContent c urls else c)
          ((fun c => if body ≠ [] then addBodyToContent c body else c)
            (FormatFrontmatter prt
              ⟨title, date, tags,
                if templateName = "project.md".toList then "active".toList else "draft".toList,
                []⟩ ++ remaining)) := by
  refine ⟨Join ((Split (ReplaceAll (ReplaceAll tmpl "{{title}}".toList title)
      "{{date}}".toList date) '\n').drop ((findFmEnd (Split (ReplaceAll (ReplaceAll tmpl
      "{{title}}".toList title) "{{date}}".toList date) '\n') 0 false).toNat + 1)) ['\n'], ?_⟩
  unfold buildNoteContent
  simp only [h, if_true]
  by_cases hp : templateName = "project.md".toList
  · simp only [hp, if_true]
  · simp only [hp, if_false]

theorem buildNoteContent_no_header (prt : Char → Bool) (tmpl templateName title date : Str)
    (tags : List Str) (body : Str) (urls : List Str)
    (h : ¬ findFmEnd
      (Split (ReplaceAll (ReplaceAll tmpl "{{title}}".toList title) "{{date}}".toList date) '\n')
      0 false > 0) :
    buildNoteContent prt (some tmpl) templateName title date tags body urls =
      (fun c => if urls.length > 0 then addURLsToContent c urls else c)
        ((fun c => if body ≠ [] then addBodyToContent c body else c)
          (ReplaceAll (ReplaceAll tmpl "{{title}}".toList title) "{{date}}".toList date)) := by
  unfold buildNoteContent
  simp only [h, if_false]

theorem Create_eq (tbl : Char → Char) (prt : Char → Bool) (ReadTemplate : Str → Option Str)
    (today : Str) (a : Answers) (folder : Str) (hf : Folders.get? a.folderIdx = some folder) :
    Create tbl prt ReadTemplate today a =
      some ⟨folder,
        if folder = "Inbox".toList ∨ folder = "Projects".toList then
          today ++ "-".toList ++ Slugify tbl a.title ++ ".md".toList
        else Slugify tbl a.title ++ ".md".toList,
        buildNoteContent prt
          (ReadTemplate (if folder = "Projects".toList then "project.md".toList
            else "basic.md".toList))
          (if folder = "Projects".toList then "project.md".toList else "basic.md".toList)
          a.title today
          (if folder = "Projects".toList then
            (if "project".toList ∈ NormalizeTags tbl a.tagsInput then NormalizeTags tbl a.tagsInput
              else NormalizeTags tbl a.tagsInput ++ ["project".toList])
            else NormalizeTags tbl a.tagsInput)
          a.body
          (if folder = "Resources".toList then
            (if a.urlInput ≠ [] then urlLoop (Split a.urlInput ',') else [])
            else [])⟩ := by
  unfold Create
  simp only [hf]
  congr 3
  by_cases hp : folder = "Projects".toList
  · simp only [hp, if_true]
    by_cases hh : hasProjectLoop (NormalizeTags tbl a.tagsInput) = true
    · rw [if_pos ((hasProjectLoop_iff _).1 hh)]
      simp only [hh, Bool.not_true, Bool.false_eq_true, if_false]
    · rw [if_neg (fun hm => hh ((hasProjectLoop_iff _).2 hm))]
      have : hasProjectLoop (NormalizeTags tbl a.tagsInput) = false := by simpa using hh
      simp only [this, Bool.not_false, if_true]
  · simp only [hp, if_false]

theorem Folders_get (i : Nat) (folder : Str) (h : Folders.get? i = some folder) :
    (i = 0 ∧ folder = "Inbox".toList) ∨ (i = 1 ∧ folder = "Projects".toList) ∨
    (i = 2 ∧ folder = "Areas".toList) ∨ (i = 3 ∧ folder = "Resources".toList) := by
  unfold Folders at h
  match i, h with
  | 0, h => left; exact ⟨rfl, by simpa using h.symm⟩
  | 1, h => right; left; exact ⟨rfl, by simpa using h.symm⟩
  | 2, h => right; right; left; exact ⟨rfl, by simpa using h.symm⟩
  | 3, h => right; right; right; exact ⟨rfl, by simpa using h.symm⟩
  | n + 4, h => simp at h

/-! ## Lemmas: what `Find` prints -/

theorem collectResults_eq (tbl : Char → Char) (q : Str) (notes : List Note) :
    collectResults tbl q notes =
      (notes.filter (fun n => decide (scoreNote tbl n q > 0))).map
        (fun n => ⟨n, scoreNote tbl n q⟩) := by
  induction notes with
  | nil => rfl
  | cons n ns ih =>
    simp only [collectResults, List.filter_cons]
    by_cases h : scoreNote tbl n q > 0
    · simp only [h, if_true, decide_True, List.map_cons, ih]
    · simp only [h, if_false, decide_False, ih]
      rfl

theorem scoreNote_pos_iff (tbl : Char → Char) (note : Note) (q : Str) :
    scoreNote tbl note q > 0 ↔
      (IsSubstring q (ToLower tbl note.Frontmatter.Title) ∨
        (∃ t ∈ note.Frontmatter.Tags, IsSubstring q (ToLower tbl t)) ∨
        (∃ a ∈ note.Frontmatter.Aliases, IsSubstring q (ToLower tbl a)) ∨
        IsSubstring q (ToLower tbl note.Body)) := by
  rw [scoreNote_eq]
  constructor
  · intro h
    by_contra hn
    simp only [not_or] at hn
    obtain ⟨h1, h2, h3, h4⟩ := hn
    rw [if_neg h1, if_neg h2, if_neg h3, if_neg h4] at h
    omega
  · intro h
    split_ifs <;> first | omega | (exfalso; rcases h with h | h | h | h <;> contradiction)

theorem printResults_cons_some (tbl : Char → Char) (q : Str) (r : searchResult)
    (rs : List searchResult) (out e : Bytes) (he : findExcerpt tbl r.Note.Body q = some e) :
    printResults tbl q (r :: rs) out = printResults tbl q rs (out ++ resultBlock r e) := by
  simp only [printResults, he]
  congr 1
  unfold resultBlock resultHeader
  by_cases hne : e = []
  · simp [hne]
  · simp [hne, List.append_assoc]

theorem printResults_cons_none (tbl : Char → Char) (q : Str) (r : searchResult)
    (rs : List searchResult) (out : Bytes) (he : findExcerpt tbl r.Note.Body q = none) :
    printResults tbl q (r :: rs) out = (out ++ resultHeader r, true) := by
  simp only [printResults, he]
  rfl

theorem printResults_ok (tbl : Char → Char) (q : Str) (rs : List searchResult) (out : Bytes)
    (h : ∀ r ∈ rs, findExcerpt tbl r.Note.Body q ≠ none) :
    printResults tbl q rs out =
      (out ++ (rs.map (fun r =>
        resultBlock r ((findExcerpt tbl r.Note.Body q).getD []))).flatten, false) := by
  induction rs generalizing out with
  | nil => simp [printResults]
  | cons r rs ih =>
    obtain ⟨e, he⟩ := Option.ne_none_iff_exists'.1 (h r (List.mem_cons_self _ _))
    rw [printResults_cons_some tbl q r rs out e he,
      ih _ (fun r' hr' => h r' (List.mem_cons_of_mem _ hr'))]
    simp [he, List.append_assoc]

theorem Find_ok (tbl : Char → Char) (prt : Char → Bool)
    (sortSlice : (searchResult → searchResult → Bool) → List searchResult → List searchResult)
    (notes : List Note) (query : Str) (hq : query ≠ []) :
    Find tbl prt sortSlice (.ok notes) query =
      if collectResults tbl (ToLower tbl query) notes = [] then
        ⟨1, utf8 ("No notes found matching ".toList ++ Quote prt query ++ ".\n".toList),
          .returned none⟩
      else
        match printResults tbl (ToLower tbl query)
          (sortSlice (fun a b => decide (a.Score > b.Score))
            (collectResults tbl (ToLower tbl query) notes)) [] with
        | (out, true) => ⟨1, out, .panicked⟩
        | (out, false) => ⟨1, out, .returned none⟩ := by
  unfold Find
  simp only [hq, if_false, List.length_eq_zero]

/-- What `Find` prints when no excerpt panics: nothing but the message when no note scores above
0, and otherwise the blocks of the sorted results, which are the notes that score above 0, each
once, in non-increasing order of score. -/
theorem Find_prints (tbl : Char → Char) (prt : Char → Bool)
    (sortSlice : (searchResult → searchResult → Bool) → List searchResult → List searchResult)
    (notes : List Note) (query : Str) (hq : query ≠ [])
    (hsafe : ∀ n ∈ notes, findExcerpt tbl n.Body (ToLower tbl query) ≠ none)
    (hperm : (sortSlice (fun a b => decide (a.Score > b.Score))
        (collectResults tbl (ToLower tbl query) notes)).Perm
      (collectResults tbl (ToLower tbl query) notes))
    (hsorted : (sortSlice (fun a b => decide (a.Score > b.Score))
        (collectResults tbl (ToLower tbl query) notes)).Pairwise
      (fun a b => decide (b.Score > a.Score) = false)) :
    ((∀ n ∈ notes, ¬ scoreNote tbl n (ToLower tbl query) > 0) →
      Find tbl prt sortSlice (.ok notes) query =
        ⟨1, utf8 ("No notes found matching ".toList ++ Quote prt query ++ ".\n".toList),
          .returned none⟩) ∧
    ((∃ n ∈ notes, scoreNote tbl n (ToLower tbl query) > 0) →
      ∃ printed : List searchResult,
        Find tbl prt sortSlice (.ok notes) query =
          ⟨1, (printed.map (fun r => resultBlock r
              ((findExcerpt tbl r.Note.Body (ToLower tbl query)).getD []))).flatten,
            .returned none⟩ ∧
        printed.Perm ((notes.filter (fun n => decide (scoreNote tbl n (ToLower tbl query) > 0))).map
          (fun n => ⟨n, scoreNote tbl n (ToLower tbl query)⟩)) ∧
        printed.Pairwise (fun a b => a.Score ≥ b.Score)) := by
  rw [Find_ok tbl prt sortSlice notes query hq]
  constructor
  · intro h
    have : collectResults tbl (ToLower tbl query) notes = [] := by
      rw [collectResults_eq]
      simp only [List.map_eq_nil_iff, List.filter_eq_nil_iff, decide_eq_true_eq]
      exact h
    rw [if_pos this]
  · rintro ⟨n, hn, hpos⟩
    have hne : collectResults tbl (ToLower tbl query) notes ≠ [] := by
      rw [collectResults_eq]
      intro h0
      simp only [List.map_eq_nil_iff, List.filter_eq_nil_iff, decide_eq_true_eq] at h0
      exact h0 n hn hpos
    rw [if_neg hne]
    have hsafe' : ∀ r ∈ sortSlice (fun a b => decide (a.Score > b.Score))
        (collectResults tbl (ToLower tbl query) notes),
        findExcerpt tbl r.Note.Body (ToLower tbl query) ≠ none := by
      intro r hr
      have hr' := hperm.subset hr
      rw [collectResults_eq] at hr'
      obtain ⟨m, hm, rfl⟩ := List.mem_map.1 hr'
      exact hsafe m (List.mem_filter.1 hm).1
    rw [printResults_ok tbl (ToLower tbl query) _ [] hsafe']
    refine ⟨sortSlice (fun a b => decide (a.Score > b.Score))
      (collectResults tbl (ToLower tbl query) notes), ?_, ?_, ?_⟩
    · simp
    · rw [← collectResults_eq]
      exact hperm
    · refine hsorted.imp ?_
      intro a b hab
      simpa using hab

/-! ## Lemmas: the excerpt -/

theorem trimLeftSpace_subset (fuel : Nat) (s : Bytes) : trimLeftSpace fuel s ⊆ s := by
  induction fuel generalizing s with
  | zero => simp [trimLeftSpace]
  | succ fuel ih =>
    unfold trimLeftSpace
    split
    · simp
    · simp only
      split
      · exact (ih _).trans (List.drop_subset _ _)
      · exact List.Subset.refl _

theorem TrimRightFunc_subset (s : Bytes) : TrimRightFunc s ⊆ s := by
  unfold TrimRightFunc
  simp only
  split
  · exact List.take_subset _ _
  · exact List.take_subset _ _

theorem TrimFunc_subset (s : Bytes) : TrimFunc s ⊆ s :=
  (TrimRightFunc_subset _).trans (trimLeftSpace_subset _ _)

theorem trimSpaceStop_subset (r : Bytes) : trimSpaceStop r ⊆ r.reverse := by
  induction r with
  | nil => simp [trimSpaceStop]
  | cons c r ih =>
    unfold trimSpaceStop
    split
    · exact TrimRightFunc_subset _
    · split
      · intro b hb
        have := ih hb
        simp only [List.reverse_cons, List.mem_append]
        exact Or.inl this
      · exact List.Subset.refl _

theorem TrimSpaceBytes_subset (s : Bytes) : TrimSpaceBytes s ⊆ s := by
  induction s with
  | nil => simp [TrimSpaceBytes]
  | cons c s ih =>
    unfold TrimSpaceBytes
    split
    · exact TrimFunc_subset _
    · split
      · exact ih.trans (List.subset_cons_self _ _)
      · intro b hb
        have := trimSpaceStop_subset _ hb
        simpa using this

theorem findExcerpt_absent (tbl : Char → Char) (body query : Str)
    (h : ¬ IsSubstring query (ToLower tbl body)) : findExcerpt tbl body query = some [] := by
  unfold findExcerpt
  simp only
  have : Index (utf8 (ToLower tbl body)) (utf8 query) < 0 := by
    by_contra hc
    exact h ((indexFrom_nonneg_iff _ _ 0).1 (by unfold Index at hc; omega))
  rw [if_pos this]

/-- The value of `findExcerpt` when the body contains the query in lower case and the bounds of
the slice are in order. -/
theorem findExcerpt_present (tbl : Char → Char) (body query : Str)
    (h : IsSubstring query (ToLower tbl body))
    (hb : Index (utf8 (ToLower tbl body)) (utf8 query) - 40
      ≤ min (len body : Int) (Index (utf8 (ToLower tbl body)) (utf8 query) + len query + 40)) :
    ∃ idx : Nat, (idx : Int) = Index (utf8 (ToLower tbl body)) (utf8 query) ∧
      findExcerpt tbl body query =
        some ((if idx > 40 then utf8 "...".toList else [])
          ++ TrimSpaceBytes
              ((((utf8 body).take (min (len body) (idx + len query + 40))).drop (idx - 40)).map
                (fun b => if b = 0x0A then 0x20 else b))
          ++ (if idx + len query + 40 < len body then utf8 "...".toList else [])) := by
  have hnn : 0 ≤ Index (utf8 (ToLower tbl body)) (utf8 query) :=
    (indexFrom_nonneg_iff _ _ 0).2 h
  obtain ⟨idx, hidx⟩ := Int.eq_ofNat_of_zero_le hnn
  refine ⟨idx, hidx.symm, ?_⟩
  unfold findExcerpt
  simp only
  rw [hidx] at hb ⊢
  rw [if_neg (by omega)]
  have hstart : (if (idx : Int) - 40 < 0 then (0 : Int) else (idx : Int) - 40)
      = ((idx - 40 : Nat) : Int) := by
    split_ifs <;> omega
  have hstop : (if (idx : Int) + (len query : Int) + 40 > (len body : Int) then (len body : Int)
      else (idx : Int) + (len query : Int) + 40)
      = ((min (len body) (idx + len query + 40) : Nat) : Int) := by
    split_ifs <;> omega
  rw [hstart, hstop]
  rw [if_neg (by omega)]
  simp only [Int.toNat_ofNat]
  congr 2
  · congr 1
    split_ifs <;> first | rfl | omega
  · split_ifs <;> first | rfl | omega

theorem dots_no_newline (c : Prop) [Decidable c] :
    0x0A ∉ (if c then utf8 "...".toList else []) := by
  split
  · decide
  · simp

theorem trimmed_no_newline (l : Bytes) :
    0x0A ∉ TrimSpaceBytes (l.map (fun b => if b = 0x0A then 0x20 else b)) := by
  intro hm
  obtain ⟨b, _, hb⟩ := List.mem_map.1 (TrimSpaceBytes_subset _ hm)
  split at hb <;> omega

theorem findExcerpt_no_newline (tbl : Char → Char) (body query : Str) (e : Bytes)
    (h : findExcerpt tbl body query = some e) : 0x0A ∉ e := by
  unfold findExcerpt at h
  simp only at h
  generalize Index (utf8 (ToLower tbl body)) (utf8 query) = idx at h
  by_cases h1 : idx < 0
  · rw [if_pos h1] at h
    cases h
    simp
  · rw [if_neg h1] at h
    generalize (if idx - 40 < 0 then (0 : Int) else idx - 40) = start at h
    generalize (if idx + (len query : Int) + 40 > (len body : Int) then (len body : Int)
      else idx + (len query : Int) + 40) = stop at h
    by_cases h2 : start > stop
    · rw [if_pos h2] at h
      cases h
    · rw [if_neg h2] at h
      have he := Option.some.inj h
      rw [← he]
      intro hm
      rcases List.mem_append.1 hm with hm | hm
      · rcases List.mem_append.1 hm with hm | hm
        · exact dots_no_newline _ hm
        · exact trimmed_no_newline _ hm
      · exact dots_no_newline _ hm

/-! ## Lemmas: plain values -/

theorem titleChar_cases (c : Char) (h : isTitleChar c = true) :
    (97 ≤ c.toNat ∧ c.toNat ≤ 122) ∨ (65 ≤ c.toNat ∧ c.toNat ≤ 90) ∨
      (48 ≤ c.toNat ∧ c.toNat ≤ 57) ∨ c.toNat = 32 ∨ c.toNat = 45 := by
  unfold isTitleChar isAsciiLetter isAsciiDigit at h
  have e1 : 'a'.toNat = 97 := rfl
  have e2 : 'z'.toNat = 122 := rfl
  have e3 : '0'.toNat = 48 := rfl
  have e4 : '9'.toNat = 57 := rfl
  have e5 : 'A'.toNat = 65 := rfl
  have e6 : 'Z'.toNat = 90 := rfl
  simp only [e1, e2, e3, e4, e5, e6, Bool.or_eq_true, Bool.and_eq_true, decide_eq_true_eq,
    beq_iff_eq] at h
  rcases h with (((h | h) | h) | h) | h
  · exact Or.inl h
  · exact Or.inr (Or.inl h)
  · exact Or.inr (Or.inr (Or.inl h))
  · subst h; exact Or.inr (Or.inr (Or.inr (Or.inl rfl)))
  · subst h; exact Or.inr (Or.inr (Or.inr (Or.inr rfl)))

theorem titleChar_of_wordChar (c : Char) (h : isWordChar c = true) : isTitleChar c = true := by
  unfold isWordChar at h
  unfold isTitleChar
  simp only [Bool.or_eq_true] at h ⊢
  rcases h with (h | h) | h
  · exact Or.inl (Or.inl (Or.inl h))
  · exact Or.inl (Or.inl (Or.inr h))
  · exact Or.inr h

theorem wordChar_of_dateChar (c : Char) (h : isDateChar c = true) : isWordChar c = true := by
  unfold isDateChar at h
  unfold isWordChar
  simp only [Bool.or_eq_true] at h ⊢
  rcases h with h | h
  · exact Or.inl (Or.inr h)
  · exact Or.inr h

theorem wordChar_of_inSlugClass (c : Char) (h : inSlugClass c = true) : isWordChar c = true := by
  unfold inSlugClass at h
  unfold isWordChar isAsciiLetter isAsciiDigit
  simp only [Bool.or_eq_true, Bool.and_eq_true, decide_eq_true_eq, beq_iff_eq] at h ⊢
  rcases h with (h | h) | h
  · exact Or.inl (Or.inl (Or.inl h))
  · exact Or.inl (Or.inr h)
  · exact Or.inr h

theorem wordChar_not_space (c : Char) (h : isWordChar c = true) : isSpace c = false := by
  have hc := titleChar_cases c (titleChar_of_wordChar c h)
  have h32 : c.toNat ≠ 32 := by
    intro h0
    unfold isWordChar isAsciiLetter isAsciiDigit at h
    have e1 : 'a'.toNat = 97 := rfl
    have e2 : 'z'.toNat = 122 := rfl
    have e3 : '0'.toNat = 48 := rfl
    have e4 : '9'.toNat = 57 := rfl
    have e5 : 'A'.toNat = 65 := rfl
    have e6 : 'Z'.toNat = 90 := rfl
    simp only [e1, e2, e3, e4, e5, e6, Bool.or_eq_true, Bool.and_eq_true, decide_eq_true_eq,
      beq_iff_eq] at h
    rcases h with (h | h) | h
    · omega
    · omega
    · subst h; exact absurd h0 (by decide)
  unfold isSpace isSpaceRune
  rw [if_pos (by omega)]
  simp only [Bool.or_eq_false_iff, decide_eq_false_iff_not]
  omega

/-- A character of the title class is none of the given ASCII characters outside the class. -/
theorem titleChar_ne (c d : Char) (h : isTitleChar c = true) (hd : isTitleChar d = false) :
    c ≠ d := by
  intro e
  rw [e, hd] at h
  exact absurd h (by decide)

theorem titleChar_isPrint (prt : Char → Bool) (c : Char) (h : isTitleChar c = true) :
    IsPrint prt c = true := by
  have hc := titleChar_cases c h
  unfold IsPrint
  simp only
  rw [if_pos (by omega), if_pos (by omega)]

theorem TrimSpace_of_no_space (s : Str) (h : ∀ c ∈ s, isSpace c = false) : TrimSpace s = s := by
  unfold TrimSpace
  have h1 : s.dropWhile isSpace = s := by
    cases s with
    | nil => rfl
    | cons a t => exact List.dropWhile_cons_of_neg (by simp [h a (List.mem_cons_self _ _)])
  rw [h1]
  rw [List.rdropWhile_eq_self_iff]
  intro hne
  simp [h _ (List.getLast_mem hne)]

theorem TrimSpace_word (s : Str) (h : ∀ c ∈ s, isWordChar c = true) : TrimSpace s = s :=
  TrimSpace_of_no_space s (fun c hc => wordChar_not_space c (h c hc))

theorem plainTitle_of_class (prt : Char → Bool) (t : Str) (h : ∀ c ∈ t, isTitleChar c = true) :
    PlainTitle prt t := by
  intro c hc
  exact ⟨titleChar_isPrint prt c (h c hc), titleChar_ne c '"' (h c hc) (by decide),
    titleChar_ne c '\\' (h c hc) (by decide)⟩

theorem not_mem_of_class (t : Str) (d : Char) (h : ∀ c ∈ t, isTitleChar c = true)
    (hd : isTitleChar d = false) : d ∉ t :=
  fun hm => titleChar_ne d d (h d hm) hd rfl

theorem plainItem_of_slugWord (t : Str) (h : SlugWord t) : PlainItem t := by
  refine ⟨h.1, ?_, TrimSpace_word t (fun c hc => wordChar_of_inSlugClass c (h.2 c hc))⟩
  exact not_mem_of_class t ','
    (fun c hc => titleChar_of_wordChar c (wordChar_of_inSlugClass c (h.2 c hc))) (by decide)

theorem noNewline_of_class (fm : Frontmatter) (hd : ∀ c ∈ fm.Date, isTitleChar c = true)
    (hs : ∀ c ∈ fm.Status, isTitleChar c = true)
    (htags : ∀ t ∈ fm.Tags, SlugWord t) (hal : ∀ t ∈ fm.Aliases, SlugWord t) :
    NoNewline fm :=
  ⟨not_mem_of_class _ '\n' hd (by decide), not_mem_of_class _ '\n' hs (by decide),
   fun t ht => not_mem_of_class t '\n'
    (fun c hc => titleChar_of_wordChar c (wordChar_of_inSlugClass c ((htags t ht).2 c hc)))
    (by decide),
   fun t ht => not_mem_of_class t '\n'
    (fun c hc => titleChar_of_wordChar c (wordChar_of_inSlugClass c ((hal t ht).2 c hc)))
    (by decide)⟩

theorem buildFallbackContent_split (prt : Char → Bool) (title date : Str) (tags : List Str)
    (body : Str) (urls : List Str) (isProject : Bool) :
    ∃ rest, buildFallbackContent prt title date tags body urls isProject =
      FormatFrontmatter prt
        ⟨title, date, tags, if isProject then "active".toList else "draft".toList, []⟩
      ++ ("\n# ".toList ++ title ++ "\n".toList ++ rest) := by
  cases isProject with
  | true =>
    rw [buildFallbackContent_project]
    simp only [List.append_assoc, if_true]
    exact ⟨_, rfl⟩
  | false =>
    rw [buildFallbackContent_basic]
    simp only [List.append_assoc, Bool.false_eq_true, if_false]
    exact ⟨_, rfl⟩

/-! ## Lemmas: header lines and inline lists -/

theorem parseYAMLListLoop_eq (ps : List Str) :
    parseYAMLListLoop ps = (ps.map TrimSpace).filter (fun t => decide (t ≠ [])) := by
  induction ps with
  | nil => rfl
  | cons p ps ih =>
    simp only [parseYAMLListLoop, List.map_cons]
    by_cases h : TrimSpace p = []
    · rw [if_neg (by simp [h]), ih, List.filter_cons_of_neg (by simp [h])]
    · rw [if_pos h, ih, List.filter_cons_of_pos (by simp [h])]

theorem parseYAMLList_eq_spec (v : Str) : parseYAMLList v = inlineListSpec v := by
  unfold parseYAMLList inlineListSpec
  simp only
  by_cases h : TrimSuffix (TrimPrefix (TrimSpace v) '[') ']' = []
  · rw [if_pos h, h]
    rfl
  · rw [if_neg h, parseYAMLListLoop_eq]

theorem head_rdropWhile (p : Char → Bool) (l : Str) (a : Char)
    (h : (l.rdropWhile p).head? = some a) : l.head? = some a := by
  have hp := List.rdropWhile_prefix p l
  obtain ⟨t, ht⟩ := hp
  cases hr : l.rdropWhile p with
  | nil => rw [hr] at h; exact absurd h (by simp)
  | cons b r =>
    rw [hr] at h ht
    rw [← ht]
    simpa using h

theorem TrimSpace_idem (s : Str) : TrimSpace (TrimSpace s) = TrimSpace s := by
  unfold TrimSpace
  have h1 : ((s.dropWhile isSpace).rdropWhile isSpace).dropWhile isSpace
      = (s.dropWhile isSpace).rdropWhile isSpace := by
    cases hr : (s.dropWhile isSpace).rdropWhile isSpace with
    | nil => rfl
    | cons b r =>
      have hb : (s.dropWhile isSpace).head? = some b :=
        head_rdropWhile isSpace _ b (by rw [hr]; rfl)
      have hn : isSpace b = false := by
        have := List.head?_dropWhile_not isSpace s
        rw [hb] at this
        simpa using this
      exact List.dropWhile_cons_of_neg (by simp [hn])
  rw [h1, List.rdropWhile_idempotent]

theorem parseYAMLList_blank (inner : Str) (h : ∀ c ∈ inner, isSpace c = true) :
    parseYAMLList ('[' :: (inner ++ [']'])) = [] := by
  unfold parseYAMLList
  simp only
  rw [TrimSpace_enclosed '[' ']' _ (by decide) (by decide)]
  have e1 : TrimPrefix ('[' :: (inner ++ [']'])) '[' = inner ++ [']'] := by
    simp [TrimPrefix]
  have e2 : TrimSuffix (inner ++ [']']) ']' = inner := by
    unfold TrimSuffix
    rw [List.getLast?_concat, if_pos rfl, List.dropLast_concat]
  rw [e1, e2]
  by_cases h0 : inner = []
  · rw [if_pos h0]
  · rw [if_neg h0]
    have hc : ',' ∉ inner := fun hm => absurd (h ',' hm) (by decide)
    rw [Split_of_not_mem inner ',' hc]
    simp only [parseYAMLListLoop]
    rw [if_neg (by simp [(TrimSpace_eq_nil_iff inner).2 h])]

theorem len_ge_length (s : Str) : s.length ≤ len s := by
  induction s with
  | nil => exact Nat.zero_le _
  | cons c t ih =>
    rw [len_cons, List.length_cons]
    have := utf8EncodeRune_length_pos c
    omega

theorem unquote_eq_spec (t : Str) : unquote t = unquoteSpec t := by
  unfold unquote unquoteSpec
  by_cases hq : t.head? = some '"' ∧ t.getLast? = some '"'
  · have hiff : len t ≥ 2 ↔ 2 ≤ t.length := by
      constructor
      · intro hl
        cases t with
        | nil => simp [len, utf8] at hl
        | cons a r =>
          cases r with
          | nil =>
            have ha : a = '"' := by simpa using hq.1
            rw [ha] at hl
            exact absurd hl (by decide)
          | cons b r2 => simp
      · intro hl
        have := len_ge_length t
        omega
    by_cases h2 : 2 ≤ t.length
    · rw [if_pos ⟨hiff.2 h2, hq⟩, if_pos ⟨h2, hq⟩]
    · rw [if_neg (fun h => h2 (hiff.1 h.1)), if_neg (fun h => h2 h.1)]
  · rw [if_neg (fun h => hq h.2), if_neg (fun h => hq h.2)]

theorem findEndIdx_at (pre : List Str) (e : Str) (rest : List Str) (i : Nat)
    (h : ∀ l ∈ pre, TrimSpace l ≠ "---".toList) (he : TrimSpace e = "---".toList) :
    findEndIdx (pre ++ e :: rest) i = some (i + pre.length) := by
  induction pre generalizing i with
  | nil =>
    simp only [List.nil_append, findEndIdx]
    rw [if_pos he]
    rfl
  | cons l ls ih =>
    change findEndIdx (l :: (ls ++ e :: rest)) i = _
    rw [findEndIdx, if_neg (h l (List.mem_cons_self _ _)),
      ih (i + 1) (fun l hl => h l (List.mem_cons_of_mem _ hl))]
    simp only [List.length_cons]
    congr 1
    omega

theorem Split_Join_lines (ls : List Str) (hne : ls ≠ []) (h : ∀ l ∈ ls, '\n' ∉ l) :
    Split (Join ls ['\n']) '\n' = ls := by
  unfold Split Join
  exact List.splitOn_intercalate ls '\n' h hne

theorem parse_lines (h : Str) (hs : List Str) (e : Str) (rest : List Str)
    (hnl : ∀ x ∈ h :: (hs ++ e :: rest), '\n' ∉ x)
    (hh : TrimSpace h = "---".toList) (he : TrimSpace e = "---".toList)
    (hhs : ∀ x ∈ hs, TrimSpace x ≠ "---".toList) :
    ParseFrontmatterFromBytes (Join (h :: (hs ++ e :: rest)) ['\n']) =
      ⟨hs.foldl applyHeaderLine Frontmatter.zero, Join rest ['\n'], none⟩ := by
  unfold ParseFrontmatterFromBytes
  simp only
  rw [Split_Join_lines _ (List.cons_ne_nil _ _) hnl]
  rw [if_neg (by
    simp only [List.length_cons, List.length_append, List.headD_cons, not_or, not_lt, not_not]
    exact ⟨by omega, hh⟩)]
  simp only [List.drop_one, List.tail_cons]
  rw [findEndIdx_at hs e rest 1 hhs he]
  simp only
  have e1 : ((h :: (hs ++ e :: rest)).take (1 + hs.length)).tail = hs := by
    rw [Nat.add_comm, List.take_succ_cons]
    simp
  have e2 : (h :: (hs ++ e :: rest)).drop (1 + hs.length + 1) = rest := by
    rw [show 1 + hs.length + 1 = (hs.length + 1) + 1 by omega, List.drop_succ_cons]
    rw [show hs ++ e :: rest = (hs ++ [e]) ++ rest by simp]
    rw [List.drop_left' (by simp)]
  rw [e1, e2]
  by_cases hr : rest = []
  · subst hr
    rw [if_neg (by simp only [List.length_cons, List.length_append, List.length_nil]; omega)]
    rfl
  · rw [if_pos]
    have := List.length_pos.2 hr
    simp only [List.length_cons, List.length_append]
    omega

theorem parseYAMLLine_no_colon (x : Str) (h : ':' ∉ x) : parseYAMLLine x = ([], [], false) := by
  unfold parseYAMLLine IndexChar
  simp only [h, if_false]
  rfl

theorem take_indexOf (c : Char) (x : Str) :
    x.take (x.indexOf c) = x.takeWhile (fun d => d != c) ∧
    x.drop (x.indexOf c) = x.dropWhile (fun d => d != c) := by
  induction x with
  | nil => exact ⟨rfl, rfl⟩
  | cons a t ih =>
    by_cases hac : a = c
    · subst hac
      rw [List.indexOf_cons_self]
      simp
    · rw [List.indexOf_cons_ne _ (fun h => hac h)]
      simp only [List.take_succ_cons, List.drop_succ_cons]
      rw [List.takeWhile_cons_of_pos (by simpa using hac),
        List.dropWhile_cons_of_pos (by simpa using hac), ih.1, ih.2]
      exact ⟨rfl, rfl⟩

theorem parseYAMLLine_colon (x : Str) (h : ':' ∈ x) :
    parseYAMLLine x = (TrimSpace (x.takeWhile (fun d => d != ':')),
      TrimSpace ((x.dropWhile (fun d => d != ':')).drop 1), true) := by
  unfold parseYAMLLine IndexChar
  simp only [h, if_true]
  have hneg : ¬ (((x.indexOf ':' : Nat) : Int) < 0) := by omega
  rw [if_neg hneg]
  simp only [Int.toNat_ofNat]
  rw [(take_indexOf ':' x).1, ← List.drop_drop, (take_indexOf ':' x).2]

theorem applyHeaderLine_ignored (f : Frontmatter) (l : Str)
    (h : ':' ∉ l ∨ (parseYAMLLine l).1 ∉ recognizedKeys) : applyHeaderLine f l = f := by
  rcases h with h | h
  · unfold applyHeaderLine
    rw [parseYAMLLine_no_colon l h]
    rfl
  · unfold applyHeaderLine
    generalize parseYAMLLine l = r at h
    obtain ⟨key, value, ok⟩ := r
    simp only [recognizedKeys, List.mem_cons, List.mem_singleton, List.not_mem_nil, or_false,
      not_or] at h
    obtain ⟨h1, h2, h3, h4, h5⟩ := h
    simp only
    rw [if_neg h1, if_neg h2, if_neg h3, if_neg h4, if_neg h5]
    split_ifs <;> rfl

theorem applyHeaderLine_fields (f : Frontmatter) (x : Str) :
    ((parseYAMLLine x).1 ≠ "title".toList → (applyHeaderLine f x).Title = f.Title) ∧
    ((parseYAMLLine x).1 ≠ "date".toList → (applyHeaderLine f x).Date = f.Date) ∧
    ((parseYAMLLine x).1 ≠ "tags".toList → (applyHeaderLine f x).Tags = f.Tags) ∧
    ((parseYAMLLine x).1 ≠ "status".toList → (applyHeaderLine f x).Status = f.Status) ∧
    ((parseYAMLLine x).1 ≠ "aliases".toList → (applyHeaderLine f x).Aliases = f.Aliases) := by
  unfold applyHeaderLine
  generalize parseYAMLLine x = r
  obtain ⟨key, value, ok⟩ := r
  simp only
  refine ⟨?_, ?_, ?_, ?_, ?_⟩ <;> intro h <;> split_ifs <;> rfl

theorem fold_fields (hs : List Str) (f : Frontmatter) :
    ((∀ x ∈ hs, (parseYAMLLine x).1 ≠ "title".toList) →
      (hs.foldl applyHeaderLine f).Title = f.Title) ∧
    ((∀ x ∈ hs, (parseYAMLLine x).1 ≠ "date".toList) →
      (hs.foldl applyHeaderLine f).Date = f.Date) ∧
    ((∀ x ∈ hs, (parseYAMLLine x).1 ≠ "tags".toList) →
      (hs.foldl applyHeaderLine f).Tags = f.Tags) ∧
    ((∀ x ∈ hs, (parseYAMLLine x).1 ≠ "status".toList) →
      (hs.foldl applyHeaderLine f).Status = f.Status) ∧
    ((∀ x ∈ hs, (parseYAMLLine x).1 ≠ "aliases".toList) →
      (hs.foldl applyHeaderLine f).Aliases = f.Aliases) := by
  induction hs generalizing f with
  | nil => exact ⟨fun _ => rfl, fun _ => rfl, fun _ => rfl, fun _ => rfl, fun _ => rfl⟩
  | cons x xs ih =>
    simp only [List.foldl_cons]
    obtain ⟨i1, i2, i3, i4, i5⟩ := ih (applyHeaderLine f x)
    obtain ⟨a1, a2, a3, a4, a5⟩ := applyHeaderLine_fields f x
    refine ⟨fun h => ?_, fun h => ?_, fun h => ?_, fun h => ?_, fun h => ?_⟩
    · rw [i1 (fun y hy => h y (List.mem_cons_of_mem _ hy)), a1 (h x (List.mem_cons_self _ _))]
    · rw [i2 (fun y hy => h y (List.mem_cons_of_mem _ hy)), a2 (h x (List.mem_cons_self _ _))]
    · rw [i3 (fun y hy => h y (List.mem_cons_of_mem _ hy)), a3 (h x (List.mem_cons_self _ _))]
    · rw [i4 (fun y hy => h y (List.mem_cons_of_mem _ hy)), a4 (h x (List.mem_cons_self _ _))]
    · rw [i5 (fun y hy => h y (List.mem_cons_of_mem _ hy)), a5 (h x (List.mem_cons_self _ _))]

/-! ## Lemmas: the bounds of the excerpt, the file name and the menu -/

theorem findExcerpt_none_iff (tbl : Char → Char) (body query : Str) :
    findExcerpt tbl body query = none ↔
      ∃ start stop, excerptBounds tbl body query = some (start, stop) ∧ start > stop := by
  unfold findExcerpt excerptBounds
  simp only
  by_cases h : Index (utf8 (ToLower tbl body)) (utf8 query) < 0
  · rw [if_pos h, if_pos h]
    simp
  · rw [if_neg h, if_neg h]
    constructor
    · intro hn
      refine ⟨_, _, rfl, ?_⟩
      by_contra hc
      rw [if_neg hc] at hn
      exact absurd hn (by simp)
    · rintro ⟨s, e, he, hgt⟩
      have := Option.some.inj he
      rw [Prod.mk.injEq] at this
      rw [this.1, this.2, if_pos hgt]

theorem inSlugClass_of_dateChar (c : Char) (h : isDateChar c = true) : inSlugClass c = true := by
  unfold isDateChar isAsciiDigit at h
  unfold inSlugClass
  simp only [Bool.or_eq_true, Bool.and_eq_true, decide_eq_true_eq, beq_iff_eq] at h ⊢
  rcases h with h | h
  · exact Or.inl (Or.inr h)
  · exact Or.inr h

theorem no_dots_of_stem (stem : Str) (h : ∀ x ∈ stem, inSlugClass x = true) :
    '/' ∉ stem ++ ".md".toList ∧ '\\' ∉ stem ++ ".md".toList ∧
    ¬ ("..".toList <:+: stem ++ ".md".toList) := by
  have hn : ∀ d : Char, inSlugClass d = false → d ∉ stem := by
    intro d hd hm
    rw [h d hm] at hd
    exact absurd hd (by decide)
  refine ⟨?_, ?_, ?_⟩
  · intro hm
    rcases List.mem_append.1 hm with hm | hm
    · exact hn '/' (by decide) hm
    · exact absurd hm (by decide)
  · intro hm
    rcases List.mem_append.1 hm with hm | hm
    · exact hn '\\' (by decide) hm
    · exact absurd hm (by decide)
  · intro hi
    have hc := hi.sublist.count_le '.'
    rw [List.count_append, List.count_eq_zero_of_not_mem (hn '.' (by decide))] at hc
    exact absurd hc (by decide)

theorem AskMenu_result (sscanf : Str → Option Int) (prompt : Str) (options : List Str)
    (defaultIdx : Int) (answer : Str) (h0 : 0 ≤ defaultIdx) (h1 : defaultIdx < options.length) :
    (AskMenu sscanf prompt options defaultIdx answer).result =
      some (if answer = [] then defaultIdx
        else match sscanf answer with
          | none => defaultIdx
          | some choice => if choice < 1 ∨ choice > options.length then defaultIdx
              else choice - 1) := by
  have hlt : defaultIdx.toNat < options.length := by omega
  have hget : (if 0 ≤ defaultIdx then options.get? defaultIdx.toNat else none)
      = some (options.get ⟨defaultIdx.toNat, hlt⟩) := by
    rw [if_pos h0, List.get?_eq_get hlt]
  unfold AskMenu
  simp only
  by_cases ha : answer = []
  · rw [if_pos ha, if_pos ha]
  · rw [if_neg ha, if_neg ha]
    cases hs : sscanf answer with
    | none =>
      rw [if_pos (Or.inl rfl), hget]
    | some choice =>
      simp only [Option.getD_some]
      by_cases hc : choice < 1 ∨ choice > options.length
      · rw [if_pos (Or.inr hc), if_pos hc, hget]
      · rw [if_neg hc, if_neg]
        rintro (h | h)
        · exact absurd h (by simp)
        · exact hc h

/-! ## Lemmas: the template basic.md and the fallback -/

theorem replaceAllAux_pass (old new : Str) (x rest : Str) :
    replaceAllAux old new x.length (x ++ rest) = replaceAllAux old new 0 rest := by
  induction x with
  | nil =>
    cases rest <;> rfl
  | cons a t ih =>
    change replaceAllAux old new (t.length + 1) (a :: (t ++ rest)) = _
    rw [replaceAllAux, ih]

theorem replaceAllAux_match (old new rest : Str) (hne : old ≠ []) :
    replaceAllAux old new 0 (old ++ rest) = new ++ replaceAllAux old new 0 rest := by
  cases old with
  | nil => exact absurd rfl hne
  | cons o os =>
    change replaceAllAux (o :: os) new 0 (o :: (os ++ rest)) = _
    have hp : (o :: os).isPrefixOf (o :: (os ++ rest)) = true :=
      List.isPrefixOf_iff_prefix.2 ⟨rest, rfl⟩
    rw [replaceAllAux, if_pos hp]
    have hl : (o :: os).length - 1 = os.length := by simp
    rw [hl, replaceAllAux_pass]

theorem replaceAllAux_skip (old new x rest : Str) (hne : old ≠ [])
    (h : ∀ c ∈ x, old.head? ≠ some c) :
    replaceAllAux old new 0 (x ++ rest) = x ++ replaceAllAux old new 0 rest := by
  induction x with
  | nil => rfl
  | cons a t ih =>
    change replaceAllAux old new 0 (a :: (t ++ rest)) = _
    have hp : ¬ old.isPrefixOf (a :: (t ++ rest)) = true := by
      cases old with
      | nil => exact absurd rfl hne
      | cons o os =>
        have ha : o ≠ a := fun e => h a (List.mem_cons_self _ _) (by rw [e]; rfl)
        simp [List.isPrefixOf, ha]
    rw [replaceAllAux, if_neg hp, ih (fun c hm => h c (List.mem_cons_of_mem _ hm))]
    rfl

theorem head_ne_of_not_mem (old x : Str) (o : Char) (ho : old.head? = some o) (h : o ∉ x) :
    ∀ c ∈ x, old.head? ≠ some c := by
  intro c hc e
  rw [ho] at e
  exact h (Option.some.inj e ▸ hc)

theorem indexTextFrom_skip (o : Char) (os x rest : Str) (i : Nat) (h : o ∉ x) :
    indexTextFrom (o :: os) (x ++ rest) i = indexTextFrom (o :: os) rest (i + x.length) := by
  induction x generalizing i with
  | nil => rfl
  | cons a t ih =>
    have ha : o ≠ a := fun e => h (e ▸ List.mem_cons_self _ _)
    change indexTextFrom (o :: os) (a :: (t ++ rest)) i = _
    have hp : ¬ (o :: os).isPrefixOf (a :: (t ++ rest)) = true := by
      simp [List.isPrefixOf, ha]
    rw [indexTextFrom, if_neg hp, ih (i + 1) (fun hm => h (List.mem_cons_of_mem _ hm))]
    simp only [List.length_cons]
    congr 1
    omega

theorem findFmEnd_skip (pre rest : List Str) (i : Nat) (inFM : Bool)
    (h : ∀ l ∈ pre, TrimSpace l ≠ "---".toList) :
    findFmEnd (pre ++ rest) i inFM = findFmEnd rest (i + pre.length) inFM := by
  induction pre generalizing i with
  | nil => rfl
  | cons l ls ih =>
    change findFmEnd (l :: (ls ++ rest)) i inFM = _
    rw [findFmEnd, if_neg (h l (List.mem_cons_self _ _)),
      ih (i + 1) (fun l hl => h l (List.mem_cons_of_mem _ hl))]
    simp only [List.length_cons]
    congr 1
    omega

theorem basicTemplate_eq :
    basicTemplate = "---\ntitle: \"".toList ++ ("{{title}}".toList ++ ("\"\ndate: ".toList
      ++ ("{{date}}".toList ++ ("\ntags: []\nstatus: draft\naliases: []\n---\n\n# ".toList
      ++ ("{{title}}".toList ++ "\n\n## Notes\n\n## References\n".toList))))) := by
  decide

theorem fill_basicTemplate (title date : Str) (ht : '{' ∉ title) :
    ReplaceAll (ReplaceAll basicTemplate "{{title}}".toList title) "{{date}}".toList date =
      "---\ntitle: \"".toList ++ (title ++ ("\"\ndate: ".toList
        ++ (date ++ ("\ntags: []\nstatus: draft\naliases: []\n---\n\n# ".toList
        ++ (title ++ "\n\n## Notes\n\n## References\n".toList))))) := by
  have hend : "\n\n## Notes\n\n## References\n".toList
      = "\n\n## Notes\n\n## References\n".toList ++ [] := (List.append_nil _).symm
  have h1 : ReplaceAll basicTemplate "{{title}}".toList title =
      "---\ntitle: \"".toList ++ (title ++ ("\"\ndate: ".toList
        ++ ("{{date}}".toList ++ ("\ntags: []\nstatus: draft\naliases: []\n---\n\n# ".toList
        ++ (title ++ "\n\n## Notes\n\n## References\n".toList))))) := by
    unfold ReplaceAll
    rw [basicTemplate_eq]
    rw [replaceAllAux_skip _ _ _ _ (by decide) (by decide)]
    rw [replaceAllAux_match _ _ _ (by decide)]
    rw [replaceAllAux_skip _ _ _ _ (by decide) (by decide)]
    have hd : ∀ rest : Str, replaceAllAux "{{title}}".toList title 0
        ("{{date}}".toList ++ rest)
        = "{{date}}".toList ++ replaceAllAux "{{title}}".toList title 0 rest := by
      intro rest
      simp [replaceAllAux, List.isPrefixOf]
    rw [hd, replaceAllAux_skip _ _ _ _ (by decide) (by decide), replaceAllAux_match _ _ _ (by decide)]
    rw [hend, replaceAllAux_skip _ _ _ _ (by decide) (by decide)]
    rfl
  have htd : ∀ c ∈ title, "{{date}}".toList.head? ≠ some c :=
    head_ne_of_not_mem _ title '{' rfl ht
  rw [h1]
  unfold ReplaceAll
  rw [replaceAllAux_skip _ _ _ _ (by decide) (by decide)]
  rw [replaceAllAux_skip _ _ _ _ (by decide) htd]
  rw [replaceAllAux_skip _ _ _ _ (by decide) (by decide)]
  rw [replaceAllAux_match _ _ _ (by decide)]
  rw [replaceAllAux_skip _ _ _ _ (by decide) (by decide)]
  rw [hend, replaceAllAux_skip _ _ _ _ (by decide) htd]
  rw [replaceAllAux_skip _ _ _ _ (by decide) (by decide)]
  rfl

theorem findFmEnd_format (prt : Char → Bool) (fm : Frontmatter) (b : Str) (h : NoNewline fm) :
    findFmEnd (Split (FormatFrontmatter prt fm ++ b) '\n') 0 false = 6 ∧
    Join ((Split (FormatFrontmatter prt fm ++ b) '\n').drop 7) ['\n'] = b := by
  rw [split_format prt fm b h]
  constructor
  · rw [findFmEnd, if_pos (by decide)]
    simp only [Bool.not_false, if_true]
    rw [findFmEnd_skip _ _ _ _ (headerLines_not_sep prt fm), findFmEnd, if_pos (by decide)]
    rfl
  · have e : ("---".toList :: (headerLines prt fm ++ "---".toList :: Split b '\n')).drop 7
        = Split b '\n' := rfl
    rw [e, Join_Split]

theorem buildNoteContent_basic_filled (prt : Char → Bool) (tmpl title date : Str)
    (tags : List Str) (body : Str) (urls : List Str) (fm0 : Frontmatter) (b : Str)
    (hn : NoNewline fm0)
    (hfill : ReplaceAll (ReplaceAll tmpl "{{title}}".toList title) "{{date}}".toList date
      = FormatFrontmatter prt fm0 ++ b) :
    buildNoteContent prt (some tmpl) "basic.md".toList title date tags body urls =
      (fun c => if urls.length > 0 then addURLsToContent c urls else c)
        ((fun c => if body ≠ [] then addBodyToContent c body else c)
          (FormatFrontmatter prt ⟨title, date, tags, "draft".toList, []⟩ ++ b)) := by
  obtain ⟨h6, h7⟩ := findFmEnd_format prt fm0 b hn
  have hne : ¬ ("basic.md".toList = "project.md".toList) := by decide
  have hpos : (6 : Int) > 0 := by decide
  have h7b : Join ((Split (FormatFrontmatter prt fm0 ++ b) '\n').drop ((6 : Int).toNat + 1))
      ['\n'] = b := h7
  unfold buildNoteContent
  simp only [hfill, h6, hne, hpos, if_true, if_false, h7b]

theorem no_hash_of_class (t : Str) (h : ∀ c ∈ t, isTitleChar c = true) : '#' ∉ t :=
  not_mem_of_class t '#' h (by decide)

theorem no_hash_format (prt : Char → Bool) (title date : Str) (tags : List Str)
    (ht : ∀ c ∈ title, isTitleChar c = true) (hd : ∀ c ∈ date, isTitleChar c = true)
    (htags : ∀ t ∈ tags, ∀ c ∈ t, inSlugClass c = true) :
    '#' ∉ FormatFrontmatter prt ⟨title, date, tags, "draft".toList, []⟩ := by
  have h1 := no_hash_of_class title ht
  have h2 := no_hash_of_class date hd
  have h3 : '#' ∉ Join tags ", ".toList := by
    intro hm
    rcases mem_intercalate _ _ _ hm with hm | ⟨t, ht1, ht2⟩
    · exact absurd hm (by decide)
    · exact no_hash_of_class t
        (fun c hc => titleChar_of_wordChar c (wordChar_of_inSlugClass c (htags t ht1 c hc)))
        ht2
  unfold FormatFrontmatter
  rw [Quote_plain prt title (plainTitle_of_class prt title ht)]
  intro hm
  simp only [List.mem_append, List.mem_cons] at hm
  casesm* _ ∨ _
  all_goals first
    | exact h1 (by assumption)
    | exact h2 (by assumption)
    | exact h3 (by assumption)
    | exact absurd (by assumption : '#' ∈ _) (by decide)
    | exact absurd (by assumption : '#' = _) (by decide)

theorem notes_first (F title : Str) (hF : '#' ∉ F) (ht : '#' ∉ title) :
    ¬ "## Notes".toList <:+: (F ++ ("\n# ".toList ++ title ++ "\n\n".toList))
      ++ "## Note".toList := by
  rw [← indexTextFrom_neg_iff _ _ 0]
  have e : (F ++ ("\n# ".toList ++ title ++ "\n\n".toList)) ++ "## Note".toList
      = F ++ ("\n".toList ++ ('#' :: ((' ' :: (title ++ "\n\n".toList)) ++ "## Note".toList))) := by
    simp
  rw [e]
  change indexTextFrom ('#' :: "# Notes".toList) _ 0 < 0
  rw [indexTextFrom_skip _ _ _ _ _ hF, indexTextFrom_skip _ _ _ _ _ (by decide)]
  have hp : ¬ ('#' :: "# Notes".toList).isPrefixOf
      ('#' :: ((' ' :: (title ++ "\n\n".toList)) ++ "## Note".toList)) = true := by
    simp [List.isPrefixOf]
  rw [indexTextFrom, if_neg hp]
  have hs : '#' ∉ ' ' :: (title ++ "\n\n".toList) := by
    intro hm
    simp only [List.mem_cons, List.mem_append] at hm
    casesm* _ ∨ _
    all_goals first
      | exact ht (by assumption)
      | exact absurd (by assumption : '#' ∈ _) (by decide)
      | exact absurd (by assumption : '#' = _) (by decide)
  rw [indexTextFrom_skip _ _ _ _ _ hs]
  exact (indexTextFrom_neg_iff _ _ _).2 (by decide)

/-! ## Lemmas: the scores of the examples, the footer, and the header of a created note -/

theorem score_example_golang (tbl : Char → Char) (g : Note)
    (ht : g.Frontmatter.Title = "Golang Tips".toList)
    (hg : g.Frontmatter.Tags = ["go".toList, "programming".toList])
    (ha : ∀ a ∈ g.Frontmatter.Aliases, ¬ IsSubstring "golang".toList (ToLower tbl a) ∧
      ¬ IsSubstring "concurrency".toList (ToLower tbl a))
    (hb : IsSubstring "concurrency".toList (ToLower tbl g.Body))
    (hn : ¬ IsSubstring "golang".toList (ToLower tbl g.Body)) :
    scoreNote tbl g "golang".toList = 10 ∧ scoreNote tbl g "concurrency".toList = 3 := by
  have e1 : ToLower tbl "Golang Tips".toList = "golang tips".toList := rfl
  have e2 : ToLower tbl "go".toList = "go".toList := rfl
  have e3 : ToLower tbl "programming".toList = "programming".toList := rfl
  have a1 : ¬ ∃ a ∈ g.Frontmatter.Aliases, IsSubstring "golang".toList (ToLower tbl a) :=
    fun ⟨a, hm, h⟩ => (ha a hm).1 h
  have a2 : ¬ ∃ a ∈ g.Frontmatter.Aliases, IsSubstring "concurrency".toList (ToLower tbl a) :=
    fun ⟨a, hm, h⟩ => (ha a hm).2 h
  have t1 : ¬ ∃ t ∈ ["go".toList, "programming".toList],
      IsSubstring "golang".toList (ToLower tbl t) := by
    rintro ⟨t, hm, h⟩
    simp only [List.mem_cons, List.mem_singleton, List.not_mem_nil, or_false] at hm
    rcases hm with rfl | rfl
    · rw [e2] at h; exact absurd h (by decide)
    · rw [e3] at h; exact absurd h (by decide)
  have t2 : ¬ ∃ t ∈ ["go".toList, "programming".toList],
      IsSubstring "concurrency".toList (ToLower tbl t) := by
    rintro ⟨t, hm, h⟩
    simp only [List.mem_cons, List.mem_singleton, List.not_mem_nil, or_false] at hm
    rcases hm with rfl | rfl
    · rw [e2] at h; exact absurd h (by decide)
    · rw [e3] at h; exact absurd h (by decide)
  constructor
  · rw [scoreNote_eq, ht, hg, e1, if_pos (by decide), if_neg t1, if_neg a1, if_neg hn]
    rfl
  · rw [scoreNote_eq, ht, hg, e1, if_neg (by decide), if_neg t2, if_neg a2, if_pos hb]
    rfl

theorem score_example_python (tbl : Char → Char) (p : Note)
    (hp : "python".toList ∈ p.Frontmatter.Tags)
    (ht : ¬ IsSubstring "python".toList (ToLower tbl p.Frontmatter.Title))
    (ha : ∀ a ∈ p.Frontmatter.Aliases, ¬ IsSubstring "python".toList (ToLower tbl a))
    (hb : ¬ IsSubstring "python".toList (ToLower tbl p.Body)) :
    scoreNote tbl p "python".toList = 8 := by
  have e : ToLower tbl "python".toList = "python".toList := rfl
  have t1 : ∃ t ∈ p.Frontmatter.Tags, IsSubstring "python".toList (ToLower tbl t) :=
    ⟨_, hp, by rw [e]; decide⟩
  have a1 : ¬ ∃ a ∈ p.Frontmatter.Aliases, IsSubstring "python".toList (ToLower tbl a) :=
    fun ⟨a, hm, h⟩ => ha a hm h
  rw [scoreNote_eq, if_neg ht, if_pos t1, if_neg a1, if_neg hb]
  rfl

theorem listLine_eq (formatDate : Int → Str) (note : Note) :
    listLine formatDate note =
      (if note.Frontmatter.Date = [] then formatDate note.ModTime else note.Frontmatter.Date)
        ++ "  ".toList
        ++ (if note.Frontmatter.Title = [] then "(untitled)".toList else note.Frontmatter.Title)
        ++ "  (".toList ++ note.Folder ++ ")".toList
        ++ (if note.Frontmatter.Tags = [] then []
            else "  [".toList ++ Join note.Frontmatter.Tags ", ".toList ++ "]".toList)
        ++ "\n".toList := by
  unfold listLine
  simp only
  by_cases h3 : note.Frontmatter.Tags = []
  · simp [h3]
  · have : note.Frontmatter.Tags.length > 0 := List.length_pos.2 h3
    simp [h3, this]

theorem listFooter_eq (n : Nat) :
    listFooter n = "\nShowing 10 of ".toList ++ Nat.toDigits 10 n
      ++ " notes. Use --all to show all.\n".toList := rfl

theorem listLine_ne_footer (formatDate : Int → Str) (note : Note) (n : Nat) :
    listLine formatDate note ≠ listFooter n := by
  intro h
  have hf : listFooter n = ("\nShowing 10 of ".toList ++ Nat.toDigits 10 n
      ++ " notes. Use --all to show all".toList) ++ ['.', '\n'] := by
    rw [listFooter_eq]
    simp
  rw [hf, listLine_eq] at h
  by_cases h3 : note.Frontmatter.Tags = []
  · rw [if_pos h3] at h
    have e : ∀ x : Str, x ++ ")".toList ++ [] ++ "\n".toList = x ++ [')', '\n'] := by
      intro x; simp
    rw [e] at h
    have := (List.append_inj' h rfl).2
    exact absurd this (by decide)
  · rw [if_neg h3] at h
    have e : ∀ x y : Str, x ++ ("  [".toList ++ y ++ "]".toList) ++ "\n".toList
        = (x ++ "  [".toList ++ y) ++ [']', '\n'] := by
      intro x y; simp
    rw [e] at h
    have := (List.append_inj' h rfl).2
    exact absurd this (by decide)

theorem addBodyToContent_eq (content body : Str) :
    addBodyToContent content body =
      insertAfter "## Notes".toList (body ++ "\n\n".toList) ("\n".toList ++ body ++ "\n".toList)
        content := by
  unfold addBodyToContent insertAfter
  simp only [List.append_assoc]

theorem addURLsToContent_eq (content : Str) (urls : List Str) :
    addURLsToContent content urls =
      insertAfter "## References".toList (urlLines urls ++ "\n".toList)
        ("\n## References\n\n".toList ++ urlLines urls) content := by
  unfold addURLsToContent insertAfter
  simp only [List.append_assoc]

theorem indexTextFrom_shift (m s : Str) (i : Nat) :
    indexTextFrom m s i =
      if indexTextFrom m s 0 < 0 then -1 else indexTextFrom m s 0 + (i : Int) := by
  induction s generalizing i with
  | nil =>
    simp only [indexTextFrom]
    by_cases h : m = []
    · simp [h]
    · simp [h]
  | cons c s ih =>
    simp only [indexTextFrom]
    by_cases hp : m.isPrefixOf (c :: s) = true
    · simp [hp]
    · simp only [hp, Bool.false_eq_true, if_false]
      rw [ih (i + 1), ih (0 + 1)]
      by_cases hn : indexTextFrom m s 0 < 0
      · simp [hn]
      · have h0 : ¬ (indexTextFrom m s 0 + ((0 + 1 : Nat) : Int) < 0) := by
          push_cast; omega
        simp only [hn, if_false, h0]
        push_cast
        omega

theorem insertAfter_cons (m ins ab : Str) (c : Char) (cs : Str)
    (hp : ¬ m.isPrefixOf (c :: cs) = true) :
    insertAfter m ins ab (c :: cs) = c :: insertAfter m ins ab cs := by
  unfold insertAfter IndexText
  simp only
  rw [indexTextFrom, if_neg hp, indexTextFrom_shift m cs (0 + 1)]
  by_cases hn : indexTextFrom m cs 0 < 0
  · rw [if_pos hn, if_pos (by omega), if_pos hn]
    rfl
  · rw [if_neg hn, if_neg hn]
    have hnn : 0 ≤ indexTextFrom m cs 0 := by omega
    obtain ⟨k, hk⟩ := Int.eq_ofNat_of_zero_le hnn
    rw [hk]
    have e1 : ((k : Int) + ((0 + 1 : Nat) : Int)).toNat = k + 1 := by
      push_cast; omega
    rw [if_neg (by push_cast; omega), e1]
    simp only [Int.toNat_ofNat]
    have e2 : k + 1 + m.length = (k + m.length) + 1 := by omega
    rw [e2, List.drop_succ_cons]
    have e3 : ∀ r : Nat, k + m.length + 1 + r = (k + m.length + r) + 1 := by intro r; omega
    rw [e3, List.take_succ_cons, List.drop_succ_cons]
    rfl

theorem insertAfter_skip (o : Char) (os ins ab P Z : Str) (h : o ∉ P) :
    insertAfter (o :: os) ins ab (P ++ Z) = P ++ insertAfter (o :: os) ins ab Z := by
  induction P with
  | nil => rfl
  | cons a t ih =>
    have ha : o ≠ a := fun e => h (e ▸ List.mem_cons_self _ _)
    change insertAfter (o :: os) ins ab (a :: (t ++ Z)) = _
    have hp : ¬ (o :: os).isPrefixOf (a :: (t ++ Z)) = true := by
      simp [List.isPrefixOf, ha]
    rw [insertAfter_cons _ _ _ _ _ hp, ih (fun hm => h (List.mem_cons_of_mem _ hm))]
    rfl

theorem insertAfter_here (m ins ab nl rest : Str) (hne : m ≠ []) (hnl : ∀ c ∈ nl, c = '\n')
    (hrest : rest.head? ≠ some '\n') :
    insertAfter m ins ab (m ++ nl ++ rest) = m ++ nl ++ ins ++ rest := by
  have hfirst : ¬ m <:+: [] ++ m.dropLast := by
    intro h
    have := h.length_le
    simp only [List.nil_append, List.length_dropLast] at this
    have : 0 < m.length := List.length_pos.2 hne
    omega
  have h := insert_after_marker m [] nl rest ins hne hfirst hnl hrest
  simp only [List.nil_append] at h
  unfold insertAfter
  simp only
  rw [if_neg h.1]
  exact h.2

theorem getLast?_cons_eq (c : Char) (l l2 : Str) (h : l2.getLast? = l.getLast?) :
    (c :: l2).getLast? = (c :: l).getLast? := by
  cases l with
  | nil =>
    cases l2 with
    | nil => rfl
    | cons a t => simp at h
  | cons b t =>
    cases l2 with
    | nil => exact absurd (List.getLast?_eq_none_iff.1 h.symm) (List.cons_ne_nil _ _)
    | cons a t2 =>
      rw [List.getLast?_cons_cons, List.getLast?_cons_cons]
      exact h

/-- An insertion into a text of the shape `Y ++ Tl ++ B`, where `Y` ends with a character `q`
that is neither a line feed nor the last character of the marker and `Tl` begins with a line
feed and holds no first character of the marker: `Tl` is kept as it is, after a text that
still ends with `q`; the text before `Tl` is `Y` itself or `Y` with `ins` put in. -/
theorem insertAfter_kept (o : Char) (os ins ab : Str) (q : Char) (Y Tl B : Str)
    (hq1 : q ≠ '\n') (hq2 : (o :: os).getLast? ≠ some q) (hmn : '\n' ∉ o :: os)
    (hY : ∀ c, Y.getLast? = some c → c = q)
    (hT1 : Tl.head? = some '\n') (hT2 : o ∉ Tl) :
    ∃ Y' B', insertAfter (o :: os) ins ab (Y ++ Tl ++ B) = Y' ++ Tl ++ B' ∧
      Y'.getLast? = Y.getLast? ∧
      (Y' = Y ∨ ∃ Y1 nl Y2, Y = Y1 ++ (o :: os) ++ nl ++ Y2 ∧
        Y' = Y1 ++ (o :: os) ++ nl ++ ins ++ Y2 ∧ Y2 ≠ [] ∧ (∀ c ∈ nl, c = '\n') ∧ B' = B) := by
  induction Y with
  | nil =>
    refine ⟨[], insertAfter (o :: os) ins ab B, ?_, rfl, Or.inl rfl⟩
    simp only [List.nil_append]
    exact insertAfter_skip o os ins ab Tl B hT2
  | cons c Y0 ih =>
    by_cases hp : (o :: os).isPrefixOf (c :: (Y0 ++ Tl ++ B)) = true
    · have hpre : (o :: os) <+: (c :: Y0) ++ (Tl ++ B) := by
        have := List.isPrefixOf_iff_prefix.1 hp
        simpa [List.append_assoc] using this
      have hnotm : c :: Y0 ≠ o :: os := by
        intro e
        apply hq2
        rw [← e]
        cases hl : (c :: Y0).getLast? with
        | none => simp at hl
        | some x => rw [hY x hl]
      have hin : (o :: os) <+: c :: Y0 := by
        have hpa : (c :: Y0) <+: (c :: Y0) ++ (Tl ++ B) := List.prefix_append _ _
        rcases List.prefix_or_prefix_of_prefix hpre hpa with h | h
        · exact h
        · exfalso
          obtain ⟨m', hm'⟩ := h
          cases m' with
          | nil => exact hnotm (by simpa using hm')
          | cons d m2 =>
            rw [← hm', List.prefix_append_right_inj] at hpre
            have hd : d = '\n' := by
              obtain ⟨t, ht⟩ := hpre
              cases Tl with
              | nil => simp at hT1
              | cons e Tl2 =>
                have he : e = '\n' := by simpa using hT1
                simp only [List.cons_append, List.cons.injEq] at ht
                rw [ht.1, he]
            apply hmn
            rw [← hm', hd]
            simp
      obtain ⟨Yr, hYr⟩ := hin
      have hYrne : Yr ≠ [] := by
        intro e
        apply hnotm
        rw [← hYr, e, List.append_nil]
      have hlast : Yr.getLast? = (c :: Y0).getLast? := by
        rw [← hYr, List.getLast?_append_of_ne_nil _ hYrne]
      have hsplit : Yr = Yr.takeWhile (· == '\n') ++ Yr.dropWhile (· == '\n') :=
        (List.takeWhile_append_dropWhile _ _).symm
      have hnl : ∀ x ∈ Yr.takeWhile (· == '\n'), x = '\n' := by
        intro x hx
        have := List.mem_takeWhile_imp hx
        simpa using this
      have hY2 : Yr.dropWhile (· == '\n') ≠ [] := by
        intro e
        rw [e, List.append_nil] at hsplit
        cases hl : Yr.getLast? with
        | none => exact hYrne (List.getLast?_eq_none_iff.1 hl)
        | some x =>
          have hx1 : x = q := hY x (by rw [← hlast]; exact hl)
          have hx2 : x ∈ Yr := List.mem_of_getLast?_eq_some hl
          rw [hsplit] at hx2
          exact hq1 (by rw [← hx1]; exact hnl x hx2)
      have hhead : (Yr.dropWhile (· == '\n') ++ Tl ++ B).head? ≠ some '\n' := by
        have h1 := List.head?_dropWhile_not (· == '\n') Yr
        cases hd : Yr.dropWhile (· == '\n') with
        | nil => exact absurd hd hY2
        | cons a t =>
          rw [hd] at h1
          simp only [List.cons_append, List.head?_cons, ne_eq, Option.some.injEq]
          intro ha
          rw [ha] at h1
          simp at h1
      have hcontent : (c :: Y0) ++ Tl ++ B
          = (o :: os) ++ Yr.takeWhile (· == '\n') ++ (Yr.dropWhile (· == '\n') ++ Tl ++ B) := by
        rw [← hYr]
        nth_rewrite 1 [hsplit]
        simp only [List.append_assoc]
      refine ⟨(o :: os) ++ Yr.takeWhile (· == '\n') ++ ins ++ Yr.dropWhile (· == '\n'), B,
        ?_, ?_, Or.inr ⟨[], Yr.takeWhile (· == '\n'), Yr.dropWhile (· == '\n'), ?_, ?_, hY2,
          hnl, rfl⟩⟩
      · rw [hcontent, insertAfter_here _ _ _ _ _ (List.cons_ne_nil _ _) hnl hhead]
        simp only [List.append_assoc]
      · rw [List.getLast?_append_of_ne_nil _ hY2, ← hlast]
        nth_rewrite 2 [hsplit]
        rw [List.getLast?_append_of_ne_nil _ hY2]
      · rw [← hYr]
        nth_rewrite 1 [hsplit]
        simp only [List.nil_append, List.append_assoc]
      · simp only [List.nil_append]
    · have hY0 : ∀ x, Y0.getLast? = some x → x = q := by
        intro x hx
        apply hY x
        cases Y0 with
        | nil => simp at hx
        | cons b t => rw [List.getLast?_cons_cons]; exact hx
      obtain ⟨Y0', B', h1, h2, h3⟩ := ih hY0
      refine ⟨c :: Y0', B', ?_, getLast?_cons_eq c Y0 Y0' h2, ?_⟩
      · change insertAfter (o :: os) ins ab (c :: (Y0 ++ Tl ++ B)) = _
        rw [insertAfter_cons _ _ _ _ _ hp, h1]
        rfl
      · rcases h3 with h3 | ⟨Y1, nl, Y2, e1, e2, e3, e4, e5⟩
        · exact Or.inl (by rw [h3])
        · exact Or.inr ⟨c :: Y1, nl, Y2, by rw [e1]; rfl, by rw [e2]; rfl, e3, e4, e5⟩

theorem format_headerRest (prt : Char → Bool) (title date : Str) (tags : List Str)
    (status b : Str) :
    FormatFrontmatter prt ⟨title, date, tags, status, []⟩ ++ b =
      "---\ntitle: ".toList ++ (Quote prt title ++ headerRest date tags status ++ b) := by
  simp [FormatFrontmatter, headerRest, Join, intercalate_nil, List.append_assoc]

theorem Quote_getLast (prt : Char → Bool) (s : Str) : (Quote prt s).getLast? = some '"' := by
  unfold Quote
  rw [List.getLast?_concat]

theorem normalizeTagsLoop_slugWord (tbl : Char → Char) (ps : List Str) :
    ∀ t ∈ normalizeTagsLoop tbl ps, SlugWord t := by
  induction ps with
  | nil => intro t ht; simp [normalizeTagsLoop] at ht
  | cons p ps ih =>
    intro t ht
    simp only [normalizeTagsLoop] at ht
    by_cases h : Slugify tbl (TrimSpace p) = []
    · rw [if_neg (by simp [h])] at ht
      exact ih t ht
    · rw [if_pos h] at ht
      rcases List.mem_cons.1 ht with rfl | ht
      · exact ⟨h, (slugify_isSlug tbl _).1⟩
      · exact ih t ht

theorem NormalizeTags_slugWord (tbl : Char → Char) (s : Str) :
    ∀ t ∈ NormalizeTags tbl s, SlugWord t := by
  unfold NormalizeTags
  split
  · intro t ht; simp at ht
  · exact normalizeTagsLoop_slugWord tbl _

theorem no_hash_headerRest (date : Str) (tags : List Str) (status : Str)
    (hd : ∀ c ∈ date, isDateChar c = true) (ht : ∀ t ∈ tags, SlugWord t)
    (hs : '#' ∉ status) : '#' ∉ headerRest date tags status := by
  have h2 : '#' ∉ date :=
    not_mem_of_class date '#'
      (fun c hc => titleChar_of_wordChar c (wordChar_of_dateChar c (hd c hc))) (by decide)
  have h3 : '#' ∉ Join tags ", ".toList := by
    intro hm
    rcases mem_intercalate _ _ _ hm with hm | ⟨t, ht1, ht2⟩
    · exact absurd hm (by decide)
    · exact not_mem_of_class t '#'
        (fun c hc => titleChar_of_wordChar c (wordChar_of_inSlugClass c ((ht t ht1).2 c hc)))
        (by decide) ht2
  unfold headerRest
  intro hm
  simp only [List.mem_append] at hm
  casesm* _ ∨ _
  all_goals first
    | exact h2 (by assumption)
    | exact h3 (by assumption)
    | exact hs (by assumption)
    | exact absurd (by assumption : '#' ∈ _) (by decide)

theorem headerRest_head (date : Str) (tags : List Str) (status : Str) :
    (headerRest date tags status).head? = some '\n' := rfl

/-- Both insertions keep the shape of a document that begins with "---", the title line up to
a closing double quote, and the rest of the header: the rest of the header stays in one
piece. -/
theorem kept_step (o : Char) (os ins ab P Tl doc : Str) (hP : o ∉ P)
    (hq2 : (o :: os).getLast? ≠ some '"') (hmn : '\n' ∉ o :: os)
    (hT1 : Tl.head? = some '\n') (hT2 : o ∉ Tl)
    (h : ∃ Y B, doc = P ++ (Y ++ Tl ++ B) ∧ Y.getLast? = some '"') :
    ∃ Y B, insertAfter (o :: os) ins ab doc = P ++ (Y ++ Tl ++ B) ∧ Y.getLast? = some '"' := by
  obtain ⟨Y, B, hdoc, hY⟩ := h
  obtain ⟨Y', B', h1, h2, _⟩ := insertAfter_kept o os ins ab '"' Y Tl B (by decide) hq2 hmn
    (by intro c hc; rw [hY] at hc; exact (Option.some.inj hc).symm) hT1 hT2
  refine ⟨Y', B', ?_, by rw [h2, hY]⟩
  rw [hdoc, insertAfter_skip o os ins ab P _ hP, h1]

theorem not_mem_Split (s : Str) (c : Char) : ∀ l ∈ Split s c, c ∉ l := by
  induction s with
  | nil =>
    intro l hl
    have : Split [] c = [[]] := by
      unfold Split
      simp [List.splitOn, List.splitOnP_nil]
    rw [this] at hl
    rw [List.mem_singleton.1 hl]
    exact List.not_mem_nil _
  | cons a t ih =>
    by_cases hac : a = c
    · subst hac
      have e : Split (a :: t) a = [] :: Split t a :=
        Split_line [] t a (List.not_mem_nil _)
      rw [e]
      intro l hl
      rcases List.mem_cons.1 hl with rfl | hl
      · exact List.not_mem_nil _
      · exact ih l hl
    · rw [Split_cons_ne c a t hac]
      cases hs : Split t c with
      | nil => exact absurd hs (Split_ne_nil t c)
      | cons h0 rest =>
        rw [hs] at ih
        intro l hl
        simp only [List.modifyHead_cons, List.mem_cons] at hl
        rcases hl with rfl | hl
        · intro hm
          rcases List.mem_cons.1 hm with e | hm
          · exact hac e.symm
          · exact ih h0 (List.mem_cons_self _ _) hm
        · exact ih l (List.mem_cons_of_mem _ hl)

theorem Join_append (xs ys : List Str) (hx : xs ≠ []) (hy : ys ≠ []) :
    Join (xs ++ ys) ['\n'] = Join xs ['\n'] ++ '\n' :: Join ys ['\n'] := by
  induction xs with
  | nil => exact absurd rfl hx
  | cons x xs ih =>
    cases xs with
    | nil =>
      cases ys with
      | nil => exact absurd rfl hy
      | cons y ys =>
        unfold Join
        rw [List.singleton_append, intercalate_cons_cons, intercalate_single]
        simp
    | cons x2 xs =>
      have := ih (List.cons_ne_nil _ _)
      unfold Join at this ⊢
      rw [List.cons_append, List.cons_append, intercalate_cons_cons, ← List.cons_append, this,
        intercalate_cons_cons]
      simp

theorem TrimSpace_getLast (s : Str) (c : Char) (h : s.getLast? = some c)
    (hc : isSpace c = false) : (TrimSpace s).getLast? = some c := by
  unfold TrimSpace
  have hmem : c ∈ s := List.mem_of_getLast?_eq_some h
  have hd : s.dropWhile isSpace ≠ [] := by
    intro e
    have := List.dropWhile_eq_nil_iff.1 e c hmem
    rw [hc] at this
    exact absurd this (by decide)
  have hsuf := List.dropWhile_suffix isSpace (l := s)
  obtain ⟨t, ht⟩ := hsuf
  have hl : (s.dropWhile isSpace).getLast? = some c := by
    rw [← h]
    nth_rewrite 2 [← ht]
    rw [List.getLast?_append_of_ne_nil _ hd]
  have hr : (s.dropWhile isSpace).rdropWhile isSpace = s.dropWhile isSpace := by
    rw [List.rdropWhile_eq_self_iff]
    intro hne
    have : (s.dropWhile isSpace).getLast hne = c := by
      have := List.getLast?_eq_getLast _ hne
      rw [hl] at this
      exact (Option.some.inj this).symm
    rw [this]
    simp [hc]
  rw [hr, hl]

/-- The fields the rest of the header sets, whatever the lines before it did. -/
theorem fold_headerRest (g : Frontmatter) (date : Str) (tags : List Str) (status : Str)
    (ht : ∀ t ∈ tags, PlainItem t) (hs : TrimSpace status = status) :
    let r := ["date: ".toList ++ date,
      "tags: [".toList ++ Join tags ", ".toList ++ "]".toList,
      "status: ".toList ++ status, "aliases: []".toList].foldl applyHeaderLine g
    r.Tags = tags ∧ r.Status = status := by
  intro r
  have b3 := TrimSpace_enclosed '[' ']' (Join tags ", ".toList) (by decide) (by decide)
  have l3 : "tags: [".toList ++ Join tags ", ".toList ++ "]".toList
      = "tags: ".toList ++ ('[' :: (Join tags ", ".toList ++ [']'])) :=
    bracket_line "tags: ".toList _
  have l5 : "aliases: []".toList = "aliases: ".toList ++ "[]".toList := rfl
  have hr : r = ["date: ".toList ++ date,
      "tags: [".toList ++ Join tags ", ".toList ++ "]".toList,
      "status: ".toList ++ status, "aliases: []".toList].foldl applyHeaderLine g := rfl
  rw [l3, l5] at hr
  simp only [List.foldl_cons, List.foldl_nil] at hr
  rw [applyHeaderLine_date, applyHeaderLine_tags, applyHeaderLine_status,
    applyHeaderLine_aliases, b3, parseYAMLList_bracket _ ht, hs] at hr
  rw [hr]
  exact ⟨rfl, rfl⟩

theorem parse_kept_lines (hs0 : List Str) (date : Str) (tags : List Str) (status B : Str)
    (hne : hs0 ≠ []) (hnl0 : ∀ l ∈ hs0, '\n' ∉ l)
    (hsep0 : ∀ l ∈ hs0, TrimSpace l ≠ "---".toList)
    (hd : '\n' ∉ date) (ht : ∀ t ∈ tags, PlainItem t) (htn : ∀ t ∈ tags, '\n' ∉ t)
    (hs : TrimSpace status = status) (hsn : '\n' ∉ status) :
    (ParseFrontmatterFromBytes
      ("---\n".toList ++ (Join hs0 ['\n'] ++ headerRest date tags status ++ B))).fm.Tags = tags ∧
    (ParseFrontmatterFromBytes
      ("---\n".toList ++ (Join hs0 ['\n'] ++ headerRest date tags status ++ B))).fm.Status
      = status := by
  have hdoc : "---\n".toList ++ (Join hs0 ['\n'] ++ headerRest date tags status ++ B)
      = Join ("---".toList :: ((hs0 ++ ["date: ".toList ++ date,
          "tags: [".toList ++ Join tags ", ".toList ++ "]".toList,
          "status: ".toList ++ status, "aliases: []".toList]) ++ "---".toList :: Split B '\n'))
        ['\n'] := by
    have e1 : ("---".toList :: ((hs0 ++ ["date: ".toList ++ date,
          "tags: [".toList ++ Join tags ", ".toList ++ "]".toList,
          "status: ".toList ++ status, "aliases: []".toList]) ++ "---".toList :: Split B '\n'))
        = (["---".toList] ++ hs0) ++ (["date: ".toList ++ date,
          "tags: [".toList ++ Join tags ", ".toList ++ "]".toList,
          "status: ".toList ++ status, "aliases: []".toList, "---".toList] ++ Split B '\n') := by
      simp
    rw [e1, Join_append _ _ (by simp) (by simp), Join_append _ _ (by simp) hne,
      Join_append _ _ (by simp) (Split_ne_nil B '\n'), Join_Split]
    simp [Join, intercalate_cons_cons, intercalate_single, headerRest, List.append_assoc]
  have hnl : ∀ x ∈ "---".toList :: ((hs0 ++ ["date: ".toList ++ date,
      "tags: [".toList ++ Join tags ", ".toList ++ "]".toList,
      "status: ".toList ++ status, "aliases: []".toList]) ++ "---".toList :: Split B '\n'),
      '\n' ∉ x := by
    intro x hx
    simp only [List.mem_cons, List.mem_append, List.mem_singleton, List.not_mem_nil,
      or_false] at hx
    rcases hx with rfl | ((hx | rfl | rfl | rfl | rfl) | rfl | hx)
    · decide
    · exact hnl0 x hx
    · intro hm
      rcases List.mem_append.1 hm with hm | hm
      · exact absurd hm (by decide)
      · exact hd hm
    · exact newline_not_mem_list tags htn "tags: [".toList "]".toList (by decide) (by decide)
    · intro hm
      rcases List.mem_append.1 hm with hm | hm
      · exact absurd hm (by decide)
      · exact hsn hm
    · decide
    · decide
    · exact not_mem_Split B '\n' x hx
  have hsep : ∀ x ∈ hs0 ++ ["date: ".toList ++ date,
      "tags: [".toList ++ Join tags ", ".toList ++ "]".toList,
      "status: ".toList ++ status, "aliases: []".toList], TrimSpace x ≠ "---".toList := by
    intro x hx
    simp only [List.mem_cons, List.mem_append, List.mem_singleton, List.not_mem_nil,
      or_false] at hx
    rcases hx with hx | rfl | rfl | rfl | rfl
    · exact hsep0 x hx
    · exact TrimSpace_ne_sep 'd' _ (by decide) (by decide)
    · exact TrimSpace_ne_sep 't' _ (by decide) (by decide)
    · exact TrimSpace_ne_sep 's' _ (by decide) (by decide)
    · exact TrimSpace_ne_sep 'a' _ (by decide) (by decide)
  rw [hdoc, parse_lines "---".toList _ "---".toList (Split B '\n') hnl (by decide) (by decide)
    hsep]
  simp only [List.foldl_append]
  exact fold_headerRest _ date tags status ht hs

theorem slugWord_no_newline (t : Str) (h : SlugWord t) : '\n' ∉ t :=
  not_mem_of_class t '\n'
    (fun c hc => titleChar_of_wordChar c (wordChar_of_inSlugClass c (h.2 c hc))) (by decide)

theorem dateChars_no_newline (d : Str) (h : ∀ c ∈ d, isDateChar c = true) : '\n' ∉ d :=
  not_mem_of_class d '\n'
    (fun c hc => titleChar_of_wordChar c (wordChar_of_dateChar c (h c hc))) (by decide)

theorem buildNoteContent_fallback (prt : Char → Bool) (templateName title date : Str)
    (tags : List Str) (body : Str) (urls : List Str) :
    ∃ rest, buildNoteContent prt none templateName title date tags body urls =
      FormatFrontmatter prt ⟨title, date, tags,
        if templateName = "project.md".toList then "active".toList else "draft".toList, []⟩
      ++ rest := by
  obtain ⟨rest, h⟩ := buildFallbackContent_split prt title date tags body urls
    (decide (templateName = "project.md".toList))
  refine ⟨"\n# ".toList ++ title ++ "\n".toList ++ rest, ?_⟩
  show buildFallbackContent prt title date tags body urls
    (decide (templateName = "project.md".toList)) = _
  rw [h]
  by_cases hp : templateName = "project.md".toList
  · simp only [hp, decide_True, if_true]
  · simp only [hp, decide_False, if_false, Bool.false_eq_true]

/-- The document `buildNoteContent` returns, when no template is read or the filled template
has a header block: "---", the title line up to a closing double quote, the rest of the
encoded header in one piece, and more text. -/
theorem build_kept (prt : Char → Bool) (tmpl : Option Str) (templateName title date : Str)
    (tags : List Str) (body : Str) (urls : List Str)
    (hd : ∀ c ∈ date, isDateChar c = true) (ht : ∀ t ∈ tags, SlugWord t)
    (hblock : ∀ t, tmpl = some t → findFmEnd
      (Split (ReplaceAll (ReplaceAll t "{{title}}".toList title) "{{date}}".toList date) '\n')
      0 false > 0) :
    ∃ Y B, buildNoteContent prt tmpl templateName title date tags body urls =
      "---\ntitle: ".toList ++ (Y ++ headerRest date tags
        (if templateName = "project.md".toList then "active".toList else "draft".toList) ++ B) ∧
      Y.getLast? = some '"' := by
  have hs : '#' ∉ (if templateName = "project.md".toList then "active".toList
      else "draft".toList) := by
    split_ifs <;> decide
  have hT2 := no_hash_headerRest date tags _ hd ht hs
  cases tmpl with
  | none =>
    obtain ⟨rest, h⟩ := buildNoteContent_fallback prt templateName title date tags body urls
    exact ⟨Quote prt title, rest, by rw [h, format_headerRest], Quote_getLast prt title⟩
  | some t =>
    obtain ⟨remaining, h⟩ := buildNoteContent_template prt t templateName title date tags
      body urls (hblock t rfl)
    rw [h]
    have k0 : ∃ Y B, FormatFrontmatter prt ⟨title, date, tags,
        if templateName = "project.md".toList then "active".toList else "draft".toList, []⟩
        ++ remaining = "---\ntitle: ".toList ++ (Y ++ headerRest date tags
          (if templateName = "project.md".toList then "active".toList else "draft".toList)
          ++ B) ∧ Y.getLast? = some '"' :=
      ⟨Quote prt title, remaining, format_headerRest _ _ _ _ _ _, Quote_getLast prt title⟩
    have k1 : ∃ Y B, (fun c => if body ≠ [] then addBodyToContent c body else c)
        (FormatFrontmatter prt ⟨title, date, tags,
          if templateName = "project.md".toList then "active".toList else "draft".toList, []⟩
          ++ remaining) = "---\ntitle: ".toList ++ (Y ++ headerRest date tags
          (if templateName = "project.md".toList then "active".toList else "draft".toList)
          ++ B) ∧ Y.getLast? = some '"' := by
      simp only
      by_cases hb : body = []
      · rw [if_neg (by simp [hb])]
        exact k0
      · rw [if_pos hb, addBodyToContent_eq]
        exact kept_step '#' "# Notes".toList _ _ _ _ _ (by decide) (by decide) (by decide)
          (headerRest_head _ _ _) hT2 k0
    simp only
    by_cases hu : urls.length > 0
    · rw [if_pos hu, addURLsToContent_eq]
      exact kept_step '#' "# References".toList _ _ _ _ _ (by decide) (by decide) (by decide)
        (headerRest_head _ _ _) hT2 k1
    · rw [if_neg hu]
      exact k1

theorem kept_infix (P Y Tl B doc : Str) (h : doc = P ++ (Y ++ Tl ++ B)) :
    P <+: doc ∧ Tl <:+: doc := by
  constructor
  · exact ⟨Y ++ Tl ++ B, h.symm⟩
  · exact ⟨P ++ Y, B, by rw [h]; simp only [List.append_assoc]⟩

theorem parse_title_line (Y date : Str) (tags : List Str) (status B : Str)
    (hY : '\n' ∉ Y)
    (hd : '\n' ∉ date) (ht : ∀ t ∈ tags, PlainItem t) (htn : ∀ t ∈ tags, '\n' ∉ t)
    (hs : TrimSpace status = status) (hsn : '\n' ∉ status) :
    (ParseFrontmatterFromBytes
      ("---\ntitle: ".toList ++ (Y ++ headerRest date tags status ++ B))).fm.Tags = tags ∧
    (ParseFrontmatterFromBytes
      ("---\ntitle: ".toList ++ (Y ++ headerRest date tags status ++ B))).fm.Status
      = status := by
  have e : "---\ntitle: ".toList ++ (Y ++ headerRest date tags status ++ B)
      = "---\n".toList ++ (Join ["title: ".toList ++ Y] ['\n'] ++ headerRest date tags status
        ++ B) := by
    simp [Join, intercalate_single]
  rw [e]
  refine parse_kept_lines _ date tags status B (by simp) ?_ ?_ hd ht htn hs hsn
  · intro l hl
    rw [List.mem_singleton.1 hl]
    intro hm
    rcases List.mem_append.1 hm with hm | hm
    · exact absurd hm (by decide)
    · exact hY hm
  · intro l hl
    rw [List.mem_singleton.1 hl]
    exact TrimSpace_ne_sep 't' _ (by decide) (by decide)

theorem parse_title_cut (Y1 m body Y2 date : Str) (tags : List Str) (status B : Str)
    (hY1 : '\n' ∉ Y1) (hm : '\n' ∉ m) (hb : '\n' ∉ body) (hY2 : '\n' ∉ Y2)
    (hq : Y2.getLast? = some '"')
    (hd : '\n' ∉ date) (ht : ∀ t ∈ tags, PlainItem t) (htn : ∀ t ∈ tags, '\n' ∉ t)
    (hs : TrimSpace status = status) (hsn : '\n' ∉ status) :
    (ParseFrontmatterFromBytes
      ("---\ntitle: ".toList ++ ((Y1 ++ m ++ [] ++ (body ++ "\n\n".toList) ++ Y2)
        ++ headerRest date tags status ++ B))).fm.Tags = tags ∧
    (ParseFrontmatterFromBytes
      ("---\ntitle: ".toList ++ ((Y1 ++ m ++ [] ++ (body ++ "\n\n".toList) ++ Y2)
        ++ headerRest date tags status ++ B))).fm.Status = status := by
  have e : "---\ntitle: ".toList ++ ((Y1 ++ m ++ [] ++ (body ++ "\n\n".toList) ++ Y2)
        ++ headerRest date tags status ++ B)
      = "---\n".toList ++ (Join ["title: ".toList ++ Y1 ++ m ++ body, [], Y2] ['\n']
        ++ headerRest date tags status ++ B) := by
    simp [Join, intercalate_cons_cons, intercalate_single]
  rw [e]
  refine parse_kept_lines _ date tags status B (by simp) ?_ ?_ hd ht htn hs hsn
  · intro l hl
    simp only [List.mem_cons, List.mem_singleton, List.not_mem_nil, or_false] at hl
    rcases hl with rfl | rfl | rfl
    · intro hx
      simp only [List.mem_append] at hx
      rcases hx with ((hx | hx) | hx) | hx
      · exact absurd hx (by decide)
      · exact hY1 hx
      · exact hm hx
      · exact hb hx
    · exact List.not_mem_nil _
    · exact hY2
  · intro l hl
    simp only [List.mem_cons, List.mem_singleton, List.not_mem_nil, or_false] at hl
    rcases hl with rfl | rfl | rfl
    · have : "title: ".toList ++ Y1 ++ m ++ body = 't' :: ("itle: ".toList ++ Y1 ++ m ++ body) :=
        rfl
      rw [this]
      exact TrimSpace_ne_sep 't' _ (by decide) (by decide)
    · decide
    · intro h
      have := TrimSpace_getLast l '"' hq (by decide)
      rw [h] at this
      exact absurd this (by decide)

/-- The document `buildNoteContent` returns decodes to the tags and the status it was given,
when the body is one line and either no URL is put in or no template is read. -/
theorem build_decoded (prt : Char → Bool) (tmpl : Option Str) (templateName title date : Str)
    (tags : List Str) (body : Str) (urls : List Str)
    (hd : ∀ c ∈ date, isDateChar c = true) (ht : ∀ t ∈ tags, SlugWord t)
    (hblock : ∀ t, tmpl = some t → findFmEnd
      (Split (ReplaceAll (ReplaceAll t "{{title}}".toList title) "{{date}}".toList date) '\n')
      0 false > 0)
    (hu : urls = [] ∨ tmpl = none) (hb : '\n' ∉ body) :
    (ParseFrontmatterFromBytes
      (buildNoteContent prt tmpl templateName title date tags body urls)).fm.Tags = tags ∧
    (ParseFrontmatterFromBytes
      (buildNoteContent prt tmpl templateName title date tags body urls)).fm.Status
      = (if templateName = "project.md".toList then "active".toList else "draft".toList) := by
  have hs : '#' ∉ (if templateName = "project.md".toList then "active".toList
      else "draft".toList) := by
    split_ifs <;> decide
  have hst : TrimSpace (if templateName = "project.md".toList then "active".toList
      else "draft".toList) = (if templateName = "project.md".toList then "active".toList
      else "draft".toList) := by
    split_ifs <;> decide
  have hsn : '\n' ∉ (if templateName = "project.md".toList then "active".toList
      else "draft".toList) := by
    split_ifs <;> decide
  have hT2 := no_hash_headerRest date tags _ hd ht hs
  have hdn := dateChars_no_newline date hd
  have hpi : ∀ t ∈ tags, PlainItem t := fun t h => plainItem_of_slugWord t (ht t h)
  have htn : ∀ t ∈ tags, '\n' ∉ t := fun t h => slugWord_no_newline t (ht t h)
  have hplain : ∀ B, (ParseFrontmatterFromBytes
      ("---\ntitle: ".toList ++ (Quote prt title ++ headerRest date tags
        (if templateName = "project.md".toList then "active".toList else "draft".toList)
        ++ B))).fm.Tags = tags ∧
    (ParseFrontmatterFromBytes
      ("---\ntitle: ".toList ++ (Quote prt title ++ headerRest date tags
        (if templateName = "project.md".toList then "active".toList else "draft".toList)
        ++ B))).fm.Status
      = (if templateName = "project.md".toList then "active".toList else "draft".toList) :=
    fun B => parse_title_line _ date tags _ B (Quote_no_newline prt title) hdn hpi htn hst hsn
  cases tmpl with
  | none =>
    obtain ⟨rest, h⟩ := buildNoteContent_fallback prt templateName title date tags body urls
    rw [h, format_headerRest]
    exact hplain rest
  | some t =>
    have hu0 : urls = [] := by
      rcases hu with hu | hu
      · exact hu
      · exact absurd hu (by simp)
    obtain ⟨remaining, h⟩ := buildNoteContent_template prt t templateName title date tags
      body urls (hblock t rfl)
    rw [h, hu0]
    simp only [List.length_nil, gt_iff_lt, lt_self_iff_false, if_false]
    by_cases hbe : body = []
    · rw [if_neg (by simp [hbe]), format_headerRest]
      exact hplain remaining
    · rw [if_pos hbe, addBodyToContent_eq, format_headerRest,
        show "## Notes".toList = '#' :: "# Notes".toList from rfl,
        insertAfter_skip '#' "# Notes".toList _ _ "---\ntitle: ".toList _ (by decide)]
      obtain ⟨Y', B', h1, _, h3⟩ := insertAfter_kept '#' "# Notes".toList
        (body ++ "\n\n".toList) ("\n".toList ++ body ++ "\n".toList) '"' (Quote prt title)
        (headerRest date tags
          (if templateName = "project.md".toList then "active".toList else "draft".toList))
        remaining (by decide) (by decide) (by decide)
        (by intro c hc; rw [Quote_getLast] at hc; exact (Option.some.inj hc).symm)
        (headerRest_head _ _ _) hT2
      rw [h1]
      rcases h3 with h3 | ⟨Y1, nl, Y2, e1, e2, e3, e4, _⟩
      · rw [h3]
        exact hplain B'
      · have hq := Quote_no_newline prt title
        rw [e1] at hq
        have hnl : nl = [] := by
          cases nl with
          | nil => rfl
          | cons x xs =>
            exfalso
            apply hq
            rw [e4 x (List.mem_cons_self _ _)]
            simp
        have hY1 : '\n' ∉ Y1 := fun hm => hq (by simp [hm])
        have hY2 : '\n' ∉ Y2 := fun hm => hq (by simp [hm])
        have hlast : Y2.getLast? = some '"' := by
          have := Quote_getLast prt title
          rw [e1, List.getLast?_append_of_ne_nil _ e3] at this
          exact this
        rw [e2, hnl]
        exact parse_title_cut Y1 ('#' :: "# Notes".toList) body Y2 date tags _ B' hY1
          (by decide) hb hY2 hlast hdn hpi htn hst hsn

/-- In the folder Resources the two insertions can close the header early: with the template
basic.md of the fixture, the title "## Notes" and the body "## References---", the body goes
into the title line and the URL after it, the rest of the body becomes a line "---", and the
document decodes to no tags and no status, though the lines "tags: []" and "status: draft"
stand in it. -/
theorem resources_header_cut :
    ∃ c, Create id (fun _ => true) fixtureTemplates "2026-02-13".toList cutAnswers = some c ∧
      c.content = ("---\ntitle: \"## Notes## References- u\n\n---\n\n\"\ndate: 2026-02-13\n"
        ++ "tags: []\nstatus: draft\naliases: []\n---\n\n# ## Notes\n\n## Notes\n\n"
        ++ "## References\n").toList ∧
      (ParseFrontmatterFromBytes c.content).fm.Status = [] := by
  refine ⟨_, rfl, ?_, ?_⟩ <;> decide

theorem written_tags (tags : List Str) :
    let written := if "project".toList ∈ tags then tags else tags ++ ["project".toList]
    "project".toList ∈ written ∧ tags <+: written ∧
      ("project".toList ∈ tags → written = tags) ∧
      ("project".toList ∉ tags → written = tags ++ ["project".toList]) := by
  intro written
  by_cases hm : "project".toList ∈ tags
  · have e : written = tags := if_pos hm
    rw [e]
    exact ⟨hm, List.prefix_refl _, fun _ => rfl, fun h => absurd hm h⟩
  · have e : written = tags ++ ["project".toList] := if_neg hm
    rw [e]
    exact ⟨by simp, List.prefix_append _ _, fun h => absurd h hm, fun _ => rfl⟩

/-! ## The claims -/

/-- C2: for every text, the slug holds only characters of `[a-z0-9-]`, has no two consecutive
hyphens, and neither starts nor ends with a hyphen. -/
theorem C2_slugify_shape (tbl : Char → Char) (T : Str) :
    (∀ c ∈ Slugify tbl T, ('a' ≤ c ∧ c ≤ 'z') ∨ ('0' ≤ c ∧ c ≤ '9') ∨ c = '-') ∧
    ¬ (['-', '-'] <:+: Slugify tbl T) ∧
    (Slugify tbl T).head? ≠ some '-' ∧ (Slugify tbl T).getLast? ≠ some '-' := by
  obtain ⟨h1, h2, h3, h4⟩ := slugify_isSlug tbl T
  exact ⟨fun c hc => (inSlugClass_iff c).1 (h1 c hc), noDouble_no_pair _ h2, h3, h4⟩

/-- C3: `Slugify` is idempotent, and the slug "my-cool-note" is returned unchanged. -/
theorem C3_slugify_idempotent (tbl : Char → Char) (T : Str) :
    Slugify tbl (Slugify tbl T) = Slugify tbl T ∧
    Slugify tbl "my-cool-note".toList = "my-cool-note".toList :=
  ⟨slugify_of_isSlug tbl _ (slugify_isSlug tbl T), rfl⟩

/-- C4: for every text, the slug is the maximal runs of `[a-z0-9]` characters of the lowercased
text, in order, joined by single hyphens; the empty text and a text whose lowercased characters
are all outside `[a-z0-9]` give the empty slug. -/
theorem C4_slugify_runs (tbl : Char → Char) (T : Str) :
    Slugify tbl T = Join (alnumRuns (ToLower tbl T)) ['-'] ∧
    Slugify tbl [] = [] ∧
    ((∀ c ∈ ToLower tbl T, isAlnum c = false) → Slugify tbl T = []) := by
  have h : Slugify tbl T = Join (alnumRuns (ToLower tbl T)) ['-'] := by
    rw [slugify_eq, trim_hyphenate]
    rfl
  refine ⟨h, rfl, fun hall => ?_⟩
  rw [h, alnumRuns_of_all_sep _ hall]
  rfl

/-- Witness of C4: the text "!!!" has no character of `[a-z0-9]` and its slug is empty. -/
theorem C4_slugify_runs_witness :
    (∀ c ∈ ToLower id "!!!".toList, isAlnum c = false) ∧ Slugify id "!!!".toList = [] :=
  ⟨by decide, (C4_slugify_runs id "!!!".toList).2.2 (by decide)⟩

/-- C5: `NormalizeTags` splits on commas, trims each part, slugifies it and drops the empty
results, in order; "go, CLI,  tooling " gives go, cli, tooling, and an empty or blank input
gives the empty sequence, on the early return as on the general path. -/
theorem C5_normalizeTags (tbl : Char → Char) (s : Str) :
    NormalizeTags tbl s =
      ((Split s ',').map (fun p => Slugify tbl (TrimSpace p))).filter
        (fun t => decide (t ≠ [])) ∧
    NormalizeTags tbl "go, CLI,  tooling ".toList = ["go".toList, "cli".toList, "tooling".toList] ∧
    (TrimSpace s = [] → NormalizeTags tbl s = [] ∧
      ((Split s ',').map (fun p => Slugify tbl (TrimSpace p))).filter
        (fun t => decide (t ≠ [])) = []) := by
  refine ⟨NormalizeTags_eq tbl s, rfl, fun h => ?_⟩
  have h1 : NormalizeTags tbl s = [] := by
    unfold NormalizeTags
    rw [if_pos h]
  exact ⟨h1, by rw [← NormalizeTags_eq, h1]⟩

/-- Witness of C5: a blank input. -/
theorem C5_normalizeTags_witness :
    TrimSpace "   ".toList = [] ∧ NormalizeTags id "   ".toList = [] :=
  ⟨by decide, ((C5_normalizeTags id "   ".toList).2.2 (by decide)).1⟩

/-- C6: a text whose first line does not trim to "---", or none of whose later lines trims to
"---", decodes to the empty Frontmatter, the whole text as body, and no error. -/
theorem C6_parse_no_header (data : Str)
    (h : TrimSpace ((Split data '\n').headD []) ≠ "---".toList ∨
      ∀ l ∈ (Split data '\n').drop 1, TrimSpace l ≠ "---".toList) :
    (ParseFrontmatterFromBytes data).fm = Frontmatter.zero ∧
    (ParseFrontmatterFromBytes data).body = data ∧
    (ParseFrontmatterFromBytes data).err = none := by
  rw [parse_no_header data h]
  exact ⟨rfl, rfl, rfl⟩

/-- Witness of C6: an opening separator without a closing one. -/
theorem C6_parse_no_header_witness :
    (TrimSpace ((Split "---\ntitle: x\nrest\n".toList '\n').headD []) ≠ "---".toList ∨
      ∀ l ∈ (Split "---\ntitle: x\nrest\n".toList '\n').drop 1, TrimSpace l ≠ "---".toList) ∧
    (ParseFrontmatterFromBytes "---\ntitle: x\nrest\n".toList).fm = Frontmatter.zero ∧
    (ParseFrontmatterFromBytes "---\ntitle: x\nrest\n".toList).body = "---\ntitle: x\nrest\n".toList ∧
    (ParseFrontmatterFromBytes "---\ntitle: x\nrest\n".toList).err = none :=
  ⟨by decide, C6_parse_no_header "---\ntitle: x\nrest\n".toList (by decide)⟩

/-- C1, the counterexamples: three Frontmatters with simple fields that do not survive the round
trip: a backslash in the title is doubled by `%q`, white space at the end of the date is trimmed
away, and an empty tag is dropped. -/
theorem C1_roundtrip_counterexample :
    (SimpleFields ⟨"a\\b".toList, [], [], [], []⟩ ∧
      (ParseFrontmatterFromBytes
        (FormatFrontmatter (fun _ => true) ⟨"a\\b".toList, [], [], [], []⟩)).fm
        ≠ ⟨"a\\b".toList, [], [], [], []⟩) ∧
    (SimpleFields ⟨[], "2026 ".toList, [], [], []⟩ ∧
      (ParseFrontmatterFromBytes
        (FormatFrontmatter (fun _ => true) ⟨[], "2026 ".toList, [], [], []⟩)).fm
        ≠ ⟨[], "2026 ".toList, [], [], []⟩) ∧
    (SimpleFields ⟨[], [], [[]], [], []⟩ ∧
      (ParseFrontmatterFromBytes
        (FormatFrontmatter (fun _ => true) ⟨[], [], [[]], [], []⟩)).fm
        ≠ ⟨[], [], [[]], [], []⟩) := by
  refine ⟨⟨?_, by decide⟩, ⟨?_, by decide⟩, ⟨?_, by decide⟩⟩ <;>
    (unfold SimpleFields; decide)

/-- C1, amended: the round trip reproduces all five fields of every Frontmatter whose fields are
simple and, moreover, whose title holds only printable characters and no backslash, whose date
and status hold no line feed and no white space at either end, and whose tags and aliases are
not empty and hold no line feed and no white space at either end. -/
theorem C1_roundtrip (prt : Char → Bool) (fm : Frontmatter) (hs : SimpleFields fm)
    (ht : ∀ c ∈ fm.Title, IsPrint prt c = true ∧ c ≠ '\\')
    (hd : '\n' ∉ fm.Date ∧ TrimSpace fm.Date = fm.Date)
    (hst : '\n' ∉ fm.Status ∧ TrimSpace fm.Status = fm.Status)
    (htg : ∀ t ∈ fm.Tags, t ≠ [] ∧ '\n' ∉ t ∧ TrimSpace t = t)
    (hal : ∀ t ∈ fm.Aliases, t ≠ [] ∧ '\n' ∉ t ∧ TrimSpace t = t) :
    (ParseFrontmatterFromBytes (FormatFrontmatter prt fm)).fm = fm := by
  obtain ⟨s1, _, _, s4, s5⟩ := hs
  have h := roundtrip_core prt fm ⟨hd.1, hst.1, fun t h => (htg t h).2.1, fun t h => (hal t h).2.1⟩
    (fun c hc => ⟨(ht c hc).1, (s1 c hc).2, (ht c hc).2⟩) hd.2
    (fun t h => ⟨(htg t h).1, fun hc => (s4 t h ',' hc).2.2 rfl, (htg t h).2.2⟩) hst.2
    (fun t h => ⟨(hal t h).1, fun hc => (s5 t h ',' hc).2.2 rfl, (hal t h).2.2⟩)
  rw [h]

/-- Witness of C1: the Frontmatter of the repository's parsing test. -/
theorem C1_roundtrip_witness :
    SimpleFields sampleFrontmatter ∧
    (ParseFrontmatterFromBytes (FormatFrontmatter (fun _ => true) sampleFrontmatter)).fm
      = sampleFrontmatter :=
  ⟨by unfold SimpleFields; decide,
   C1_roundtrip (fun _ => true) sampleFrontmatter (by unfold SimpleFields; decide) (by decide)
    (by decide) (by decide) (by decide) (by decide)⟩

/-- C7, the counterexample: a title with a double quote in it is not written as it is between
the quotes, `%q` puts a backslash before the inner quote. -/
theorem C7_format_counterexample :
    FormatFrontmatter (fun _ => true) ⟨"a\"b".toList, [], [], [], []⟩
      ≠ sevenLines ⟨"a\"b".toList, [], [], [], []⟩ ∧
    FormatFrontmatter (fun _ => true) ⟨"a\"b".toList, [], [], [], []⟩
      = "---\ntitle: \"a\\\"b\"\ndate: \ntags: []\nstatus: \naliases: []\n---\n".toList := by
  decide

/-- C7, amended: for every Frontmatter whose title holds only printable characters other than
the double quote and the backslash, the output is exactly the seven lines, each ended by a line
feed: "---", the title between double quotes, the date, the tags joined by ", " in brackets, the
status, the aliases joined by ", " in brackets, "---"; empty tag and alias lists render as
`[]`. -/
theorem C7_format (prt : Char → Bool) (fm : Frontmatter)
    (ht : ∀ c ∈ fm.Title, IsPrint prt c = true ∧ c ≠ '"' ∧ c ≠ '\\') :
    FormatFrontmatter prt fm =
      "---\n".toList
        ++ ("title: \"".toList ++ fm.Title ++ "\"\n".toList)
        ++ ("date: ".toList ++ fm.Date ++ "\n".toList)
        ++ ("tags: [".toList ++ Join fm.Tags ", ".toList ++ "]\n".toList)
        ++ ("status: ".toList ++ fm.Status ++ "\n".toList)
        ++ ("aliases: [".toList ++ Join fm.Aliases ", ".toList ++ "]\n".toList)
        ++ "---\n".toList ∧
    FormatFrontmatter prt { fm with Tags := [], Aliases := [] } =
      "---\n".toList
        ++ ("title: \"".toList ++ fm.Title ++ "\"\n".toList)
        ++ ("date: ".toList ++ fm.Date ++ "\n".toList)
        ++ "tags: []\n".toList
        ++ ("status: ".toList ++ fm.Status ++ "\n".toList)
        ++ "aliases: []\n".toList
        ++ "---\n".toList := by
  have hq := Quote_plain prt fm.Title ht
  constructor
  · unfold FormatFrontmatter
    rw [hq]
    simp
  · unfold FormatFrontmatter
    simp only [hq]
    simp [Join, intercalate_nil]

/-- Witness of C7: the Frontmatter of `TestFormatFrontmatter`. -/
theorem C7_format_witness :
    (∀ c ∈ "Test Note".toList, IsPrint (fun _ => true) c = true ∧ c ≠ '"' ∧ c ≠ '\\') ∧
    FormatFrontmatter (fun _ => true)
        ⟨"Test Note".toList, "2026-02-13".toList, ["go".toList, "testing".toList],
          "draft".toList, []⟩
      = ("---\ntitle: \"Test Note\"\ndate: 2026-02-13\ntags: [go, testing]\nstatus: draft\n"
          ++ "aliases: []\n---\n").toList :=
  ⟨by decide,
   (C7_format (fun _ => true)
      ⟨"Test Note".toList, "2026-02-13".toList, ["go".toList, "testing".toList],
        "draft".toList, []⟩ (by decide)).1.trans (by decide)⟩

/-- C8: for every Frontmatter whose date, status, tags and aliases hold no line feed and for
every text `b`, decoding the encoded header followed by `b` gives the body `b`. -/
theorem C8_body_after_header (prt : Char → Bool) (fm : Frontmatter) (b : Str)
    (hd : '\n' ∉ fm.Date) (hst : '\n' ∉ fm.Status) (htg : ∀ t ∈ fm.Tags, '\n' ∉ t)
    (hal : ∀ t ∈ fm.Aliases, '\n' ∉ t) :
    (ParseFrontmatterFromBytes (FormatFrontmatter prt fm ++ b)).body = b := by
  rw [parse_format prt fm b ⟨hd, hst, htg, hal⟩]

/-- Witness of C8: the header of the parsing test followed by a body that begins with a blank
line. -/
theorem C8_body_after_header_witness :
    ('\n' ∉ sampleFrontmatter.Date ∧ '\n' ∉ sampleFrontmatter.Status) ∧
    (ParseFrontmatterFromBytes
      (FormatFrontmatter (fun _ => true) sampleFrontmatter ++ "\n# My Note\n".toList)).body
      = "\n# My Note\n".toList :=
  ⟨by decide,
   C8_body_after_header (fun _ => true) sampleFrontmatter "\n# My Note\n".toList (by decide)
    (by decide) (by decide) (by decide)⟩

/-- C9, the counterexample: the note "Golang Tips" of the test fixture has the title and the
tags of the example and a body that mentions "concurrency", and it scores 13 for "golang", not
10: its body begins with the heading "# Golang Tips", which also matches. The same note with
the alias "golang" and a body without the word scores 18. The note "Python Basics" of the
fixture has the tag "python" and scores 21 for "python", not 8: its title and its body match
as well. -/
theorem C9_score_counterexample :
    golangTips.Frontmatter.Title = "Golang Tips".toList ∧
    golangTips.Frontmatter.Tags = ["go".toList, "programming".toList] ∧
    IsSubstring "concurrency".toList golangTips.Body ∧
    scoreNote id golangTips "golang".toList = 13 ∧
    scoreNote id golangTips "golang".toList ≠ 10 ∧
    golangAliased.Frontmatter.Title = "Golang Tips".toList ∧
    golangAliased.Frontmatter.Tags = ["go".toList, "programming".toList] ∧
    IsSubstring "concurrency".toList golangAliased.Body ∧
    scoreNote id golangAliased "golang".toList = 18 ∧
    "python".toList ∈ pythonBasics.Frontmatter.Tags ∧
    scoreNote id pythonBasics "python".toList = 21 := by
  decide

/-- C9, amended: the score is 10 for a title match, plus 8 when at least one tag matches, plus 8
when at least one alias matches, plus 3 for a body match, a match being that the query is a
substring of the lowercased field. Every note titled "Golang Tips" with the tags go and
programming, no alias that mentions "golang" or "concurrency", and a body that in lower case
mentions "concurrency" and not "golang" scores 10 for "golang" and 3 for "concurrency"; every
note with the tag "python" whose title, aliases and body do not mention "python" in lower case
scores 8 for "python". -/
theorem C9_score (tbl : Char → Char) (note : Note) (q : Str) :
    scoreNote tbl note q =
      (if IsSubstring q (ToLower tbl note.Frontmatter.Title) then 10 else 0)
      + (if ∃ t ∈ note.Frontmatter.Tags, IsSubstring q (ToLower tbl t) then 8 else 0)
      + (if ∃ a ∈ note.Frontmatter.Aliases, IsSubstring q (ToLower tbl a) then 8 else 0)
      + (if IsSubstring q (ToLower tbl note.Body) then 3 else 0) ∧
    (∀ g : Note, g.Frontmatter.Title = "Golang Tips".toList →
      g.Frontmatter.Tags = ["go".toList, "programming".toList] →
      (∀ a ∈ g.Frontmatter.Aliases, ¬ IsSubstring "golang".toList (ToLower tbl a) ∧
        ¬ IsSubstring "concurrency".toList (ToLower tbl a)) →
      IsSubstring "concurrency".toList (ToLower tbl g.Body) →
      ¬ IsSubstring "golang".toList (ToLower tbl g.Body) →
      scoreNote tbl g "golang".toList = 10 ∧ scoreNote tbl g "concurrency".toList = 3) ∧
    (∀ p : Note, "python".toList ∈ p.Frontmatter.Tags →
      ¬ IsSubstring "python".toList (ToLower tbl p.Frontmatter.Title) →
      (∀ a ∈ p.Frontmatter.Aliases, ¬ IsSubstring "python".toList (ToLower tbl a)) →
      ¬ IsSubstring "python".toList (ToLower tbl p.Body) →
      scoreNote tbl p "python".toList = 8) ∧
    scoreNote tbl golangNote "golang".toList = 10 ∧
    scoreNote tbl golangNote "concurrency".toList = 3 ∧
    scoreNote tbl pythonNote "python".toList = 8 :=
  ⟨scoreNote_eq tbl note q, score_example_golang tbl, score_example_python tbl, rfl, rfl, rfl⟩

/-- Witness of C9: the fixture's "Golang Tips" without the heading in its body, with its alias
"go-tips", and a note tagged "python" that mentions it nowhere else. -/
theorem C9_score_witness :
    (scoreNote id { golangTips with Body := golangNote.Body } "golang".toList = 10 ∧
      scoreNote id { golangTips with Body := golangNote.Body } "concurrency".toList = 3) ∧
    scoreNote id pythonNote "python".toList = 8 :=
  ⟨(C9_score id golangNote []).2.1 { golangTips with Body := golangNote.Body } rfl rfl
      (by decide) (by decide) (by decide),
   (C9_score id golangNote []).2.2.1 pythonNote (by decide) (by decide) (by decide)
      (by decide)⟩

/-- C10, the counterexample: the blank query " " is not refused: the notes are scanned, the
note whose body holds a space is printed, and no error is returned. -/
theorem C10_blank_query_counterexample :
    TrimSpace " ".toList = [] ∧
    Find id (fun _ => true) insertionSort (.ok [shortNote]) " ".toList
      = ⟨1, utf8 "T  (Inbox)\n  a b\n".toList, .returned none⟩ := by
  decide

/-- C10, amended: `Find` returns the error "search query is required" for the empty query,
without calling `ScanNotes` and without writing anything; every other query, the blank ones
included, goes on to the scan. -/
theorem C10_empty_query (tbl : Char → Char) (prt : Char → Bool)
    (sortSlice : (searchResult → searchResult → Bool) → List searchResult → List searchResult)
    (scan : Except Str (List Note)) (query : Str) :
    Find tbl prt sortSlice scan [] =
      ⟨0, [], .returned (some "search query is required".toList)⟩ ∧
    ((Find tbl prt sortSlice scan query).scans = 0 ↔ query = []) := by
  refine ⟨rfl, ?_⟩
  unfold Find
  by_cases h : query = []
  · simp [h]
  · simp only [h, if_false, iff_false]
    cases scan with
    | error e => simp
    | ok notes =>
      simp only
      split
      · simp
      · split <;> simp

set_option maxRecDepth 100000 in
/-- C11, the failing input: two notes match the query "x"; the one that is ranked first has
a body whose lower case is longer in bytes, `findExcerpt` panics on it, and the other note,
with score 3, is never printed. -/
theorem C11_find_results_failing_input :
    scoreNote strokeTable strokeNote "x".toList = 13 ∧
    scoreNote strokeTable plainNote "x".toList = 3 ∧
    Find strokeTable (fun _ => true) insertionSort (.ok [plainNote, strokeNote]) "x".toList
      = ⟨1, utf8 "x  (Inbox)\n".toList, .panicked⟩ := by
  decide

set_option maxRecDepth 100000 in
/-- C12, the failing input: the lowercased body contains the query at byte 150, the body has
101 bytes, the bounds of the slice are 110 and 101, and `findExcerpt` panics. -/
theorem C12_excerpt_failing_input :
    IsSubstring "x".toList (ToLower strokeTable strokeBody) ∧
    Index (utf8 (ToLower strokeTable strokeBody)) (utf8 "x".toList) = 150 ∧
    len strokeBody = 101 ∧
    findExcerpt strokeTable strokeBody "x".toList = none := by
  decide

/-- C13: with `n` scanned notes, `List` writes `n` note lines when `showAll` holds or `n` is at
most 10, and 10 note lines otherwise, each of the form "date  title  (folder)tags"; after them
it writes the footer "Showing 10 of n notes. Use --all to show all." exactly when `showAll`
does not hold and `n` is more than 10, and that text is among the texts written in no other
case; with no note it writes only "No notes found."; it returns no error. -/
theorem C13_list_pagination (formatDate : Int → Str)
    (sortSlice : (Note → Note → Bool) → List Note → List Note) (notes : List Note)
    (showAll : Bool) (hlen : (sortSlice afterModTime notes).length = notes.length) :
    (notes.length = 0 →
      (ListNotes formatDate sortSlice (.ok notes) showAll).out = ["No notes found.\n".toList]) ∧
    (notes.length ≠ 0 →
      ∃ printed : List Note,
        printed.length = (if showAll = true ∨ notes.length ≤ 10 then notes.length else 10) ∧
        (ListNotes formatDate sortSlice (.ok notes) showAll).out =
          printed.map (fun note =>
            (if note.Frontmatter.Date = [] then formatDate note.ModTime
              else note.Frontmatter.Date)
            ++ "  ".toList
            ++ (if note.Frontmatter.Title = [] then "(untitled)".toList
              else note.Frontmatter.Title)
            ++ "  (".toList ++ note.Folder ++ ")".toList
            ++ (if note.Frontmatter.Tags = [] then []
                else "  [".toList ++ Join note.Frontmatter.Tags ", ".toList ++ "]".toList)
            ++ "\n".toList)
            ++ (if showAll = false ∧ notes.length > 10
                then ["\nShowing 10 of ".toList ++ Nat.toDigits 10 notes.length
                  ++ " notes. Use --all to show all.\n".toList]
                else [])) ∧
    (("\nShowing 10 of ".toList ++ Nat.toDigits 10 notes.length
        ++ " notes. Use --all to show all.\n".toList)
        ∈ (ListNotes formatDate sortSlice (.ok notes) showAll).out ↔
      showAll = false ∧ notes.length > 10) ∧
    (ListNotes formatDate sortSlice (.ok notes) showAll).outcome = .returned none := by
  have hline : (listLine formatDate) = (fun note =>
      (if note.Frontmatter.Date = [] then formatDate note.ModTime
        else note.Frontmatter.Date)
      ++ "  ".toList
      ++ (if note.Frontmatter.Title = [] then "(untitled)".toList
        else note.Frontmatter.Title)
      ++ "  (".toList ++ note.Folder ++ ")".toList
      ++ (if note.Frontmatter.Tags = [] then []
          else "  [".toList ++ Join note.Frontmatter.Tags ", ".toList ++ "]".toList)
      ++ "\n".toList) := funext (listLine_eq formatDate)
  refine ⟨?_, ?_, ?_, ?_⟩
  · intro h
    simp [ListNotes, h]
  · intro h
    have h0 : notes ≠ [] := fun e => h (by rw [e]; rfl)
    rw [ListNotes_ok formatDate sortSlice notes showAll h0, hlen, ← listFooter_eq, ← hline]
    refine ⟨_, ?_, rfl⟩
    rw [List.length_take, hlen]
    split_ifs with hc
    · simp
    · have : ¬ notes.length ≤ 10 := fun hle => hc (Or.inr hle)
      omega
  · rw [← listFooter_eq]
    by_cases h : notes.length = 0
    · have hn : notes = [] := List.length_eq_zero.1 h
      subst hn
      constructor
      · intro hm
        have hm2 : listFooter 0 ∈ ["No notes found.\n".toList] := by
          simpa [ListNotes] using hm
        exact absurd hm2 (by decide)
      · intro hc
        exact absurd hc.2 (by decide)
    · have h0 : notes ≠ [] := fun e => h (by rw [e]; rfl)
      rw [ListNotes_ok formatDate sortSlice notes showAll h0, hlen]
      simp only [List.mem_append, List.mem_map]
      constructor
      · rintro (⟨n, _, hn⟩ | hm)
        · exact absurd hn (listLine_ne_footer formatDate n _)
        · by_cases hc : showAll = false ∧ notes.length > 10
          · exact hc
          · rw [if_neg hc] at hm
            exact absurd hm (List.not_mem_nil _)
      · intro hc
        right
        rw [if_pos hc]
        exact List.mem_singleton_self _
  · by_cases h : notes.length = 0
    · simp [ListNotes, h]
    · have h0 : notes ≠ [] := fun e => h (by rw [e]; rfl)
      rw [ListNotes_ok formatDate sortSlice notes showAll h0]

set_option maxRecDepth 100000 in
/-- Witness of C13: eleven notes without `--all`: ten note lines and the footer. -/
theorem C13_list_pagination_witness :
    (insertionSortNotes afterModTime elevenNotes).length = elevenNotes.length ∧
    (("\nShowing 10 of ".toList ++ Nat.toDigits 10 elevenNotes.length
        ++ " notes. Use --all to show all.\n".toList)
        ∈ (ListNotes (fun _ => []) insertionSortNotes (.ok elevenNotes) false).out ↔
      false = false ∧ elevenNotes.length > 10) ∧
    (ListNotes (fun _ => []) insertionSortNotes (.ok elevenNotes) false).out =
      List.replicate 10 "2026-02-13  T  (Inbox)\n".toList
        ++ ["\nShowing 10 of 11 notes. Use --all to show all.\n".toList] ∧
    (ListNotes (fun _ => []) insertionSortNotes (.ok elevenNotes) false).outcome
      = .returned none :=
  ⟨by decide,
   (C13_list_pagination (fun _ => []) insertionSortNotes elevenNotes false (by decide)).2.2.1,
   by decide,
   (C13_list_pagination (fun _ => []) insertionSortNotes elevenNotes false (by decide)).2.2.2⟩

/-- C14: when `sort.Slice` has put the notes in order, the note lines `List` writes are those of
notes in non-increasing order of modification time; these notes together with the omitted ones
are the scanned notes; no omitted note is more recent than a printed one; ten are printed when
the output is cut and none is omitted otherwise. -/
theorem C14_list_order (formatDate : Int → Str)
    (sortSlice : (Note → Note → Bool) → List Note → List Note) (notes : List Note)
    (showAll : Bool) (h0 : notes ≠ [])
    (hperm : (sortSlice afterModTime notes).Perm notes)
    (hsorted : (sortSlice afterModTime notes).Pairwise (fun a b => afterModTime b a = false)) :
    ∃ printed omitted : List Note,
      (ListNotes formatDate sortSlice (.ok notes) showAll).out =
        printed.map (listLine formatDate)
          ++ (if showAll = false ∧ notes.length > 10 then [listFooter notes.length] else []) ∧
      (printed ++ omitted).Perm notes ∧
      printed.Pairwise (fun a b => a.ModTime ≥ b.ModTime) ∧
      (∀ p ∈ printed, ∀ o ∈ omitted, p.ModTime ≥ o.ModTime) ∧
      (showAll = false ∧ notes.length > 10 → printed.length = 10) ∧
      (¬ (showAll = false ∧ notes.length > 10) → omitted = []) := by
  have hlen := hperm.length_eq
  have hs : (sortSlice afterModTime notes).Pairwise (fun a b => a.ModTime ≥ b.ModTime) := by
    refine hsorted.imp ?_
    intro a b h
    simpa [afterModTime] using h
  rw [ListNotes_ok formatDate sortSlice notes showAll h0, hlen]
  refine ⟨_, (sortSlice afterModTime notes).drop
    (if showAll = true ∨ notes.length ≤ 10 then notes.length else 10), rfl, ?_, ?_, ?_, ?_, ?_⟩
  · rw [List.take_append_drop]
    exact hperm
  · exact hs.sublist (List.take_sublist _ _)
  · intro p hp o ho
    have := hs
    rw [← List.take_append_drop (if showAll = true ∨ notes.length ≤ 10 then notes.length else 10)
      (sortSlice afterModTime notes)] at this
    exact (List.pairwise_append.1 this).2.2 p hp o ho
  · rintro ⟨hf, hn⟩
    rw [List.length_take, hlen]
    have : ¬ (showAll = true ∨ notes.length ≤ 10) := by
      rintro (h | h)
      · rw [hf] at h; exact Bool.false_ne_true h
      · omega
    rw [if_neg this]
    omega
  · intro h
    have : showAll = true ∨ notes.length ≤ 10 := by
      by_cases hf : showAll = true
      · exact Or.inl hf
      · right
        have hf' : showAll = false := by simpa using hf
        by_contra hn
        exact h ⟨hf', by omega⟩
    rw [if_pos this, ← hlen]
    exact List.drop_length _

set_option maxRecDepth 100000 in
/-- Witness of C14: eleven notes without `--all`. -/
theorem C14_list_order_witness :
    (insertionSortNotes afterModTime elevenNotes).Perm elevenNotes ∧
    ∃ printed omitted : List Note,
      (ListNotes (fun _ => []) insertionSortNotes (.ok elevenNotes) false).out =
        printed.map (listLine (fun _ => []))
          ++ (if false = false ∧ elevenNotes.length > 10 then [listFooter elevenNotes.length]
              else []) ∧
      (printed ++ omitted).Perm elevenNotes ∧
      printed.Pairwise (fun a b => a.ModTime ≥ b.ModTime) ∧
      (∀ p ∈ printed, ∀ o ∈ omitted, p.ModTime ≥ o.ModTime) ∧
      (false = false ∧ elevenNotes.length > 10 → printed.length = 10) ∧
      (¬ (false = false ∧ elevenNotes.length > 10) → omitted = []) :=
  ⟨by decide,
   C14_list_order (fun _ => []) insertionSortNotes elevenNotes false (by decide) (by decide)
    (by decide)⟩

set_option maxRecDepth 100000 in
/-- C15, the counterexample: a template that contains "## Notes\n\n## References\n" and
mentions "## Notes" earlier in its text: the body goes after the first occurrence, and the
result does not contain "## Notes\n\nhello\n\n## References". -/
theorem C15_addBody_counterexample :
    "## Notes\n\n## References\n".toList <:+: proseTemplate ∧
    addBodyToContent proseTemplate "hello".toList
      = "# T\n\nWrite under ## Noteshello\n\n.\n\n## Notes\n\n## References\n".toList ∧
    ¬ ("## Notes\n\nhello\n\n## References".toList
        <:+: addBodyToContent proseTemplate "hello".toList) := by
  decide

/-- C15, amended: `addBodyToContent` puts the body and "\n\n" after the first occurrence of
"## Notes" and the line feeds that follow it, and leaves the text before and after unchanged;
without "## Notes" the result is the content, "\n", the body, "\n". When the first occurrence
of "## Notes" in a template is the one of "## Notes\n\n## References\n", the body "hello"
gives a text that contains "## Notes\n\nhello\n\n## References". -/
theorem C15_addBody (content body : Str) :
    (¬ "## Notes".toList <:+: content →
      addBodyToContent content body = content ++ "\n".toList ++ body ++ "\n".toList) ∧
    (∀ pre nl rest : Str, content = pre ++ "## Notes".toList ++ nl ++ rest →
      ¬ "## Notes".toList <:+: pre ++ "## Note".toList → (∀ c ∈ nl, c = '\n') →
      rest.head? ≠ some '\n' →
      addBodyToContent content body
        = pre ++ "## Notes".toList ++ nl ++ body ++ "\n\n".toList ++ rest) ∧
    (∀ pre post : Str, content = pre ++ "## Notes\n\n## References\n".toList ++ post →
      ¬ "## Notes".toList <:+: pre ++ "## Note".toList →
      addBodyToContent content "hello".toList
        = pre ++ "## Notes\n\nhello\n\n## References\n".toList ++ post ∧
      "## Notes\n\nhello\n\n## References".toList
        <:+: addBodyToContent content "hello".toList) := by
  refine ⟨addBodyToContent_absent content body, ?_, ?_⟩
  · intro pre nl rest hc hfirst hnl hrest
    rw [hc]
    exact addBodyToContent_present pre nl rest body hfirst hnl hrest
  · intro pre post hc hfirst
    have hhead : ("## References\n".toList ++ post).head? ≠ some '\n' := by
      intro h0
      exact absurd (Option.some.inj h0) (by decide)
    have h := addBodyToContent_present pre "\n\n".toList ("## References\n".toList ++ post)
      "hello".toList hfirst (by decide) hhead
    have e1 : pre ++ "## Notes".toList ++ "\n\n".toList ++ ("## References\n".toList ++ post)
        = content := by
      rw [hc]
      simp
    have e2 : pre ++ "## Notes".toList ++ "\n\n".toList ++ "hello".toList ++ "\n\n".toList
          ++ ("## References\n".toList ++ post)
        = pre ++ "## Notes\n\nhello\n\n## References\n".toList ++ post := by
      simp
    rw [e1, e2] at h
    refine ⟨h, ?_⟩
    rw [h]
    refine ⟨pre, "\n".toList ++ post, ?_⟩
    simp

set_option maxRecDepth 100000 in
/-- Witness of C15: the template basic.md of the test fixture and the body "hello". -/
theorem C15_addBody_witness :
    ¬ "## Notes".toList <:+:
      ("---\ntitle: \"{{title}}\"\ndate: {{date}}\ntags: []\nstatus: draft\naliases: []\n---\n\n"
        ++ "# {{title}}\n\n").toList ++ "## Note".toList ∧
    addBodyToContent basicTemplate "hello".toList
      = ("---\ntitle: \"{{title}}\"\ndate: {{date}}\ntags: []\nstatus: draft\naliases: []\n---\n\n"
        ++ "# {{title}}\n\n").toList ++ "## Notes\n\nhello\n\n## References\n".toList ++ [] :=
  ⟨by decide,
   ((C15_addBody basicTemplate "hello".toList).2.2
      ("---\ntitle: \"{{title}}\"\ndate: {{date}}\ntags: []\nstatus: draft\naliases: []\n---\n\n"
        ++ "# {{title}}\n\n").toList [] (by decide) (by decide)).1⟩

/-- C16, the counterexample: two line feeds and a text follow the heading; the bullet line is
put after both line feeds, neither right after the heading text nor right after the heading
line. -/
theorem C16_addURLs_counterexample :
    addURLsToContent "## References\n\nfoo".toList ["u".toList]
      = "## References\n\n- u\n\nfoo".toList ∧
    addURLsToContent "## References\n\nfoo".toList ["u".toList]
      ≠ "## References".toList ++ "- u\n".toList ++ "\n".toList ++ "\n\nfoo".toList ∧
    addURLsToContent "## References\n\nfoo".toList ["u".toList]
      ≠ "## References\n".toList ++ "- u\n".toList ++ "\n".toList ++ "\nfoo".toList := by
  decide

/-- C16, amended: `addURLsToContent` puts one line "- url" for each URL, in order, and then an
empty line after the first occurrence of "## References" and the line feeds that follow it, and
leaves the text before and after unchanged; without "## References" the result is the content,
"\n## References\n\n" and the bullet lines. -/
theorem C16_addURLs (content : Str) (urls : List Str) :
    urlLines urls = (urls.map (fun u => "- ".toList ++ u ++ "\n".toList)).flatten ∧
    (¬ "## References".toList <:+: content →
      addURLsToContent content urls
        = content ++ "\n## References\n\n".toList ++ urlLines urls) ∧
    (∀ pre nl rest : Str, content = pre ++ "## References".toList ++ nl ++ rest →
      ¬ "## References".toList <:+: pre ++ "## Reference".toList → (∀ c ∈ nl, c = '\n') →
      rest.head? ≠ some '\n' →
      addURLsToContent content urls
        = pre ++ "## References".toList ++ nl ++ urlLines urls ++ "\n".toList ++ rest) := by
  refine ⟨urlLines_eq urls, addURLsToContent_absent content urls, ?_⟩
  intro pre nl rest hc hfirst hnl hrest
  rw [hc]
  exact addURLsToContent_present pre nl rest urls hfirst hnl hrest

/-- Witness of C16: a text without the heading. -/
theorem C16_addURLs_witness :
    ¬ "## References".toList <:+: "# T\n".toList ∧
    addURLsToContent "# T\n".toList ["u".toList]
      = "# T\n".toList ++ "\n## References\n\n".toList ++ urlLines ["u".toList] :=
  ⟨by decide, (C16_addURLs "# T\n".toList ["u".toList]).2.1 (by decide)⟩

set_option maxRecDepth 100000 in
/-- C17, the failing input: the template basic.md of the test fixture, which has a header
block, the title "## Notes" and the body "hello": the body is put into the title line of the
fresh header, and the result does not begin with the encoded header. -/
theorem C17_header_failing_input :
    findFmEnd (Split basicTemplate '\n') 0 false > 0 ∧
    buildNoteContent (fun _ => true) (some basicTemplate) "basic.md".toList "## Notes".toList
        "2026-02-13".toList [] "hello".toList []
      = ("---\ntitle: \"## Noteshello\n\n\"\ndate: 2026-02-13\ntags: []\nstatus: draft\n"
          ++ "aliases: []\n---\n\n# ## Notes\n\n## Notes\n\n## References\n").toList ∧
    ¬ (FormatFrontmatter (fun _ => true)
          ⟨"## Notes".toList, "2026-02-13".toList, [], "draft".toList, []⟩
        <+: buildNoteContent (fun _ => true) (some basicTemplate) "basic.md".toList
          "## Notes".toList "2026-02-13".toList [] "hello".toList []) := by
  decide

/-- C18, the counterexample: with a template project.md that has no header block, the
document `Create` writes for the folder Projects is the filled template and nothing else: it
has no header, it decodes to the zero Frontmatter, and neither "project" nor "active" occurs
in it. -/
theorem C18_project_creation_counterexample :
    Create id (fun _ => true) bareTemplates "2026-02-13".toList projectAnswers =
      some ⟨"Projects".toList, "2026-02-13-my-project.md".toList,
        "# My Project\n\n## Goal\n".toList⟩ ∧
    ParseFrontmatterFromBytes "# My Project\n\n## Goal\n".toList =
      ⟨Frontmatter.zero, "# My Project\n\n## Goal\n".toList, none⟩ ∧
    ¬ IsSubstring "project".toList "# My Project\n\n## Goal\n".toList ∧
    ¬ IsSubstring "active".toList "# My Project\n\n## Goal\n".toList := by
  decide

/-- C18, amended: in the folder Projects the tags that are written are those of the input
followed by "project" when it is not among them, and unchanged when it is, and the status is
"active"; in every other folder the tags are those of the input and the status is "draft".
For a date of digits and hyphens, when no template is read or the filled template has a header
block, the document begins with "---" and the title line and holds, in one piece, the lines of
the date, of these tags, of this status, of the empty alias list and the closing "---"; and it
decodes to these tags and this status when the body is one line and either the folder is not
Resources or no template is read. A filled template without a header block is returned with
the body and the URLs put in and no header written. -/
theorem C18_project_creation (tbl : Char → Char) (prt : Char → Bool)
    (ReadTemplate : Str → Option Str) (today : Str) (a : Answers) (folder : Str)
    (hf : Folders.get? a.folderIdx = some folder)
    (hd : ∀ x ∈ today, isDateChar x = true) :
    let tags := NormalizeTags tbl a.tagsInput
    let written := if folder = "Projects".toList then
        (if "project".toList ∈ tags then tags else tags ++ ["project".toList])
      else tags
    let status := if folder = "Projects".toList then "active".toList else "draft".toList
    let name := if folder = "Projects".toList then "project.md".toList else "basic.md".toList
    let urls := if folder = "Resources".toList then
        (if a.urlInput ≠ [] then urlLoop (Split a.urlInput ',') else [])
      else []
    (folder = "Projects".toList → "project".toList ∈ written ∧ tags <+: written ∧
      ("project".toList ∈ tags → written = tags) ∧
      ("project".toList ∉ tags → written = tags ++ ["project".toList])) ∧
    (folder ≠ "Projects".toList → written = tags) ∧
    ∃ c, Create tbl prt ReadTemplate today a = some c ∧
      ((∀ tmpl, ReadTemplate name = some tmpl →
          findFmEnd (Split (ReplaceAll (ReplaceAll tmpl "{{title}}".toList a.title)
            "{{date}}".toList today) '\n') 0 false > 0) →
        "---\ntitle: ".toList <+: c.content ∧
        ("\ndate: ".toList ++ today ++ "\ntags: [".toList ++ Join written ", ".toList
          ++ "]\nstatus: ".toList ++ status ++ "\naliases: []\n---\n".toList) <:+: c.content ∧
        ((folder ≠ "Resources".toList ∨ ReadTemplate name = none) → '\n' ∉ a.body →
          (ParseFrontmatterFromBytes c.content).fm.Tags = written ∧
          (ParseFrontmatterFromBytes c.content).fm.Status = status)) ∧
      (∀ tmpl, ReadTemplate name = some tmpl →
        ¬ findFmEnd (Split (ReplaceAll (ReplaceAll tmpl "{{title}}".toList a.title)
          "{{date}}".toList today) '\n') 0 false > 0 →
        c.content =
          (fun c => if urls.length > 0 then addURLsToContent c urls else c)
            ((fun c => if a.body ≠ [] then addBodyToContent c a.body else c)
              (ReplaceAll (ReplaceAll tmpl "{{title}}".toList a.title)
                "{{date}}".toList today))) := by
  intro tags written status name urls
  have hw : ∀ t ∈ written, SlugWord t := by
    intro t ht
    have h0 := NormalizeTags_slugWord tbl a.tagsInput
    by_cases hp : folder = "Projects".toList
    · by_cases hm : "project".toList ∈ tags
      · have e : written = tags := by simp only [written, hp, hm, if_true]
        rw [e] at ht
        exact h0 t ht
      · have e : written = tags ++ ["project".toList] := by
          simp only [written, hp, hm, if_true, if_false]
        rw [e] at ht
        rcases List.mem_append.1 ht with ht | ht
        · exact h0 t ht
        · rw [List.mem_singleton.1 ht]
          decide
    · have e : written = tags := by simp only [written, hp, if_false]
      rw [e] at ht
      exact h0 t ht
  have hst : (if name = "project.md".toList then "active".toList else "draft".toList)
      = status := by
    by_cases hp : folder = "Projects".toList
    · simp only [name, status, hp, if_true]
    · simp only [name, status, hp, if_false]
      rfl
  refine ⟨?_, ?_, _, Create_eq tbl prt ReadTemplate today a folder hf, ?_, ?_⟩
  · intro hp
    have e : written = if "project".toList ∈ tags then tags else tags ++ ["project".toList] := by
      simp only [written, hp, if_true]
    rw [e]
    exact written_tags tags
  · intro hp
    simp only [written, hp, if_false]
  · intro hblock
    simp only
    have hb2 : ∀ t, ReadTemplate name = some t → findFmEnd (Split (ReplaceAll
        (ReplaceAll t "{{title}}".toList a.title) "{{date}}".toList today) '\n') 0 false > 0 :=
      hblock
    obtain ⟨Y, B, hk, _⟩ := build_kept prt (ReadTemplate name) name a.title today written a.body
      urls hd hw hb2
    rw [hst] at hk
    obtain ⟨k1, k2⟩ := kept_infix _ _ _ _ _ hk
    refine ⟨k1, k2, ?_⟩
    intro hor hbn
    have hu : urls = [] ∨ ReadTemplate name = none := by
      rcases hor with h | h
      · left
        simp only [urls, h, if_false]
      · exact Or.inr h
    have hdec := build_decoded prt (ReadTemplate name) name a.title today written a.body urls
      hd hw hb2 hu hbn
    rw [hst] at hdec
    exact hdec
  · intro tmpl hr hno
    simp only
    rw [show (if folder = "Projects".toList then "project.md".toList else "basic.md".toList)
      = name from rfl, hr]
    exact buildNoteContent_no_header prt tmpl name a.title today _ a.body urls hno

/-- Witness of C18: the answers of `TestCreateProject` with the templates of the fixture. -/
theorem C18_project_creation_witness :
    Folders.get? projectAnswers.folderIdx = some "Projects".toList ∧
    (∀ x ∈ "2026-02-13".toList, isDateChar x = true) ∧
    ∃ c, Create id (fun _ => true) fixtureTemplates "2026-02-13".toList projectAnswers
        = some c ∧
      "---\ntitle: ".toList <+: c.content ∧
      "\ndate: 2026-02-13\ntags: [project]\nstatus: active\naliases: []\n---\n".toList
        <:+: c.content ∧
      (ParseFrontmatterFromBytes c.content).fm.Tags = ["project".toList] ∧
      (ParseFrontmatterFromBytes c.content).fm.Status = "active".toList := by
  refine ⟨by decide, by decide, ?_⟩
  obtain ⟨_, _, c, hc, hS, _⟩ := C18_project_creation id (fun _ => true) fixtureTemplates
    "2026-02-13".toList projectAnswers "Projects".toList (by decide) (by decide)
  have hblock : ∀ tmpl, fixtureTemplates "project.md".toList = some tmpl →
      findFmEnd (Split (ReplaceAll (ReplaceAll tmpl "{{title}}".toList projectAnswers.title)
        "{{date}}".toList "2026-02-13".toList) '\n') 0 false > 0 := by
    intro tmpl h
    have e : tmpl = projectTemplate := (Option.some.inj h).symm
    rw [e]
    decide
  obtain ⟨s1, s2, s3⟩ := hS hblock
  exact ⟨c, hc, s1, s2, s3 (Or.inl (by decide)) (by decide)⟩

/-- C19: `buildFallbackContent` gives the encoded Frontmatter, the heading "# title" and then,
for a project, the sections Goal (with the body when there is one), Tasks (one "- [ ]"), Notes,
Related and Log (the entry "- date — Project created."); otherwise the section Notes (with the
body when there is one) and the section References with one line "- url" for each URL. -/
theorem C19_fallback (prt : Char → Bool) (title date : Str) (tags : List Str) (body : Str)
    (urls : List Str) :
    buildFallbackContent prt title date tags body urls true =
      FormatFrontmatter prt ⟨title, date, tags, "active".toList, []⟩
        ++ ("\n# ".toList ++ title ++ "\n".toList)
        ++ "\n## Goal\n\n".toList
        ++ (if body ≠ [] then body ++ "\n".toList else [])
        ++ "\n## Tasks\n\n- [ ]\n".toList
        ++ "\n## Notes\n\n".toList
        ++ "\n## Related\n\n".toList
        ++ "\n## Log\n\n".toList
        ++ ("- ".toList ++ date ++ " — Project created.\n".toList) ∧
    buildFallbackContent prt title date tags body urls false =
      FormatFrontmatter prt ⟨title, date, tags, "draft".toList, []⟩
        ++ ("\n# ".toList ++ title ++ "\n".toList)
        ++ "\n## Notes\n\n".toList
        ++ (if body ≠ [] then body ++ "\n".toList else [])
        ++ "\n## References\n".toList
        ++ (if urls ≠ [] then "\n".toList ++ urlLines urls else []) ∧
    urlLines urls = (urls.map (fun u => "- ".toList ++ u ++ "\n".toList)).flatten :=
  ⟨buildFallbackContent_project prt title date tags body urls,
   buildFallbackContent_basic prt title date tags body urls, urlLines_eq urls⟩

/-- C20: the file name `Create` chooses is the date, a hyphen, the slug of the title and ".md"
in the folders Inbox and Projects, and the slug of the title and ".md" in the folders Areas and
Resources. -/
theorem C20_filename (tbl : Char → Char) (prt : Char → Bool) (ReadTemplate : Str → Option Str)
    (today : Str) (a : Answers) (folder : Str) (hf : Folders.get? a.folderIdx = some folder) :
    ∃ c, Create tbl prt ReadTemplate today a = some c ∧ c.folder = folder ∧
      (folder = "Inbox".toList ∨ folder = "Projects".toList →
        c.filename = today ++ "-".toList ++ Slugify tbl a.title ++ ".md".toList) ∧
      (folder = "Areas".toList ∨ folder = "Resources".toList →
        c.filename = Slugify tbl a.title ++ ".md".toList) := by
  refine ⟨_, Create_eq tbl prt ReadTemplate today a folder hf, rfl, ?_, ?_⟩
  · intro h
    simp only
    rw [if_pos h]
  · intro h
    simp only
    rw [if_neg]
    rintro (h1 | h1) <;> rcases h with h | h <;> rw [h] at h1 <;> exact absurd h1 (by decide)

/-- Witness of C20: the answers of `TestCreateProject`. -/
theorem C20_filename_witness :
    Folders.get? projectAnswers.folderIdx = some "Projects".toList ∧
    ∃ c, Create id (fun _ => true) fixtureTemplates "2026-02-13".toList projectAnswers = some c ∧
      c.folder = "Projects".toList ∧
      ("Projects".toList = "Inbox".toList ∨ "Projects".toList = "Projects".toList →
        c.filename = "2026-02-13".toList ++ "-".toList ++ Slugify id projectAnswers.title
          ++ ".md".toList) ∧
      ("Projects".toList = "Areas".toList ∨ "Projects".toList = "Resources".toList →
        c.filename = Slugify id projectAnswers.title ++ ".md".toList) :=
  ⟨by decide,
   C20_filename id (fun _ => true) fixtureTemplates "2026-02-13".toList projectAnswers
    "Projects".toList (by decide)⟩

/-- C21: a header line is split at its first ":" and its trimmed key compared with "title",
"date", "tags", "status" and "aliases"; a line with another key or without ":" leaves the
Frontmatter as it was. So for a header that opens with a line `h`, holds the lines `pre` and
`post`, and closes with the line `e`, a line `l` with another key or no ":" that does not trim
to "---", put between `pre` and `post`, changes nothing of what is decoded: the Frontmatter is
the one the lines `pre` and `post` give and the body is the text after the closing line. A
field no line of the header has the key of keeps its zero value. -/
theorem C21_header_keys (h : Str) (pre post : List Str) (e : Str) (rest : List Str) (l : Str)
    (hnl : ∀ x ∈ h :: ((pre ++ l :: post) ++ e :: rest), '\n' ∉ x)
    (hh : TrimSpace h = "---".toList) (he : TrimSpace e = "---".toList)
    (hhs : ∀ x ∈ pre ++ post, TrimSpace x ≠ "---".toList)
    (hl1 : TrimSpace l ≠ "---".toList)
    (hl2 : ':' ∉ l ∨ (parseYAMLLine l).1 ∉ recognizedKeys) :
    ParseFrontmatterFromBytes (Join (h :: ((pre ++ l :: post) ++ e :: rest)) ['\n']) =
      ParseFrontmatterFromBytes (Join (h :: ((pre ++ post) ++ e :: rest)) ['\n']) ∧
    ParseFrontmatterFromBytes (Join (h :: ((pre ++ post) ++ e :: rest)) ['\n']) =
      ⟨(pre ++ post).foldl applyHeaderLine Frontmatter.zero, Join rest ['\n'], none⟩ ∧
    (∀ f, applyHeaderLine f l = f) ∧
    (∀ x : Str, ':' ∉ x → parseYAMLLine x = ([], [], false)) ∧
    (∀ x : Str, ':' ∈ x → parseYAMLLine x = (TrimSpace (x.takeWhile (fun d => d != ':')),
      TrimSpace ((x.dropWhile (fun d => d != ':')).drop 1), true)) ∧
    ((∀ x ∈ pre ++ post, (parseYAMLLine x).1 ≠ "title".toList) →
      ((pre ++ post).foldl applyHeaderLine Frontmatter.zero).Title = []) ∧
    ((∀ x ∈ pre ++ post, (parseYAMLLine x).1 ≠ "date".toList) →
      ((pre ++ post).foldl applyHeaderLine Frontmatter.zero).Date = []) ∧
    ((∀ x ∈ pre ++ post, (parseYAMLLine x).1 ≠ "tags".toList) →
      ((pre ++ post).foldl applyHeaderLine Frontmatter.zero).Tags = []) ∧
    ((∀ x ∈ pre ++ post, (parseYAMLLine x).1 ≠ "status".toList) →
      ((pre ++ post).foldl applyHeaderLine Frontmatter.zero).Status = []) ∧
    ((∀ x ∈ pre ++ post, (parseYAMLLine x).1 ≠ "aliases".toList) →
      ((pre ++ post).foldl applyHeaderLine Frontmatter.zero).Aliases = []) := by
  have hnl2 : ∀ x ∈ h :: ((pre ++ post) ++ e :: rest), '\n' ∉ x := by
    intro x hx
    apply hnl x
    simp only [List.mem_cons, List.mem_append] at hx ⊢
    tauto
  have hhs1 : ∀ x ∈ pre ++ l :: post, TrimSpace x ≠ "---".toList := by
    intro x hx
    simp only [List.mem_cons, List.mem_append] at hx
    rcases hx with hx | hx | hx
    · exact hhs x (List.mem_append_left _ hx)
    · rw [hx]; exact hl1
    · exact hhs x (List.mem_append_right _ hx)
  have hfold : (pre ++ l :: post).foldl applyHeaderLine Frontmatter.zero
      = (pre ++ post).foldl applyHeaderLine Frontmatter.zero := by
    rw [List.foldl_append, List.foldl_cons, applyHeaderLine_ignored _ l hl2, ← List.foldl_append]
  obtain ⟨z1, z2, z3, z4, z5⟩ := fold_fields (pre ++ post) Frontmatter.zero
  refine ⟨?_, parse_lines h (pre ++ post) e rest hnl2 hh he hhs,
    fun f => applyHeaderLine_ignored f l hl2, parseYAMLLine_no_colon, parseYAMLLine_colon,
    z1, z2, z3, z4, z5⟩
  rw [parse_lines h (pre ++ l :: post) e rest hnl hh he hhs1,
    parse_lines h (pre ++ post) e rest hnl2 hh he hhs, hfold]

/-- Witness of C21: the line "Title: B" put between a title line and a date line. -/
theorem C21_header_keys_witness :
    ParseFrontmatterFromBytes
        "---\ntitle: A\nTitle: B\ndate: 2026-02-13\n---\nbody".toList =
      ParseFrontmatterFromBytes "---\ntitle: A\ndate: 2026-02-13\n---\nbody".toList ∧
    ParseFrontmatterFromBytes "---\ntitle: A\ndate: 2026-02-13\n---\nbody".toList =
      ⟨⟨"A".toList, "2026-02-13".toList, [], [], []⟩, "body".toList, none⟩ :=
  have w := C21_header_keys "---".toList ["title: A".toList] ["date: 2026-02-13".toList]
    "---".toList ["body".toList] "Title: B".toList (by decide) (by decide) (by decide)
    (by decide) (by decide) (by decide)
  ⟨w.1, w.2.1⟩

/-- C22: what `parseYAMLList` decodes from a value is the list of the non-empty trimmed
elements, in order, of the value trimmed, without one leading "[" and one trailing "]" when
present, split on ","; this is what a tags line and an aliases line store; brackets around
nothing or around white space give the empty list, and "[go, cli]" gives go and cli. -/
theorem C22_inline_list (v : Str) :
    parseYAMLList v = inlineListSpec v ∧
    (∀ fm, (applyHeaderLine fm ("tags: ".toList ++ v)).Tags = inlineListSpec v ∧
      (applyHeaderLine fm ("aliases: ".toList ++ v)).Aliases = inlineListSpec v) ∧
    parseYAMLList "[]".toList = [] ∧
    (∀ inner : Str, (∀ c ∈ inner, isSpace c = true) →
      parseYAMLList ('[' :: (inner ++ [']'])) = []) ∧
    parseYAMLList "[go, cli]".toList = ["go".toList, "cli".toList] := by
  have hv : parseYAMLList (TrimSpace v) = inlineListSpec v := by
    rw [parseYAMLList_eq_spec]
    unfold inlineListSpec
    rw [TrimSpace_idem]
  refine ⟨parseYAMLList_eq_spec v, fun fm => ⟨?_, ?_⟩, by decide, parseYAMLList_blank,
    by decide⟩
  · rw [applyHeaderLine_tags, hv]
  · rw [applyHeaderLine_aliases, hv]

/-- C23: the line `List` writes for a note is the date, two spaces, the title, two spaces, the
folder between parentheses, the tags and a line end: the date is the one of the Frontmatter, or
the modification time as YYYY-MM-DD when that is empty; the title is the one of the
Frontmatter, or "(untitled)" when that is empty; the tags are two spaces and the tags between
brackets, separated by ", ", or nothing when there is no tag. Every text `List` writes is such
a line of a note it found, the footer, or the message that there is no note. -/
theorem C23_list_line (formatDate : Int → Str) (note : Note) :
    listLine formatDate note =
      (if note.Frontmatter.Date ≠ [] then note.Frontmatter.Date else formatDate note.ModTime)
        ++ "  ".toList
        ++ (if note.Frontmatter.Title ≠ [] then note.Frontmatter.Title else "(untitled)".toList)
        ++ "  (".toList ++ note.Folder ++ ")".toList
        ++ (if note.Frontmatter.Tags ≠ []
            then "  [".toList ++ Join note.Frontmatter.Tags ", ".toList ++ "]".toList else [])
        ++ "\n".toList ∧
    ∀ (sortSlice : (Note → Note → Bool) → List Note → List Note) (notes : List Note)
      (showAll : Bool),
      ∀ line ∈ (ListNotes formatDate sortSlice (.ok notes) showAll).out,
        (∃ n ∈ sortSlice afterModTime notes, line = listLine formatDate n) ∨
        line = listFooter (sortSlice afterModTime notes).length ∨
        line = "No notes found.\n".toList := by
  constructor
  · unfold listLine
    simp only
    by_cases h1 : note.Frontmatter.Date = [] <;> by_cases h2 : note.Frontmatter.Title = [] <;>
      by_cases h3 : note.Frontmatter.Tags = [] <;> simp [h1, h2, h3, List.length_pos]
  · intro sortSlice notes showAll line hl
    by_cases h0 : notes = []
    · subst h0
      right; right
      simpa [ListNotes] using hl
    · rw [ListNotes_ok formatDate sortSlice notes showAll h0] at hl
      simp only [List.mem_append, List.mem_map] at hl
      rcases hl with ⟨n, hn, rfl⟩ | hl
      · exact Or.inl ⟨n, List.mem_of_mem_take hn, rfl⟩
      · right; left
        split_ifs at hl
        · simpa using hl
        · simp at hl

/-- C24: a header line "title: V" stores V trimmed, without its first and its last character
when the trimmed text has at least two characters and both are double quotes, and as it is
otherwise; the line is split at its first ":", so the colons of V stay. A lone double quote
and a double quote at one end only are kept, and of two pairs only one is removed. -/
theorem C24_title_value (V : Str) (hV : '\n' ∉ V) :
    (∀ fm, applyHeaderLine fm ("title: ".toList ++ V) =
      { fm with Title := unquoteSpec (TrimSpace V) }) ∧
    ParseFrontmatterFromBytes ("---\ntitle: ".toList ++ V ++ "\n---\n".toList) =
      ⟨⟨unquoteSpec (TrimSpace V), [], [], [], []⟩, [], none⟩ ∧
    (∀ t, unquote t = unquoteSpec t) ∧
    unquoteSpec "\"".toList = "\"".toList ∧
    unquoteSpec "\"a".toList = "\"a".toList ∧
    unquoteSpec "a\"".toList = "a\"".toList ∧
    unquoteSpec "\"\"a\"\"".toList = "\"a\"".toList := by
  have h1 : ∀ fm, applyHeaderLine fm ("title: ".toList ++ V) =
      { fm with Title := unquoteSpec (TrimSpace V) } := by
    intro fm
    rw [applyHeaderLine_title, unquote_eq_spec]
  refine ⟨h1, ?_, unquote_eq_spec, by decide, by decide, by decide, by decide⟩
  have hj : "---\ntitle: ".toList ++ V ++ "\n---\n".toList
      = Join ("---".toList :: (["title: ".toList ++ V] ++ "---".toList :: [[]])) ['\n'] := by
    simp [Join, List.intercalate]
  rw [hj, parse_lines "---".toList ["title: ".toList ++ V] "---".toList [[]] ?_ (by decide)
    (by decide) ?_]
  · simp only [List.foldl_cons, List.foldl_nil]
    rw [h1]
    rfl
  · intro x hx
    simp only [List.mem_cons, List.mem_append, List.mem_singleton, List.not_mem_nil,
      or_false] at hx
    rcases hx with rfl | rfl | rfl | rfl
    · decide
    · intro hm
      rcases List.mem_append.1 hm with hm | hm
      · exact absurd hm (by decide)
      · exact hV hm
    · decide
    · simp
  · intro x hx
    rw [List.mem_singleton.1 hx]
    exact TrimSpace_ne_sep 't' _ (by decide) (by decide)

/-- Witness of C24: the title "a: b" between double quotes. -/
theorem C24_title_value_witness :
    '\n' ∉ "\"a: b\"".toList ∧
    ParseFrontmatterFromBytes "---\ntitle: \"a: b\"\n---\n".toList =
      ⟨⟨"a: b".toList, [], [], [], []⟩, [], none⟩ :=
  ⟨by decide, (C24_title_value "\"a: b\"".toList (by decide)).2.1⟩

/-- C25: for a default index within the options, `AskMenu` returns an index `r` with
`0 ≤ r < len(options)` for every answer: the default for the empty answer, for an answer
`Sscanf` reads no integer from, and for a number below 1 or above the number of options, and
the number less one otherwise. With the four folders and the default 0, as `Create` calls it,
the index it returns is one `Create` finds a folder at. -/
theorem C25_askMenu (sscanf : Str → Option Int) (prompt : Str) (options : List Str)
    (defaultIdx : Int) (answer : Str) (h0 : 0 ≤ defaultIdx) (h1 : defaultIdx < options.length) :
    (∃ r, (AskMenu sscanf prompt options defaultIdx answer).result = some r ∧
      0 ≤ r ∧ r < options.length ∧
      (∀ choice, answer ≠ [] → sscanf answer = some choice → 1 ≤ choice →
        choice ≤ options.length → r = choice - 1) ∧
      (answer = [] → r = defaultIdx) ∧
      (sscanf answer = none → r = defaultIdx) ∧
      (∀ choice, sscanf answer = some choice → choice < 1 ∨ choice > options.length →
        r = defaultIdx)) ∧
    ∀ (tbl : Char → Char) (prt : Char → Bool) (ReadTemplate : Str → Option Str)
      (today title tagsInput body urlInput : Str),
      ∃ idx : Nat, (AskMenu sscanf "Folder:".toList Folders 0 answer).result = some (idx : Int) ∧
        idx < Folders.length ∧
        (Create tbl prt ReadTemplate today ⟨title, idx, tagsInput, body, urlInput⟩).isSome
          = true := by
  have key : ∀ (opts : List Str) (d : Int), 0 ≤ d → d < opts.length →
      ∃ r, (AskMenu sscanf prompt opts d answer).result = some r ∧
      0 ≤ r ∧ r < opts.length ∧
      (∀ choice, answer ≠ [] → sscanf answer = some choice → 1 ≤ choice →
        choice ≤ opts.length → r = choice - 1) ∧
      (answer = [] → r = d) ∧
      (sscanf answer = none → r = d) ∧
      (∀ choice, sscanf answer = some choice → choice < 1 ∨ choice > opts.length →
        r = d) := by
    intro opts d hd0 hd1
    refine ⟨_, AskMenu_result sscanf prompt opts d answer hd0 hd1, ?_, ?_, ?_, ?_, ?_, ?_⟩
    · split_ifs
      · exact hd0
      · split
        · exact hd0
        · split_ifs <;> omega
    · split_ifs
      · exact hd1
      · split
        · exact hd1
        · split_ifs <;> omega
    · intro choice ha hs hc1 hc2
      rw [if_neg ha, hs]
      simp only
      rw [if_neg (by omega)]
    · intro ha
      rw [if_pos ha]
    · intro hs
      rw [hs]
      split_ifs <;> rfl
    · intro choice hs hc
      rw [hs]
      simp only
      rw [if_pos hc]
      split_ifs <;> rfl
  refine ⟨key options defaultIdx h0 h1, ?_⟩
  intro tbl prt ReadTemplate today title tagsInput body urlInput
  have hr := AskMenu_result sscanf "Folder:".toList Folders 0 answer (by decide) (by decide)
  have hb : ∀ r : Int, 0 ≤ r → r < Folders.length →
      (AskMenu sscanf "Folder:".toList Folders 0 answer).result = some r →
      ∃ idx : Nat, (AskMenu sscanf "Folder:".toList Folders 0 answer).result
          = some (idx : Int) ∧ idx < Folders.length ∧
        (Create tbl prt ReadTemplate today ⟨title, idx, tagsInput, body, urlInput⟩).isSome
          = true := by
    intro r hr0 hr1 hres
    obtain ⟨idx, rfl⟩ := Int.eq_ofNat_of_zero_le hr0
    have hlt : idx < Folders.length := by omega
    refine ⟨idx, hres, hlt, ?_⟩
    rw [Create_eq tbl prt ReadTemplate today ⟨title, idx, tagsInput, body, urlInput⟩
      (Folders.get ⟨idx, hlt⟩) (List.get?_eq_get hlt)]
    rfl
  refine hb _ ?_ ?_ hr
  · split_ifs
    · exact le_refl _
    · split
      · exact le_refl _
      · split_ifs <;> omega
  · have hl : (Folders.length : Int) = 4 := rfl
    split_ifs
    · rw [hl]; decide
    · split
      · rw [hl]; decide
      · split_ifs <;> omega

/-- Witness of C25: the case "select option 2" of `TestPrompterAskMenu`. -/
theorem C25_askMenu_witness :
    (0 : Int) ≤ 0 ∧ (0 : Int) < ["A".toList, "B".toList, "C".toList].length ∧
    (AskMenu readDecimal "Pick:".toList ["A".toList, "B".toList, "C".toList] 0
      "2".toList).result = some 1 := by
  refine ⟨by decide, by decide, ?_⟩
  obtain ⟨r, hr, _, _, hc, _⟩ := (C25_askMenu readDecimal "Pick:".toList
    ["A".toList, "B".toList, "C".toList] 0 "2".toList (by decide) (by decide)).1
  rw [hr, hc 2 (by decide) (by decide) (by decide) (by decide)]
  rfl

set_option maxRecDepth 100000 in
/-- C26, the failing input: for the body of fifty letters U+023A and an "x", and the query
"x", the match is at byte 150 of the lowercased body, the body has 101 bytes, and the bounds
`findExcerpt` computes are start 110 and end 101: the slice `body[110:101]` is out of range and
the function panics. -/
theorem C26_excerpt_bounds_failing_input :
    excerptBounds strokeTable strokeBody "x".toList = some (110, 101) ∧
    ¬ ((110 : Int) ≤ 101) ∧
    findExcerpt strokeTable strokeBody "x".toList = none := by
  decide

/-- C27: for every title, each of the four folders and a date of digits and hyphens, the file
name `Create` chooses is a text over `[a-z0-9-]` followed by ".md"; it holds no "/" and no
"\", ".." does not occur in it, and it is not empty. -/
theorem C27_path_safe (tbl : Char → Char) (prt : Char → Bool) (ReadTemplate : Str → Option Str)
    (today : Str) (a : Answers) (folder : Str) (hf : Folders.get? a.folderIdx = some folder)
    (hd : ∀ c ∈ today, isDateChar c = true) :
    ∃ c stem, Create tbl prt ReadTemplate today a = some c ∧ c.folder = folder ∧
      c.filename = stem ++ ".md".toList ∧ (∀ x ∈ stem, inSlugClass x = true) ∧
      '/' ∉ c.filename ∧ '\\' ∉ c.filename ∧ ¬ ("..".toList <:+: c.filename) ∧
      c.filename ≠ [] := by
  have hs : ∀ x ∈ Slugify tbl a.title, inSlugClass x = true := (slugify_isSlug tbl a.title).1
  by_cases hp : folder = "Inbox".toList ∨ folder = "Projects".toList
  · have hstem : ∀ x ∈ today ++ "-".toList ++ Slugify tbl a.title, inSlugClass x = true := by
      intro x hx
      simp only [List.mem_append] at hx
      rcases hx with (hx | hx) | hx
      · exact inSlugClass_of_dateChar x (hd x hx)
      · rw [List.mem_singleton.1 hx]; rfl
      · exact hs x hx
    obtain ⟨n1, n2, n3⟩ := no_dots_of_stem _ hstem
    refine ⟨_, today ++ "-".toList ++ Slugify tbl a.title,
      Create_eq tbl prt ReadTemplate today a folder hf, rfl, ?_, hstem, ?_, ?_, ?_, ?_⟩
    · simp only
      rw [if_pos hp]
    · simp only
      rw [if_pos hp]
      exact n1
    · simp only
      rw [if_pos hp]
      exact n2
    · simp only
      rw [if_pos hp]
      exact n3
    · simp only
      rw [if_pos hp]
      simp
  · obtain ⟨n1, n2, n3⟩ := no_dots_of_stem _ hs
    refine ⟨_, Slugify tbl a.title,
      Create_eq tbl prt ReadTemplate today a folder hf, rfl, ?_, hs, ?_, ?_, ?_, ?_⟩
    · simp only
      rw [if_neg hp]
    · simp only
      rw [if_neg hp]
      exact n1
    · simp only
      rw [if_neg hp]
      exact n2
    · simp only
      rw [if_neg hp]
      exact n3
    · simp only
      rw [if_neg hp]
      simp

/-- Witness of C27: a title with path separators and dots, in the folder Areas. -/
theorem C27_path_safe_witness :
    Folders.get? dotsAnswers.folderIdx = some "Areas".toList ∧
    (∀ c ∈ "2026-02-13".toList, isDateChar c = true) ∧
    ∃ c stem, Create id (fun _ => true) fixtureTemplates "2026-02-13".toList dotsAnswers
        = some c ∧ c.folder = "Areas".toList ∧
      c.filename = stem ++ ".md".toList ∧ (∀ x ∈ stem, inSlugClass x = true) ∧
      '/' ∉ c.filename ∧ '\\' ∉ c.filename ∧ ¬ ("..".toList <:+: c.filename) ∧
      c.filename ≠ [] :=
  ⟨by decide, by decide,
   C27_path_safe id (fun _ => true) fixtureTemplates "2026-02-13".toList dotsAnswers
    "Areas".toList (by decide) (by decide)⟩

/-- C28: for a Frontmatter whose title is over ASCII letters, digits, spaces and hyphens, whose
date and status are over ASCII letters, digits and hyphens, and whose tags and aliases are
non-empty texts over `[a-z0-9-]`, decoding the encoded header returns the Frontmatter, an empty
body and no error. -/
theorem C28_plain_roundtrip (prt : Char → Bool) (fm : Frontmatter)
    (ht : ∀ c ∈ fm.Title, isTitleChar c = true) (hd : ∀ c ∈ fm.Date, isWordChar c = true)
    (hs : ∀ c ∈ fm.Status, isWordChar c = true) (htags : ∀ t ∈ fm.Tags, SlugWord t)
    (hal : ∀ t ∈ fm.Aliases, SlugWord t) :
    ParseFrontmatterFromBytes (FormatFrontmatter prt fm) = ⟨fm, [], none⟩ :=
  roundtrip_core prt fm
    (noNewline_of_class fm (fun c hc => titleChar_of_wordChar c (hd c hc))
      (fun c hc => titleChar_of_wordChar c (hs c hc)) htags hal)
    (plainTitle_of_class prt fm.Title ht) (TrimSpace_word fm.Date hd)
    (fun t h => plainItem_of_slugWord t (htags t h)) (TrimSpace_word fm.Status hs)
    (fun t h => plainItem_of_slugWord t (hal t h))

/-- Witness of C28: the Frontmatter of the first test of `TestParseFrontmatterFromBytes`. -/
theorem C28_plain_roundtrip_witness :
    (∀ c ∈ sampleFrontmatter.Title, isTitleChar c = true) ∧
    (∀ c ∈ sampleFrontmatter.Date, isWordChar c = true) ∧
    (∀ c ∈ sampleFrontmatter.Status, isWordChar c = true) ∧
    (∀ t ∈ sampleFrontmatter.Tags, SlugWord t) ∧
    (∀ t ∈ sampleFrontmatter.Aliases, SlugWord t) ∧
    ParseFrontmatterFromBytes (FormatFrontmatter (fun _ => true) sampleFrontmatter)
      = ⟨sampleFrontmatter, [], none⟩ :=
  ⟨by decide, by decide, by decide, by decide, by decide,
   C28_plain_roundtrip (fun _ => true) sampleFrontmatter (by decide) (by decide) (by decide)
    (by decide) (by decide)⟩

/-- C29: for a title over ASCII letters, digits, spaces and hyphens, a date over digits and
hyphens, tags that are non-empty texts over `[a-z0-9-]`, and every body, URL list and project
flag, decoding the text `buildFallbackContent` builds returns the Frontmatter with that title,
date and tags, the status "active" for a project and "draft" otherwise, and no aliases, no
error, and a body that starts with an empty line and the line "# title". -/
theorem C29_generated_note (prt : Char → Bool) (title date : Str) (tags : List Str) (body : Str)
    (urls : List Str) (isProject : Bool)
    (ht : ∀ c ∈ title, isTitleChar c = true) (hd : ∀ c ∈ date, isDateChar c = true)
    (htags : ∀ t ∈ tags, SlugWord t) :
    ∃ rest,
      ParseFrontmatterFromBytes (buildFallbackContent prt title date tags body urls isProject) =
        ⟨⟨title, date, tags, if isProject then "active".toList else "draft".toList, []⟩,
          "\n# ".toList ++ title ++ "\n".toList ++ rest, none⟩ := by
  obtain ⟨rest, hrest⟩ := buildFallbackContent_split prt title date tags body urls isProject
  refine ⟨rest, ?_⟩
  have hst : ∀ c ∈ (if isProject then "active".toList else "draft".toList),
      isWordChar c = true := by
    cases isProject <;> decide
  have hdw : ∀ c ∈ date, isWordChar c = true := fun c hc => wordChar_of_dateChar c (hd c hc)
  have hn : NoNewline
      ⟨title, date, tags, if isProject then "active".toList else "draft".toList, []⟩ :=
    noNewline_of_class _ (fun c hc => titleChar_of_wordChar c (hdw c hc))
      (fun c hc => titleChar_of_wordChar c (hst c hc)) htags (by simp)
  rw [hrest, parse_format prt _ _ hn,
    fold_headerLines prt _ (plainTitle_of_class prt title ht) (TrimSpace_word date hdw)
      (fun t h => plainItem_of_slugWord t (htags t h)) (TrimSpace_word _ hst) (by simp)]

/-- Witness of C29: the note "My Project" of `TestCreateProject`, as a project with a body. -/
theorem C29_generated_note_witness :
    (∀ c ∈ "My Project".toList, isTitleChar c = true) ∧
    (∀ c ∈ "2026-02-13".toList, isDateChar c = true) ∧
    (∀ t ∈ ["project".toList], SlugWord t) ∧
    ∃ rest,
      ParseFrontmatterFromBytes (buildFallbackContent (fun _ => true) "My Project".toList
          "2026-02-13".toList ["project".toList] "Ship it".toList [] true) =
        ⟨⟨"My Project".toList, "2026-02-13".toList, ["project".toList],
            if true then "active".toList else "draft".toList, []⟩,
          "\n# ".toList ++ "My Project".toList ++ "\n".toList ++ rest, none⟩ :=
  ⟨by decide, by decide, by decide,
   C29_generated_note (fun _ => true) "My Project".toList "2026-02-13".toList
    ["project".toList] "Ship it".toList [] true (by decide) (by decide) (by decide)⟩

/-- C30, the counterexample: with the title "T", the date "2026-02-13", no tag, no body and no
URL, the template path leaves one empty line between the headings "## Notes" and
"## References" and the fallback two; with the body "b" and the URL "u", the template path
writes the bullet line right under the heading "## References" and an empty line after it, the
fallback an empty line and then the bullet line. -/
theorem C30_template_fallback_counterexample :
    buildNoteContent (fun _ => true) (some basicTemplate) "basic.md".toList "T".toList
        "2026-02-13".toList [] [] []
      = ("---\ntitle: \"T\"\ndate: 2026-02-13\ntags: []\nstatus: draft\naliases: []\n---\n"
          ++ "\n# T\n\n## Notes\n\n## References\n").toList ∧
    buildFallbackContent (fun _ => true) "T".toList "2026-02-13".toList [] [] [] false
      = ("---\ntitle: \"T\"\ndate: 2026-02-13\ntags: []\nstatus: draft\naliases: []\n---\n"
          ++ "\n# T\n\n## Notes\n\n\n## References\n").toList ∧
    buildNoteContent (fun _ => true) (some basicTemplate) "basic.md".toList "T".toList
        "2026-02-13".toList [] "b".toList ["u".toList]
      = ("---\ntitle: \"T\"\ndate: 2026-02-13\ntags: []\nstatus: draft\naliases: []\n---\n"
          ++ "\n# T\n\n## Notes\n\nb\n\n## References\n- u\n\n").toList ∧
    buildFallbackContent (fun _ => true) "T".toList "2026-02-13".toList [] "b".toList
        ["u".toList] false
      = ("---\ntitle: \"T\"\ndate: 2026-02-13\ntags: []\nstatus: draft\naliases: []\n---\n"
          ++ "\n# T\n\n## Notes\n\nb\n\n## References\n\n- u\n").toList ∧
    buildNoteContent (fun _ => true) (some basicTemplate) "basic.md".toList "T".toList
        "2026-02-13".toList [] [] []
      ≠ buildFallbackContent (fun _ => true) "T".toList "2026-02-13".toList [] [] [] false ∧
    buildNoteContent (fun _ => true) (some basicTemplate) "basic.md".toList "T".toList
        "2026-02-13".toList [] "b".toList ["u".toList]
      ≠ buildFallbackContent (fun _ => true) "T".toList "2026-02-13".toList [] "b".toList
        ["u".toList] false := by
  decide

/-- C30, amended: for the template basic.md of the test fixture, a title and a date over ASCII
letters, digits, spaces and hyphens, tags over `[a-z0-9-]`, a body that is not empty and no
URL, the template path of `buildNoteContent` returns the text `buildFallbackContent` returns
for a note that is not a project. -/
theorem C30_template_fallback (prt : Char → Bool) (title date : Str) (tags : List Str)
    (body : Str) (ht : ∀ c ∈ title, isTitleChar c = true)
    (hd : ∀ c ∈ date, isTitleChar c = true)
    (htags : ∀ t ∈ tags, ∀ c ∈ t, inSlugClass c = true) (hb : body ≠ []) :
    buildNoteContent prt (some basicTemplate) "basic.md".toList title date tags body [] =
      buildFallbackContent prt title date tags body [] false := by
  have hfill : ReplaceAll (ReplaceAll basicTemplate "{{title}}".toList title)
      "{{date}}".toList date
      = FormatFrontmatter prt ⟨title, date, [], "draft".toList, []⟩
        ++ ("\n# ".toList ++ title ++ "\n\n## Notes\n\n## References\n".toList) := by
    rw [fill_basicTemplate title date (not_mem_of_class title '{' ht (by decide))]
    unfold FormatFrontmatter
    rw [Quote_plain prt title (plainTitle_of_class prt title ht)]
    simp [Join, intercalate_nil]
  have hn : NoNewline ⟨title, date, [], "draft".toList, []⟩ :=
    ⟨not_mem_of_class date '\n' hd (by decide),
      (by decide : '\n' ∉ "draft".toList), by simp, by simp⟩
  rw [buildNoteContent_basic_filled prt basicTemplate title date tags body [] _ _ hn hfill,
    buildFallbackContent_basic]
  simp only [List.length_nil, gt_iff_lt, lt_self_iff_false, if_false, hb, ne_eq,
    not_false_eq_true, if_true, not_true_eq_false]
  have hpre := addBodyToContent_present
    (FormatFrontmatter prt ⟨title, date, tags, "draft".toList, []⟩
      ++ ("\n# ".toList ++ title ++ "\n\n".toList))
    "\n\n".toList "## References\n".toList body
    (notes_first _ title (no_hash_format prt title date tags ht hd htags)
      (no_hash_of_class title ht))
    (by decide) (by decide)
  have e : FormatFrontmatter prt ⟨title, date, tags, "draft".toList, []⟩
      ++ ("\n# ".toList ++ title ++ "\n\n## Notes\n\n## References\n".toList)
      = (FormatFrontmatter prt ⟨title, date, tags, "draft".toList, []⟩
        ++ ("\n# ".toList ++ title ++ "\n\n".toList)) ++ "## Notes".toList ++ "\n\n".toList
        ++ "## References\n".toList := by
    simp
  rw [e, hpre]
  simp

/-- Witness of C30: the title "My Note", the tags go and cli, and the body "hello". -/
theorem C30_template_fallback_witness :
    (∀ c ∈ "My Note".toList, isTitleChar c = true) ∧
    (∀ c ∈ "2026-02-13".toList, isTitleChar c = true) ∧
    (∀ t ∈ ["go".toList, "cli".toList], ∀ c ∈ t, inSlugClass c = true) ∧
    "hello".toList ≠ [] ∧
    buildNoteContent (fun _ => true) (some basicTemplate) "basic.md".toList "My Note".toList
        "2026-02-13".toList ["go".toList, "cli".toList] "hello".toList [] =
      buildFallbackContent (fun _ => true) "My Note".toList "2026-02-13".toList
        ["go".toList, "cli".toList] "hello".toList [] false :=
  ⟨by decide, by decide, by decide, by decide,
   C30_template_fallback (fun _ => true) "My Note".toList "2026-02-13".toList
    ["go".toList, "cli".toList] "hello".toList (by decide) (by decide) (by decide) (by decide)⟩

end QuickNote
